import Mathlib

/-!
# Zv3D: Unicode transcoding and endian-aware primitive I/O

A shallow embedding of the codecs of `Zv3DUtf8.cpp`, `Zv3DUtf16.cpp` and
`Zv3DEndianness.h`, together with the error sink of `Zv3DError.cpp` they report to, and of
the number, hexadecimal and boolean lexers of `Zv3DIntegralParse.cpp`.

Conventions of the embedding
* `U8`, `U16`, `U32` values are natural numbers; every place where C++ converts to a
  narrower unsigned type is an explicit `% 2 ^ w`.
* A buffer is a `List Nat` of byte cells starting at the pointer handed to the function;
  a null pointer is `none`.  A cursor into a buffer is an index.
* An optional out-parameter (`U32* p`) is an `Option Nat`: `none` for a null pointer,
  `some v` for a pointer to a variable currently holding `v`.
* The host byte order is a parameter `hostLE : Bool` (`true` on a little-endian machine).
* `ZV3D_ASSERT_HIGH` expands to `((void) 0)` at the default `ZV3D_DEBUG_LEVEL_NONE`, so the
  assertions do not appear in the embedded control flow.
* A `std::string` is a `List Char`, `npos` is `none`; `S32` values are integers reduced by
  `S32_wrap`; a `double` is the rational number it holds, and every `double` operation
  rounds its exact result to the nearest binary64 number (`F64_round`).
* A loop whose exit the source does not make evident runs under an iteration bound `fuel`;
  the result `none` means that the bound was reached with the loop still running.
-/

namespace Zv3D

/-! ## Error codes and the error sink (Zv3DErrorCodes.h, Zv3DError.h, Zv3DError.cpp) -/

/-- The enumeration `ErrorCode` of Zv3DErrorCodes.h. -/
inductive ErrorCode where
  | kERRC_UNKNOWN
  | kERRC_NO
  | kERRC_FILE_NOT_FOUND
  | kERRC_BAD_FILENAME
  | kERRC_NOT_ENOUGH_BUF_SPACE
  | kERRC_VALUE_OUT_OF_RANGE
  | kERRC_INVALID_PTR
  | kERRC_NOT_ENOUGH_DATA
  | kERRC_MALFORMED_DATA
  deriving DecidableEq, Repr

/-- The enumeration `ErrorLevel` of Zv3DError.h. -/
inductive ErrorLevel where
  | kERRL_WARN
  | kERRL_ERROR
  | kERRL_FATAL
  deriving DecidableEq, Repr

/-- The enumeration `ErrorApi` of Zv3DError.h. -/
inductive ErrorApi where
  | kERRAPI_Zv3D
  | kERRAPI_WINDOWS
  | kERRAPI_DIRECTX9
  | kERRAPI_DIRECTX11
  | kERRAPI_OPENGL
  | kERRAPI_SDL
  | kERRAPI_NO_IN_LIST_FOR_NOW
  deriving DecidableEq, Repr

/-- The data members of `class ErrorInfo`.  `message_` holds the format string handed to
`SetMessage`; the rendering of its arguments by `vsnprintf` is not modelled. -/
structure ErrorInfo where
  level_ : ErrorLevel
  code_ : ErrorCode
  api_ : ErrorApi
  line_ : Int
  filename_ : String
  message_ : String
  source_ : String
  deriving DecidableEq, Repr

/-- The two static members of `ErrorInfo`: the shared record `sErrorInfo` and the stack
`sErrorInfoStack_` (top of the stack is the head of the list). -/
structure ErrorState where
  sErrorInfo : ErrorInfo
  sErrorInfoStack_ : List ErrorInfo
  deriving DecidableEq, Repr

/-- The constructor `ErrorInfo::ErrorInfo()`. -/
def ErrorInfo.ctor : ErrorInfo :=
  { level_ := .kERRL_ERROR, code_ := .kERRC_UNKNOWN, api_ := .kERRAPI_Zv3D, line_ := -1,
    filename_ := "", message_ := "", source_ := "" }

/-- `ErrorInfo::SetCode`. -/
def ErrorInfo.SetCode (e : ErrorInfo) (code : ErrorCode) : ErrorInfo :=
  { e with code_ := code }

/-- `ErrorInfo::SetMessage` (format string only). -/
def ErrorInfo.SetMessage (e : ErrorInfo) (fmt : String) : ErrorInfo :=
  { e with message_ := fmt }

/-- `ErrorInfo::SetFnameLnCodeLevApi`, with its default arguments made explicit by the
callers below. -/
def ErrorInfo.SetFnameLnCodeLevApi (e : ErrorInfo) (filename : String) (line : Int)
    (code : ErrorCode) (level : ErrorLevel) (api : ErrorApi) : ErrorInfo :=
  { e with filename_ := filename, line_ := line, code_ := code, level_ := level, api_ := api }

/-- `ErrorInfo::SetDefaults`. -/
def ErrorInfo.SetDefaults (e : ErrorInfo) (src : String) : ErrorInfo :=
  { e with level_ := .kERRL_ERROR, code_ := .kERRC_NO, api_ := .kERRAPI_Zv3D, line_ := -1,
           filename_ := "", message_ := "", source_ := src }

/-- `ErrorInfo::PushInStack` applied to the shared record: pushes a copy of it and
returns its code. -/
def ErrorState.PushInStack (s : ErrorState) : ErrorCode × ErrorState :=
  (s.sErrorInfo.code_, { s with sErrorInfoStack_ := s.sErrorInfo :: s.sErrorInfoStack_ })

/-! ## Byte order and scalar access (Zv3DEndianness.h) -/

/-- The enumeration `EndianType`. -/
inductive EndianType where
  | kIgnoreEndian
  | kLittleEndian
  | kBigEndian
  deriving DecidableEq, Repr

/-- The object representation of an `n`-byte unsigned scalar `v` on the host, lowest
address first: this is what `reinterpret_cast<U8*>(&v)` addresses. -/
def toMem (hostLE : Bool) (n v : Nat) : List Nat :=
  let le := (List.range n).map (fun i => (v / 256 ^ i) % 256)
  if hostLE then le else le.reverse

/-- Value of a little-endian byte string. -/
def fromMemLE : List Nat → Nat
  | [] => 0
  | b :: bs => b + 256 * fromMemLE bs

/-- The scalar whose object representation on the host is `bs`. -/
def fromMem (hostLE : Bool) (bs : List Nat) : Nat :=
  fromMemLE (if hostLE then bs else bs.reverse)

/-- The inline function `isLittleEndian`: the byte at the lowest address of `U32(1)`. -/
def isLittleEndian (hostLE : Bool) : Bool :=
  (toMem hostLE 4 1).getD 0 0 != 0

/-- Modelled from the spec: `platformEndian()` is declared in Zv3DEndianness.h but its body
is not among the sources.  The spec says it "returns the host's physical byte ordering by
probing the low-order byte of a multi-byte integer value of 1", one of the two orderings
little and big. -/
def platformEndian (hostLE : Bool) : EndianType :=
  if isLittleEndian hostLE then .kLittleEndian else .kBigEndian

/-- The template `getByte<T>` for a scalar of `n = sizeof(T)` bytes. -/
def getByte (hostLE : Bool) (n : Nat) (src : Nat) (byteIndex : Nat) : Nat :=
  if EndianType.kLittleEndian = platformEndian hostLE then
    (toMem hostLE n src).getD byteIndex 0
  else
    (toMem hostLE n src).getD (n - 1 - byteIndex) 0

/-- The template `setByte<T>` for a scalar of `n = sizeof(T)` bytes; returns the new
value of `dst`. -/
def setByte (hostLE : Bool) (n : Nat) (dst : Nat) (byteIndex : Nat) (v : Nat) : Nat :=
  if EndianType.kLittleEndian = platformEndian hostLE then
    fromMem hostLE ((toMem hostLE n dst).set byteIndex v)
  else
    fromMem hostLE ((toMem hostLE n dst).set (n - 1 - byteIndex) v)

/-! ## Ranges (Zv3DRange.h) -/

/-- The enumeration `Range<T>::BoundaryType`. -/
inductive BoundaryType where
  | kBT_Exclude
  | kBT_Include
  deriving DecidableEq, Repr

/-- The structure `Range<T>::Boundary`, at `T = U32`. -/
structure Boundary where
  value : Nat
  boundary_type : BoundaryType
  deriving DecidableEq, Repr

/-- The class `Range<T>`, at `T = U32`. -/
structure Range where
  low : Boundary
  high : Boundary
  deriving DecidableEq, Repr

/-- The method `Range<T>::in`. -/
def Range.in_ (r : Range) (point : Nat) : Bool :=
  if BoundaryType.kBT_Include = r.low.boundary_type ∧
      BoundaryType.kBT_Include = r.high.boundary_type then
    decide (point ≥ r.low.value ∧ point ≤ r.high.value)
  else if BoundaryType.kBT_Include = r.low.boundary_type ∧
      BoundaryType.kBT_Exclude = r.high.boundary_type then
    decide (point ≥ r.low.value ∧ point < r.high.value)
  else if BoundaryType.kBT_Exclude = r.low.boundary_type ∧
      BoundaryType.kBT_Include = r.high.boundary_type then
    decide (point > r.low.value ∧ point ≤ r.high.value)
  else if BoundaryType.kBT_Exclude = r.low.boundary_type ∧
      BoundaryType.kBT_Exclude = r.high.boundary_type then
    decide (point > r.low.value ∧ point < r.high.value)
  else
    false

/-! ## UTF-8 (Zv3DUtf8.cpp) -/

/-- The table `s_range_and_octets`. -/
def s_range_and_octets : List (Range × Nat) :=
  [ (⟨⟨0, .kBT_Include⟩, ⟨0x0000007F, .kBT_Include⟩⟩, 1),
    (⟨⟨0x00000080, .kBT_Include⟩, ⟨0x000007FF, .kBT_Include⟩⟩, 2),
    (⟨⟨0x00000800, .kBT_Include⟩, ⟨0x0000FFFF, .kBT_Include⟩⟩, 3),
    (⟨⟨0x00010000, .kBT_Include⟩, ⟨0x0010FFFF, .kBT_Include⟩⟩, 4) ]

/-- The loop of `findOctetCount` over the entries not yet visited. -/
def findOctetCountFrom : List (Range × Nat) → Nat → Nat
  | [], _ => 0
  | e :: rest, cp => if e.1.in_ cp then e.2 else findOctetCountFrom rest cp

/-- The function `findOctetCount`. -/
def findOctetCount (cp : Nat) : Nat :=
  findOctetCountFrom s_range_and_octets cp

/-- What a call of `ToUtf8` or `ToUtf16` leaves behind: the returned code, the destination
buffer, the variable behind `dstSizeNeeded`, and the error sink. -/
structure EncodeResult where
  code : ErrorCode
  dstBuf : Option (List Nat)
  dstSizeNeeded : Option Nat
  err : ErrorState
  deriving DecidableEq, Repr

/-- The "fill the buffer" loop of `ToUtf8`, `for (U32 i = cOctets - 1; i > 0; i--)`,
as a function of the current `i`; returns the buffer and the shifted `cp`. -/
def ToUtf8_fill (hostLE : Bool) : Nat → List Nat → Nat → List Nat × Nat
  | 0, dstBufU8, cp => (dstBufU8, cp)
  | i + 1, dstBufU8, cp =>
    ToUtf8_fill hostLE i
      (dstBufU8.set (i + 1) ((0x80 ||| (0x3F &&& getByte hostLE 4 cp 0)) % 256))
      (cp >>> 6)

/-- The function `ToUtf8`. -/
def ToUtf8 (hostLE : Bool) (err : ErrorState) (dstBuf : Option (List Nat)) (dstSize : Nat)
    (cp : Nat) (dstSizeNeeded : Option Nat) : EncodeResult :=
  let errorInfo := err.sErrorInfo.SetDefaults "Zv3D::ToUtf8()"
  let cOctets := findOctetCount cp
  if 0 = cOctets then
    let errorInfo := (errorInfo.SetFnameLnCodeLevApi "Zv3DUtf8.cpp" 80
      .kERRC_VALUE_OUT_OF_RANGE .kERRL_ERROR .kERRAPI_Zv3D).SetMessage
      "Unicode point(%x) passed is out of range"
    let r := ErrorState.PushInStack { err with sErrorInfo := errorInfo }
    { code := r.1, dstBuf := dstBuf, dstSizeNeeded := dstSizeNeeded, err := r.2 }
  else
    let dstSizeNeeded := dstSizeNeeded.map (fun _ => cOctets)
    if 0 = dstSize then
      let errorInfo := errorInfo.SetCode .kERRC_NOT_ENOUGH_BUF_SPACE
      { code := errorInfo.code_, dstBuf := dstBuf, dstSizeNeeded := dstSizeNeeded,
        err := { err with sErrorInfo := errorInfo } }
    else if dstSize < cOctets then
      let errorInfo := (errorInfo.SetFnameLnCodeLevApi "Zv3DUtf8.cpp" 96
        .kERRC_NOT_ENOUGH_BUF_SPACE .kERRL_ERROR .kERRAPI_Zv3D).SetMessage
        "Not enough destination buffer size(%u bytes), %u bytes required"
      let r := ErrorState.PushInStack { err with sErrorInfo := errorInfo }
      { code := r.1, dstBuf := dstBuf, dstSizeNeeded := dstSizeNeeded, err := r.2 }
    else
      match dstBuf with
      | none =>
        let errorInfo := (errorInfo.SetFnameLnCodeLevApi "Zv3DUtf8.cpp" 103
          .kERRC_INVALID_PTR .kERRL_FATAL .kERRAPI_Zv3D).SetMessage
          "Its need to turn to debug build and to debug code properly"
        let r := ErrorState.PushInStack { err with sErrorInfo := errorInfo }
        { code := r.1, dstBuf := none, dstSizeNeeded := dstSizeNeeded, err := r.2 }
      | some dstBufU8 =>
        let filled := ToUtf8_fill hostLE (cOctets - 1) dstBufU8 cp
        let dstBufU8 := filled.1
        let cp := filled.2
        let dstBufU8 := dstBufU8.set 0 0
        let dstBufU8 :=
          if cOctets > 1 then dstBufU8.set 0 ((0x0F <<< (8 - cOctets)) % 256) else dstBufU8
        let dstBufU8 := dstBufU8.set 0 ((dstBufU8.getD 0 0 ||| getByte hostLE 4 cp 0) % 256)
        { code := errorInfo.code_, dstBuf := some dstBufU8, dstSizeNeeded := dstSizeNeeded,
          err := { err with sErrorInfo := errorInfo } }

/-- What a call of `FromUtf8` or `FromUtf16` leaves behind: the returned code, the
variable `cp`, the variable behind `srcReadBytes`, and the error sink. -/
structure DecodeResult where
  code : ErrorCode
  cp : Nat
  srcReadBytes : Option Nat
  err : ErrorState
  deriving DecidableEq, Repr

/-- The `while (srcBufU8[0] & flag)` loop of `FromUtf8` with its `break`; `fuel` bounds the
number of iterations and `none` means the bound was hit.  Returns `(cOctets, mask)`. -/
def FromUtf8_scan (b0 : Nat) : Nat → Nat → Nat → Nat → Option (Nat × Nat)
  | 0, _, _, _ => none
  | fuel + 1, cOctets, mask, flag =>
    if b0 &&& flag ≠ 0 then
      let cOctets := cOctets + 1
      let mask := mask >>> 1
      let flag := flag >>> 1
      if cOctets = 4 then some (cOctets, mask)
      else FromUtf8_scan b0 fuel cOctets mask flag
    else some (cOctets, mask)

/-- The "find octet num" block of `FromUtf8`: `(cOctets, mask)` from the lead byte.  The
loop is given 8 iterations, the width of the `U8` variable `flag` it shifts right. -/
def FromUtf8_octets (b0 : Nat) : Option (Nat × Nat) :=
  let cOctets := 1
  let flag := 0x80
  let mask := 0x7F
  if b0 &&& flag ≠ 0 then
    let flag := flag >>> 1
    FromUtf8_scan b0 8 cOctets mask flag
  else some (cOctets, mask)

/-- The "fill cp" loop of `FromUtf8`, `for (U32 i = 1; i < cOctets; i++)`, as a function of
the number of iterations left and the current `i`. -/
def FromUtf8_fill (hostLE : Bool) (srcBufU8 : List Nat) : Nat → Nat → Nat → Nat
  | 0, _, cp => cp
  | k + 1, i, cp =>
    let cp := (cp <<< 6) % 2 ^ 32
    let cp := setByte hostLE 4 cp 0
      ((getByte hostLE 4 cp 0 ||| (srcBufU8.getD i 0 &&& 0x3F)) % 256)
    FromUtf8_fill hostLE srcBufU8 k (i + 1) cp

/-- The function `FromUtf8`; `none` only if the lead-byte loop did not finish. -/
def FromUtf8 (hostLE : Bool) (err : ErrorState) (cp : Nat) (srcBuf : Option (List Nat))
    (srcSize : Nat) (srcReadBytes : Option Nat) : Option DecodeResult :=
  let errorInfo := err.sErrorInfo.SetDefaults "Zv3D::FromUtf8()"
  match srcBuf with
  | none =>
    let errorInfo := (errorInfo.SetFnameLnCodeLevApi "Zv3DUtf8.cpp" 130
      .kERRC_INVALID_PTR .kERRL_FATAL .kERRAPI_Zv3D).SetMessage
      "Its need to turn to debug build and to debug code properly"
    let r := ErrorState.PushInStack { err with sErrorInfo := errorInfo }
    some { code := r.1, cp := cp, srcReadBytes := srcReadBytes, err := r.2 }
  | some srcBufU8 =>
    if 0 = srcSize then
      let errorInfo := (errorInfo.SetFnameLnCodeLevApi "Zv3DUtf8.cpp" 135
        .kERRC_NOT_ENOUGH_DATA .kERRL_ERROR .kERRAPI_Zv3D).SetMessage
        "Not enough data in source buffer (source size: %u bytes)"
      let r := ErrorState.PushInStack { err with sErrorInfo := errorInfo }
      some { code := r.1, cp := cp, srcReadBytes := srcReadBytes, err := r.2 }
    else
      match FromUtf8_octets (srcBufU8.getD 0 0) with
      | none => none
      | some (cOctets, mask) =>
        if cOctets > srcSize then
          let errorInfo := (errorInfo.SetFnameLnCodeLevApi "Zv3DUtf8.cpp" 156
            .kERRC_NOT_ENOUGH_DATA .kERRL_ERROR .kERRAPI_Zv3D).SetMessage
            "Not enough data in source buffer (source size: %u bytes), required %u bytes"
          let r := ErrorState.PushInStack { err with sErrorInfo := errorInfo }
          some { code := r.1, cp := cp, srcReadBytes := srcReadBytes, err := r.2 }
        else
          let cp := setByte hostLE 4 cp 0 ((srcBufU8.getD 0 0 &&& mask) % 256)
          let cp := FromUtf8_fill hostLE srcBufU8 (cOctets - 1) 1 cp
          let srcReadBytes := srcReadBytes.map (fun _ => cOctets)
          some { code := errorInfo.code_, cp := cp, srcReadBytes := srcReadBytes,
                 err := { err with sErrorInfo := errorInfo } }

/-! ## Bounded scalar transfer (Zv3DEndianness.h) -/

/-- What a call of `writeBuiltin` leaves behind: the returned flag, the buffer, and the
reference parameters `pDst` and `dstSize`. -/
structure WriteResult where
  ok : Bool
  buf : List Nat
  pDst : Nat
  dstSize : Nat
  deriving DecidableEq, Repr

/-- The loop `while (pDst != pDstEnd--) { *pDstEnd = *pSrc++; }` of `writeBuiltin`, as a
function of the distance `pDstEnd - pDst` at the comparison; `pSrc` is the part of the
object representation of `src` not yet copied. -/
def writeBuiltin_swapped (pDst : Nat) : Nat → List Nat → List Nat → List Nat
  | 0, _, buf => buf
  | k + 1, pSrc, buf => writeBuiltin_swapped pDst k pSrc.tail (buf.set (pDst + k) (pSrc.headD 0))

/-- The loop `while (pDst != pDstEnd) { *pDst++ = *pSrc++; }` of `writeBuiltin`, as a
function of the distance `pDstEnd - pDst`; returns the buffer and the advanced `pDst`. -/
def writeBuiltin_straight : Nat → Nat → List Nat → List Nat → List Nat × Nat
  | 0, pDst, _, buf => (buf, pDst)
  | k + 1, pDst, pSrc, buf =>
    writeBuiltin_straight k (pDst + 1) pSrc.tail (buf.set pDst (pSrc.headD 0))

/-- The template `writeBuiltin<T>` for a scalar of `n = sizeof(T)` bytes. -/
def writeBuiltin (hostLE : Bool) (n : Nat) (buf : List Nat) (pDst dstSize : Nat) (src : Nat)
    (endianType : EndianType) : WriteResult :=
  if dstSize < n then { ok := false, buf := buf, pDst := pDst, dstSize := dstSize }
  else
    let pSrc := toMem hostLE n src
    if platformEndian hostLE ≠ endianType then
      let buf := writeBuiltin_swapped pDst n pSrc buf
      { ok := true, buf := buf, pDst := pDst + n, dstSize := dstSize - n }
    else
      let r := writeBuiltin_straight n pDst pSrc buf
      { ok := true, buf := r.1, pDst := r.2, dstSize := dstSize - n }

/-- What a call of `readBuiltin` leaves behind: the returned flag, the reference parameters
`pSrc` and `srcSize`, and the variable `dst`. -/
structure ReadResult where
  ok : Bool
  pSrc : Nat
  srcSize : Nat
  dst : Nat
  deriving DecidableEq, Repr

/-- The loop `while (pSrc != pSrcEnd--) { *pDst++ = *pSrcEnd; }` of `readBuiltin`, as a
function of the distance `pSrcEnd - pSrc` at the comparison; `dstMem` is the object
representation of `dst` and `pDst` the index into it. -/
def readBuiltin_swapped (buf : List Nat) (pSrc : Nat) : Nat → Nat → List Nat → List Nat
  | 0, _, dstMem => dstMem
  | k + 1, pDst, dstMem =>
    readBuiltin_swapped buf pSrc k (pDst + 1) (dstMem.set pDst (buf.getD (pSrc + k) 0))

/-- The loop `while (pSrc != pSrcEnd) { *pDst++ = *pSrc++; }` of `readBuiltin`, as a
function of the distance `pSrcEnd - pSrc`; returns the representation of `dst` and the
advanced `pSrc`. -/
def readBuiltin_straight (buf : List Nat) : Nat → Nat → Nat → List Nat → List Nat × Nat
  | 0, pSrc, _, dstMem => (dstMem, pSrc)
  | k + 1, pSrc, pDst, dstMem =>
    readBuiltin_straight buf k (pSrc + 1) (pDst + 1) (dstMem.set pDst (buf.getD pSrc 0))

/-- The template `readBuiltin<T>` for a scalar of `n = sizeof(T)` bytes; `dst` is the value
the destination variable holds before the call. -/
def readBuiltin (hostLE : Bool) (n : Nat) (buf : List Nat) (pSrc srcSize : Nat) (dst : Nat)
    (endianType : EndianType) : ReadResult :=
  if srcSize < n then { ok := false, pSrc := pSrc, srcSize := srcSize, dst := dst }
  else
    let dstMem := toMem hostLE n dst
    if platformEndian hostLE ≠ endianType then
      let dstMem := readBuiltin_swapped buf pSrc n 0 dstMem
      { ok := true, pSrc := pSrc + n, srcSize := srcSize - n, dst := fromMem hostLE dstMem }
    else
      let r := readBuiltin_straight buf n pSrc 0 dstMem
      { ok := true, pSrc := r.2, srcSize := srcSize - n, dst := fromMem hostLE r.1 }

/-! ## UTF-16 (Zv3DUtf16.cpp) -/

/-- Conversion of a C++ `int` expression to `U32`. -/
def U32_ofInt (i : Int) : Nat :=
  (i % 4294967296).toNat

/-- The function `Utf16_makeSurrogates`; returns the flag and the two `U16` outputs. -/
def Utf16_makeSurrogates (s1 s2 : Nat) (cp : Nat) : Bool × Nat × Nat :=
  if cp ≥ 0x10000 then
    let cp2 := cp - 0x10000
    (true, (0xD800 + (cp2 >>> 10)) % 2 ^ 32 % 65536, (0xDC00 + (cp2 &&& 0x3FF)) % 2 ^ 32 % 65536)
  else (false, s1, s2)

/-- The function `ToUtf16`.  The array `U16 s[2]` is uninitialised in the source; it is
given the content `0, 0` here, which `Utf16_makeSurrogates` overwrites on this path. -/
def ToUtf16 (hostLE : Bool) (err : ErrorState) (dstBuf : Option (List Nat)) (dstSize : Nat)
    (cp : Nat) (dstSizeNeeded : Option Nat) (endianType : EndianType) : EncodeResult :=
  let errorInfo := err.sErrorInfo.SetDefaults "Zv3D::ToUtf16()"
  if cp ≥ 0x10000 then
    let dstSizeNeeded := dstSizeNeeded.map (fun _ => 4)
    if 0 = dstSize then
      let errorInfo := errorInfo.SetCode .kERRC_NOT_ENOUGH_BUF_SPACE
      { code := errorInfo.code_, dstBuf := dstBuf, dstSizeNeeded := dstSizeNeeded,
        err := { err with sErrorInfo := errorInfo } }
    else
      let s := Utf16_makeSurrogates 0 0 cp
      match dstBuf with
      | none =>
        let errorInfo := (errorInfo.SetFnameLnCodeLevApi "Zv3DUtf16.cpp" 89
          .kERRC_INVALID_PTR .kERRL_FATAL .kERRAPI_Zv3D).SetMessage
          "Its need to turn to debug build and to debug code properly"
        let r := ErrorState.PushInStack { err with sErrorInfo := errorInfo }
        { code := r.1, dstBuf := none, dstSizeNeeded := dstSizeNeeded, err := r.2 }
      | some dstBufU8 =>
        let w1 := writeBuiltin hostLE 2 dstBufU8 0 dstSize s.2.1 endianType
        if !w1.ok then
          let errorInfo := (errorInfo.SetFnameLnCodeLevApi "Zv3DUtf16.cpp" 94
            .kERRC_NOT_ENOUGH_BUF_SPACE .kERRL_ERROR .kERRAPI_Zv3D).SetMessage
            "Not enough destination buffer size(%u bytes), %u bytes required"
          let r := ErrorState.PushInStack { err with sErrorInfo := errorInfo }
          { code := r.1, dstBuf := some w1.buf, dstSizeNeeded := dstSizeNeeded, err := r.2 }
        else
          let w2 := writeBuiltin hostLE 2 w1.buf w1.pDst w1.dstSize s.2.2 endianType
          if !w2.ok then
            let errorInfo := (errorInfo.SetFnameLnCodeLevApi "Zv3DUtf16.cpp" 100
              .kERRC_NOT_ENOUGH_BUF_SPACE .kERRL_ERROR .kERRAPI_Zv3D).SetMessage
              "Not enough destination buffer size(%u bytes), %u bytes required"
            let r := ErrorState.PushInStack { err with sErrorInfo := errorInfo }
            { code := r.1, dstBuf := some w2.buf, dstSizeNeeded := dstSizeNeeded, err := r.2 }
          else
            { code := errorInfo.code_, dstBuf := some w2.buf, dstSizeNeeded := dstSizeNeeded,
              err := { err with sErrorInfo := errorInfo } }
  else
    let dstSizeNeeded := dstSizeNeeded.map (fun _ => 2)
    if 0 = dstSize then
      let errorInfo := errorInfo.SetCode .kERRC_NOT_ENOUGH_BUF_SPACE
      { code := errorInfo.code_, dstBuf := dstBuf, dstSizeNeeded := dstSizeNeeded,
        err := { err with sErrorInfo := errorInfo } }
    else
      match dstBuf with
      | none =>
        let errorInfo := (errorInfo.SetFnameLnCodeLevApi "Zv3DUtf16.cpp" 118
          .kERRC_INVALID_PTR .kERRL_FATAL .kERRAPI_Zv3D).SetMessage
          "Its need to turn to debug build and to debug code properly"
        let r := ErrorState.PushInStack { err with sErrorInfo := errorInfo }
        { code := r.1, dstBuf := none, dstSizeNeeded := dstSizeNeeded, err := r.2 }
      | some dstBufU8 =>
        let w := writeBuiltin hostLE 2 dstBufU8 0 dstSize (cp % 65536) endianType
        if !w.ok then
          let errorInfo := (errorInfo.SetFnameLnCodeLevApi "Zv3DUtf16.cpp" 123
            .kERRC_NOT_ENOUGH_BUF_SPACE .kERRL_ERROR .kERRAPI_Zv3D).SetMessage
            "Not enough destination buffer size(%u bytes), %u bytes required"
          let r := ErrorState.PushInStack { err with sErrorInfo := errorInfo }
          { code := r.1, dstBuf := some w.buf, dstSizeNeeded := dstSizeNeeded, err := r.2 }
        else
          { code := errorInfo.code_, dstBuf := some w.buf, dstSizeNeeded := dstSizeNeeded,
            err := { err with sErrorInfo := errorInfo } }

/-- The function `FromUtf16`.  The locals `U16 s1`, `U16 s2` are uninitialised in the source;
they are given the content `0` here, which a successful `readBuiltin` overwrites. -/
def FromUtf16 (hostLE : Bool) (err : ErrorState) (cp : Nat) (srcBuf : Option (List Nat))
    (srcSize : Nat) (srcReadBytes : Option Nat) (endianType : EndianType) : DecodeResult :=
  let errorInfo := err.sErrorInfo.SetDefaults "Zv3D::FromUtf16()"
  match srcBuf with
  | none =>
    let errorInfo := (errorInfo.SetFnameLnCodeLevApi "Zv3DUtf16.cpp" 140
      .kERRC_INVALID_PTR .kERRL_FATAL .kERRAPI_Zv3D).SetMessage
      "Its need to turn to debug build and to debug code properly"
    let r := ErrorState.PushInStack { err with sErrorInfo := errorInfo }
    { code := r.1, cp := cp, srcReadBytes := srcReadBytes, err := r.2 }
  | some srcBufU8 =>
    let srcBufU80 := 0
    let r1 := readBuiltin hostLE 2 srcBufU8 srcBufU80 srcSize 0 endianType
    if !r1.ok then
      let errorInfo := (errorInfo.SetFnameLnCodeLevApi "Zv3DUtf16.cpp" 149
        .kERRC_NOT_ENOUGH_DATA .kERRL_ERROR .kERRAPI_Zv3D).SetMessage
        "Not enough data in source buffer (source size: %u bytes)"
      let r := ErrorState.PushInStack { err with sErrorInfo := errorInfo }
      { code := r.1, cp := cp, srcReadBytes := srcReadBytes, err := r.2 }
    else
      let s1 := r1.dst
      if s1 &&& 0xFC00 = 0xD800 then
        let r2 := readBuiltin hostLE 2 srcBufU8 r1.pSrc r1.srcSize 0 endianType
        if !r2.ok then
          let errorInfo := (errorInfo.SetFnameLnCodeLevApi "Zv3DUtf16.cpp" 156
            .kERRC_NOT_ENOUGH_DATA .kERRL_ERROR .kERRAPI_Zv3D).SetMessage
            "Not enough data in source buffer (source size: %u bytes)"
          let r := ErrorState.PushInStack { err with sErrorInfo := errorInfo }
          { code := r.1, cp := cp, srcReadBytes := srcReadBytes, err := r.2 }
        else
          let s2 := r2.dst
          let cp := (0x10000 + (U32_ofInt ((s1 : Int) - 0xD800) <<< 10) % 2 ^ 32
                      + U32_ofInt ((s2 : Int) - 0xDC00)) % 2 ^ 32
          let srcReadBytes := srcReadBytes.map (fun _ => r2.pSrc - srcBufU80)
          { code := errorInfo.code_, cp := cp, srcReadBytes := srcReadBytes,
            err := { err with sErrorInfo := errorInfo } }
      else
        let cp := s1
        let srcReadBytes := srcReadBytes.map (fun _ => r1.pSrc - srcBufU80)
        { code := errorInfo.code_, cp := cp, srcReadBytes := srcReadBytes,
          err := { err with sErrorInfo := errorInfo } }

/-! ## Reference sequences the codecs are compared with -/

/-- The UTF-8 octets of `cp` written with division and remainder. -/
def utf8_octets (cp : Nat) : List Nat :=
  if cp ≤ 0x7F then [cp]
  else if cp ≤ 0x7FF then [192 + cp / 64, 128 + cp % 64]
  else if cp ≤ 0xFFFF then [224 + cp / 4096, 128 + cp / 64 % 64, 128 + cp % 64]
  else [240 + cp / 262144, 128 + cp / 4096 % 64, 128 + cp / 64 % 64, 128 + cp % 64]

/-- The lead-byte tag of an `n`-octet sequence, as the specification lists it: `0xC0`,
`0xE0`, `0xF0` for `n = 2, 3, 4`. -/
def rfc3629_lead (n : Nat) : Nat :=
  if n = 2 then 0xC0 else if n = 3 then 0xE0 else 0xF0

/-- The RFC 3629 octet sequence of `cp` at octet count `n`, in the specification's words:
the single byte `cp` for `n = 1`; otherwise the lead byte `tag | (cp >> 6(n-1))` followed by
the bytes `0x80 | ((cp >> 6(n-1-i)) & 0x3F)` at the positions `i = 1..n-1`. -/
def rfc3629_octets (cp n : Nat) : List Nat :=
  if n = 1 then [cp]
  else
    (rfc3629_lead n ||| (cp >>> (6 * (n - 1)))) ::
      (List.range (n - 1)).map (fun j => 0x80 ||| ((cp >>> (6 * (n - 1 - (j + 1)))) &&& 0x3F))

/-- A 16-bit unit with its least-significant byte first. -/
def unit_lsb_first (u : Nat) : List Nat :=
  [u % 256, u / 256 % 256]

/-- A 16-bit unit with its most-significant byte first. -/
def unit_msb_first (u : Nat) : List Nat :=
  [u / 256 % 256, u % 256]

/-- The byte layout of a 16-bit unit for a byte order: least-significant byte first for
`kLittleEndian`, most-significant byte first for `kBigEndian`; for `kIgnoreEndian` the
order opposite to the host's, which is what `platformEndian() != endianType` selects. -/
def utf16_unit_layout (hostLE : Bool) (e : EndianType) (u : Nat) : List Nat :=
  match e with
  | .kLittleEndian => unit_lsb_first u
  | .kBigEndian => unit_msb_first u
  | .kIgnoreEndian => if hostLE then unit_msb_first u else unit_lsb_first u

/-- The value of the 16-bit unit stored as the bytes `b0 b1` in a byte order (the inverse
of `utf16_unit_layout`). -/
def utf16_unit_value (hostLE : Bool) (e : EndianType) (b0 b1 : Nat) : Nat :=
  match e with
  | .kLittleEndian => b0 + 256 * b1
  | .kBigEndian => b1 + 256 * b0
  | .kIgnoreEndian => if hostLE then b1 + 256 * b0 else b0 + 256 * b1

/-- The first unit `ToUtf16` writes for `cp ≥ 0x10000`, as computed in `U32` and stored in
a `U16`. -/
def utf16_high (cp : Nat) : Nat :=
  (0xD800 + ((cp - 0x10000) >>> 10)) % 2 ^ 32 % 65536

/-- The second unit `ToUtf16` writes for `cp ≥ 0x10000`. -/
def utf16_low (cp : Nat) : Nat :=
  (0xDC00 + ((cp - 0x10000) &&& 0x3FF)) % 2 ^ 32 % 65536

/-- The bytes of one 16-bit unit `u` in the specification's words: least-significant byte
first for `kLittleEndian`, most-significant byte first otherwise (`kBigEndian`). -/
def utf16_unit_octets (e : EndianType) (u : Nat) : List Nat :=
  if e = .kLittleEndian then [u % 256, u / 256] else [u / 256, u % 256]

/-- The octet count the specification derives from a lead byte: 1 below `0xC0`, 2 in
`0xC0..0xDF`, 3 in `0xE0..0xEF`, 4 from `0xF0` on. -/
def utf8_lead_count (b0 : Nat) : Nat :=
  if b0 < 0xC0 then 1 else if b0 < 0xE0 then 2 else if b0 < 0xF0 then 3 else 4

/-- The payload mask the specification pairs with the octet count: `0x7F`, `0x3F`, `0x1F`,
`0x0F` for 1, 2, 3, 4 octets. -/
def utf8_lead_mask (b0 : Nat) : Nat :=
  if b0 < 0xC0 then 0x7F else if b0 < 0xE0 then 0x3F else if b0 < 0xF0 then 0x1F else 0x0F

/-- The accumulation the specification describes: starting from the seed, for each following
byte in order shift the accumulator left by 6 and OR in the byte's low 6 bits. -/
def utf8_accumulate (seed : Nat) (bytes : List Nat) : Nat :=
  bytes.foldl (fun acc b => (acc <<< 6) ||| (b &&& 0x3F)) seed

/-- The 16-bit unit stored at the offsets `i`, `i + 1` of a source, read in the byte order
`e` as the specification words it: first byte least significant for `kLittleEndian`, first
byte most significant otherwise (`kBigEndian`). -/
def utf16_unit_at (e : EndianType) (src : List Nat) (i : Nat) : Nat :=
  if e = .kLittleEndian then src.getD i 0 + 256 * src.getD (i + 1) 0
  else src.getD (i + 1) 0 + 256 * src.getD i 0

/-- The value of `n` bytes `b 0 .. b (n-1)` read as little-endian: the sum of
`b i * 256^i`. -/
def little_endian_sum (b : Nat → Nat) (n : Nat) : Nat :=
  ∑ i ∈ Finset.range n, b i * 256 ^ i

/-- The value of `n` bytes `b 0 .. b (n-1)` read as big-endian: the sum of
`b i * 256^(n-1-i)`. -/
def big_endian_sum (b : Nat → Nat) (n : Nat) : Nat :=
  ∑ i ∈ Finset.range n, b i * 256 ^ (n - 1 - i)

/-! ## Number lexer (Zv3DIntegralParse.cpp) -/

/-- The scan of `std::string::find(ch, pos)` over the characters from index `i` on; `none`
stands for `npos`. -/
def find_from : List Char → Char → Nat → Option Nat
  | [], _, _ => none
  | c :: t, ch, i => if c = ch then some i else find_from t ch (i + 1)

/-- The call `s.find(ch, pos)` of `std::string`: index of the first `ch` at or after `pos`. -/
def string_find (s : List Char) (ch : Char) (pos : Nat) : Option Nat :=
  find_from (s.drop pos) ch pos

/-- The scan of `std::string::rfind(ch)`: index of the last `ch` among the characters from
index `i` on. -/
def rfind_from : List Char → Char → Nat → Option Nat
  | [], _, _ => none
  | c :: t, ch, i =>
    match rfind_from t ch (i + 1) with
    | some j => some j
    | none => if c = ch then some i else none

/-- The call `s.rfind(ch)` of `std::string`. -/
def string_rfind (s : List Char) (ch : Char) : Option Nat :=
  rfind_from s ch 0

/-- The scan of `std::string::find_first_not_of(set, pos)`. -/
def find_first_not_of_from : List Char → List Char → Nat → Option Nat
  | [], _, _ => none
  | c :: t, set, i => if c ∈ set then find_first_not_of_from t set (i + 1) else some i

/-- The call `s.find_first_not_of(set, pos)` of `std::string`. -/
def string_find_first_not_of (s set : List Char) (pos : Nat) : Option Nat :=
  find_first_not_of_from (s.drop pos) set pos

/-- The scan of `std::string::find_first_of(set, pos)`. -/
def find_first_of_from : List Char → List Char → Nat → Option Nat
  | [], _, _ => none
  | c :: t, set, i => if c ∈ set then some i else find_first_of_from t set (i + 1)

/-- The call `s.find_first_of(set, pos)` of `std::string`. -/
def string_find_first_of (s set : List Char) (pos : Nat) : Option Nat :=
  find_first_of_from (s.drop pos) set pos

/-- The character `s[i]` of a `std::string`; `s[s.size()]` is the terminating NUL. -/
def string_at (s : List Char) (i : Nat) : Char :=
  s.getD i (Char.ofNat 0)

/-- Conversion of a C++ `int` value to `S32` with two's-complement wrap-around. -/
def S32_wrap (i : Int) : Int :=
  (i + 2147483648) % 4294967296 - 2147483648

/-- The loop `while (exp--) b *= 10;` of `TenPower<S32>`, as a function of the number of
iterations left. -/
def TenPower_S32_up : Nat → Int → Int
  | 0, b => b
  | k + 1, b => TenPower_S32_up k (S32_wrap (b * 10))

/-- The loop `while (exp++) b *= T(0.1);` of `TenPower<S32>`, where `T(0.1)` is `S32(0.1) = 0`. -/
def TenPower_S32_down : Nat → Int → Int
  | 0, b => b
  | k + 1, b => TenPower_S32_down k (S32_wrap (b * 0))

/-- The template `TenPower<T>` at `T = S32`. -/
def TenPower_S32 (exp : Int) : Int :=
  if 0 = exp then 1
  else if exp > 0 then TenPower_S32_up exp.toNat 1
  else TenPower_S32_down (-exp).toNat 1

/-- The integer nearest to `q`; when `q` lies half-way between two integers, the even one. -/
def round_half_even (q : ℚ) : Int :=
  if q - ⌊q⌋ < 1 / 2 then ⌊q⌋
  else if 1 / 2 < q - ⌊q⌋ then ⌊q⌋ + 1
  else if ⌊q⌋ % 2 = 0 then ⌊q⌋ else ⌊q⌋ + 1

/-- The exponent of the spacing of the `double` numbers (IEEE 754 binary64) around `q`: with
`2 ^ e ≤ |q| < 2 ^ (e + 1)` the spacing is `2 ^ (e - 52)` (53 significant bits), and it is
`2 ^ (-1074)` for the subnormal numbers below `2 ^ (-1022)`. -/
def F64_ulp_exponent (q : ℚ) : Int :=
  max (Int.log 2 |q| - 52) (-1074)

/-- The rounding every `double` operation applies to its exact result: the nearest binary64
number, ties to the even significand (the default rounding mode).  A `double` is represented
by the rational number it holds, so `+0` and `-0` are both `0`; the overflow to infinity from
`2 ^ 1024` on is not represented (every value that `ParseNumber` computes is below `2 ^ 32`
in magnitude). -/
def F64_round (q : ℚ) : ℚ :=
  (round_half_even (q / 2 ^ F64_ulp_exponent q) : ℚ) * 2 ^ F64_ulp_exponent q

/-- The loop `while (exp--) b *= 10;` of `TenPower<double>`; each product is rounded.
(`ParseNumber` passes negative exponents only and does not reach this loop.) -/
def TenPower_double_up : Nat → ℚ → ℚ
  | 0, b => b
  | k + 1, b => TenPower_double_up k (F64_round (b * 10))

/-- The loop `while (exp++) b *= T(0.1);` of `TenPower<double>`: `T(0.1)` is the `double`
nearest to `1 / 10`, and each product is rounded. -/
def TenPower_double_down : Nat → ℚ → ℚ
  | 0, b => b
  | k + 1, b => TenPower_double_down k (F64_round (b * F64_round (1 / 10)))

/-- The template `TenPower<T>` at `T = double`. -/
def TenPower_double (exp : Int) : ℚ :=
  if 0 = exp then 1
  else if exp > 0 then TenPower_double_up exp.toNat 1
  else TenPower_double_down (-exp).toNat 1

/-- The function `MoreThanOne`. -/
def MoreThanOne (s : List Char) (ch : Char) : Bool :=
  match string_find s ch 0 with
  | none => false
  | some i =>
    match string_rfind s ch with
    | none => false
    | some li => if i = li then false else true

/-- The function `CharToDigit`. -/
def CharToDigit (ch : Char) : Int :=
  if ch = '0' then 0
  else if ch = '1' then 1
  else if ch = '2' then 2
  else if ch = '3' then 3
  else if ch = '4' then 4
  else if ch = '5' then 5
  else if ch = '6' then 6
  else if ch = '7' then 7
  else if ch = '8' then 8
  else if ch = '9' then 9
  else if ch = 'a' then 10
  else if ch = 'b' then 11
  else if ch = 'c' then 12
  else if ch = 'd' then 13
  else if ch = 'e' then 14
  else if ch = 'f' then 15
  else if ch = 'A' then 10
  else if ch = 'B' then 11
  else if ch = 'C' then 12
  else if ch = 'D' then 13
  else if ch = 'E' then 14
  else if ch = 'F' then 15
  else 0

/-- What a call of `ParseNumber` leaves behind: the returned flag, the variable `i_result`
and the variable behind `d_result` (`none` for a null pointer). -/
structure ParseNumberResult where
  ok : Bool
  i_result : Int
  d_result : Option ℚ
  deriving DecidableEq, Repr

/-- The loop `while (int_start < int_end && s[int_start] == '0') ++int_start;` of
`ParseNumber`, as a function of `int_end - int_start`; returns the new `int_start`. -/
def ParseNumber_skip_leading (s : List Char) : Nat → Nat → Nat
  | 0, int_start => int_start
  | k + 1, int_start =>
    if string_at s int_start = '0' then ParseNumber_skip_leading s k (int_start + 1)
    else int_start

/-- The first `while (digit_count)` loop of `ParseNumber`, as a function of `digit_count`;
returns `int_part`. -/
def ParseNumber_int_loop (s : List Char) : Nat → Nat → Int → Int
  | 0, _, int_part => int_part
  | digit_count + 1, int_start, int_part =>
    ParseNumber_int_loop s digit_count (int_start + 1)
      (S32_wrap (int_part
        + S32_wrap (TenPower_S32 ((digit_count + 1 : Nat) - 1)
            * CharToDigit (string_at s int_start))))

/-- The loop `while (frac_start < frac_end && s[frac_end - 1] == '0') --frac_end;` of
`ParseNumber`, as a function of `frac_end - frac_start`; returns the new `frac_end`. -/
def ParseNumber_skip_trailing (s : List Char) : Nat → Nat → Nat
  | 0, frac_end => frac_end
  | k + 1, frac_end =>
    if string_at s (frac_end - 1) = '0' then ParseNumber_skip_trailing s k (frac_end - 1)
    else frac_end

/-- The second `while (digit_count)` loop of `ParseNumber`, as a function of `digit_count`;
returns `frac_part`.  The statement
`frac_part += TenPower<double>(-digit_count--) * CharToDigit(s[frac_end-- - 1]);` rounds the
product and then the sum (two operations, not a fused multiply-add); the conversion of the
digit to `double` is exact. -/
def ParseNumber_frac_loop (s : List Char) : Nat → Nat → ℚ → ℚ
  | 0, _, frac_part => frac_part
  | digit_count + 1, frac_end, frac_part =>
    ParseNumber_frac_loop s digit_count (frac_end - 1)
      (F64_round (frac_part
        + F64_round (TenPower_double (-((digit_count + 1 : Nat) : Int))
            * CharToDigit (string_at s (frac_end - 1)))))

/-- The part of `ParseNumber` after the comment "valid float, go on", from the values the
lexical tests leave in `sign`, `unsigned_start` and `len`.  The differences
`int_end - int_start` and `frac_end - frac_start` are taken in the natural numbers.  In
`*d_result = (int_part + frac_part) * sign;` the conversions of `int_part` and `sign` to
`double` are exact, the sum and the product are rounded. -/
def ParseNumber_value (s : List Char) (sign : Int) (unsigned_start len : Nat)
    (d_result : Option ℚ) : ParseNumberResult :=
  let dot_i := string_find s '.' unsigned_start
  let int_start := unsigned_start
  let int_end := match dot_i with
    | some d => d
    | none => len
  let frac_start := match dot_i with
    | some d => d + 1
    | none => len
  let frac_end := len
  let int_start := ParseNumber_skip_leading s (int_end - int_start) int_start
  let digit_count := int_end - int_start
  let int_part := ParseNumber_int_loop s digit_count int_start 0
  let i_result := S32_wrap (int_part * sign)
  match d_result with
  | none => { ok := true, i_result := i_result, d_result := none }
  | some _ =>
    let frac_end := ParseNumber_skip_trailing s (frac_end - frac_start) frac_end
    let digit_count := frac_end - frac_start
    let frac_part := ParseNumber_frac_loop s digit_count frac_end 0
    { ok := true, i_result := i_result,
      d_result := some (F64_round (F64_round (int_part + frac_part) * sign)) }

/-- The function `ParseNumber(const std::string&, S32&, double*)`; `i_result` and `d_result`
are the contents of the output variables before the call. -/
def ParseNumber (s : List Char) (i_result : Int) (d_result : Option ℚ) : ParseNumberResult :=
  let len := s.length
  let unsigned_start := 0
  let sign : Int := 1
  if len = 0 then { ok := false, i_result := i_result, d_result := d_result }
  else if string_find_first_not_of s "0123456789.-+f".toList 0 ≠ none then
    { ok := false, i_result := i_result, d_result := d_result }
  else if string_find_first_of s "0123456789".toList 0 = none then
    { ok := false, i_result := i_result, d_result := d_result }
  else if ".+-f".toList.any (fun ch => MoreThanOne s ch) then
    { ok := false, i_result := i_result, d_result := d_result }
  else
    let minus_i := string_find s '-' 0
    if minus_i ≠ none ∧ s.head? ≠ some '-' then
      { ok := false, i_result := i_result, d_result := d_result }
    else
      let sign := if minus_i ≠ none then -1 else sign
      let unsigned_start := if minus_i ≠ none then unsigned_start + 1 else unsigned_start
      let plus_i := string_find s '+' 0
      if plus_i ≠ none ∧ s.head? ≠ some '+' then
        { ok := false, i_result := i_result, d_result := d_result }
      else
        let unsigned_start := if plus_i ≠ none then unsigned_start + 1 else unsigned_start
        let f_i := string_find s 'f' 0
        if f_i ≠ none ∧ s.getLast? ≠ some 'f' then
          { ok := false, i_result := i_result, d_result := d_result }
        else
          let len := if f_i ≠ none then len - 1 else len
          ParseNumber_value s sign unsigned_start len d_result

/-- The decimal digits `0` .. `9`. -/
def isDecimalDigit (c : Char) : Bool :=
  decide (c ∈ "0123456789".toList)

/-- The text without an optional single leading `+` or `-`. -/
def strip_sign (s : List Char) : List Char :=
  match s with
  | '+' :: t => t
  | '-' :: t => t
  | _ => s

/-- The text without an optional single trailing `f`. -/
def strip_f (s : List Char) : List Char :=
  if s.getLast? = some 'f' then s.dropLast else s

/-- The grammar of the specification for numbers: an optional single leading `+` or `-`,
then decimal digits with at most one `.` anywhere among them, then an optional single
trailing `f`, with at least one decimal digit overall. -/
def number_grammar (s : List Char) : Bool :=
  let body := strip_f (strip_sign s)
  body.all (fun c => isDecimalDigit c || c == '.') && decide (body.count '.' ≤ 1)
    && body.any isDecimalDigit

/-! ## Boolean lexer (Zv3DIntegralParse.cpp) and string length (Zv3DUtf8.cpp) -/

/-- What a call of `ParseBoolean` leaves behind: the returned flag and the variable
`b_result`. -/
structure ParseBooleanResult where
  ok : Bool
  b_result : Bool
  deriving DecidableEq, Repr

/-- The function `ParseBoolean(const std::string&, bool&)`; `b_result` is the content of the
output variable before the call. -/
def ParseBoolean (s : List Char) (b_result : Bool) : ParseBooleanResult :=
  if s.isEmpty then { ok := false, b_result := b_result }
  else if s = "true".toList ∨ s = "1".toList ∨ s = "yes".toList then
    { ok := true, b_result := true }
  else if s = "false".toList ∨ s = "0".toList ∨ s = "no".toList then
    { ok := true, b_result := false }
  else { ok := false, b_result := b_result }

/-- The loop `while (*str++) ++len;` of `Utf8Len` over the cells from the pointer on, with the
`U32` counter `len`; the cells beyond the list read as `0`. -/
def Utf8Len_loop : List Nat → Nat → Nat
  | [], len => len
  | b :: rest, len => if b ≠ 0 then Utf8Len_loop rest ((len + 1) % 2 ^ 32) else len

/-- The function `Utf8Len`. -/
def Utf8Len (str : Option (List Nat)) : Nat :=
  match str with
  | none => 0
  | some cells => Utf8Len_loop cells 0

/-! ## Hexadecimal lexer (Zv3DIntegralParse.cpp) -/

/-- The loop `while (exp--) b *= 16;` of `SixteenPower`, as a function of the number of
iterations left. -/
def SixteenPower_loop : Nat → Nat → Nat
  | 0, b => b
  | k + 1, b => SixteenPower_loop k ((b * 16) % 2 ^ 32)

/-- The function `SixteenPower`. -/
def SixteenPower (exp : Nat) : Nat :=
  if 0 = exp then 1 else SixteenPower_loop exp 1

/-- What a call of `ParseHex` leaves behind: the returned flag and the variable
`h_result`. -/
structure ParseHexResult where
  ok : Bool
  h_result : Nat
  deriving DecidableEq, Repr

/-- The loop
`while (digit_count) { hex_value += SixteenPower(exp++) * CharToDigit(s[hex_end - 1]); }`
of `ParseHex`.  Its body changes `hex_value` and `exp` only; `digit_count` and `hex_end` are
the values set before the loop.  `fuel` bounds the number of iterations and `none` means the
bound was hit with the loop condition still true. -/
def ParseHex_loop (s : List Char) (hex_end digit_count : Nat) : Nat → Nat → Int → Option Nat
  | 0, _, _ => none
  | fuel + 1, hex_value, exp =>
    if digit_count ≠ 0 then
      ParseHex_loop s hex_end digit_count fuel
        ((hex_value + (SixteenPower (U32_ofInt exp)
            * U32_ofInt (CharToDigit (string_at s (hex_end - 1)))) % 2 ^ 32) % 2 ^ 32)
        (S32_wrap (exp + 1))
    else some hex_value

/-- The function `ParseHex(const std::string&, U32&)`; `h_result` is the content of the
output variable before the call, and `none` means that the call did not return within `fuel`
iterations of its loop. -/
def ParseHex (fuel : Nat) (s : List Char) (h_result : Nat) : Option ParseHexResult :=
  let len := s.length
  let digits_start := 0
  if len < 3 then some { ok := false, h_result := h_result }
  else if string_at s 0 = '0' then
    let digits_start := digits_start + 1
    if ¬ (string_at s 1 = 'x' ∨ string_at s 1 = 'X') then
      some { ok := false, h_result := h_result }
    else
      let digits_start := digits_start + 1
      if string_find_first_not_of s "0123456789ABCDEFabcdef".toList digits_start ≠ none then
        some { ok := false, h_result := h_result }
      else
        let hex_start := digits_start
        let hex_end := len
        let digit_count := hex_end - hex_start
        if 0 = digit_count then some { ok := false, h_result := h_result }
        else
          match ParseHex_loop s hex_end digit_count fuel 0 0 with
          | none => none
          | some hex_value => some { ok := true, h_result := hex_value }
  else some { ok := false, h_result := h_result }

/-- The grammar of the specification for hexadecimal numbers: the prefix `0x` or `0X`
followed by one or more hexadecimal digits. -/
def hex_grammar : List Char → Bool
  | '0' :: c :: d :: t =>
    (c == 'x' || c == 'X')
      && (d :: t).all (fun ch => decide (ch ∈ "0123456789ABCDEFabcdef".toList))
  | _ => false

/-! ## Number lexer: the integer value in the words of the specification -/

/-- The value of a decimal digit character. -/
def digit_value (c : Char) : Nat :=
  c.toNat - '0'.toNat

/-- The decimal value of a run of digits, the sum of `digit[i] * 10 ^ (position from the
right)`; `0` for the empty run. -/
def decimal_value : List Char → Nat
  | [] => 0
  | c :: t => digit_value c * 10 ^ t.length + decimal_value t

/-- The digit run between the optional sign and the first `.` (or the trailing `f`, or the
end of the text). -/
def integer_digit_run (s : List Char) : List Char :=
  (strip_f (strip_sign s)).takeWhile (fun c => c != '.')

/-- The sign of a number text: `-1` exactly when the text starts with `-`. -/
def number_sign (s : List Char) : Int :=
  if s.head? = some '-' then -1 else 1

/-! ## Assertions of the lexers (Zv3DIntegralParse.cpp) -/

/-- The third assertion of `ParseHex`,
`ZV3D_ASSERT_PARANOIC(s.npos == s.find_first_of("0123456789ABCDEFabcdef", digits_start), ...)`:
`none` when the control flow of `ParseHex` does not reach it, `some v` when it is reached and
the asserted expression has the value `v`. -/
def ParseHex_paranoic_assertion (s : List Char) : Option Bool :=
  let len := s.length
  let digits_start := 0
  if len < 3 then none
  else if string_at s 0 = '0' then
    let digits_start := digits_start + 1
    if ¬ (string_at s 1 = 'x' ∨ string_at s 1 = 'X') then none
    else
      let digits_start := digits_start + 1
      if string_find_first_not_of s "0123456789ABCDEFabcdef".toList digits_start ≠ none then
        none
      else
        some (decide (none = string_find_first_of s "0123456789ABCDEFabcdef".toList
          digits_start))
  else none

/-- The assertions `unsigned_start < len` of `ParseNumber` (`ZV3D_ASSERT_HIGH` after the `-`
test, after the `+` test and after the trailing `f` is stripped, and the final
`ZV3D_ASSERT_PARANOIC`): the values of the asserted expression at the assertions the control
flow of `ParseNumber` reaches, in the order it reaches them. -/
def ParseNumber_assertions (s : List Char) : List Bool :=
  let len := s.length
  let unsigned_start := 0
  if len = 0 then []
  else if string_find_first_not_of s "0123456789.-+f".toList 0 ≠ none then []
  else if string_find_first_of s "0123456789".toList 0 = none then []
  else if ".+-f".toList.any (fun ch => MoreThanOne s ch) then []
  else
    let minus_i := string_find s '-' 0
    if minus_i ≠ none ∧ s.head? ≠ some '-' then []
    else
      let unsigned_start := if minus_i ≠ none then unsigned_start + 1 else unsigned_start
      let reached := if minus_i ≠ none then [decide (unsigned_start < len)] else []
      let plus_i := string_find s '+' 0
      if plus_i ≠ none ∧ s.head? ≠ some '+' then reached
      else
        let unsigned_start := if plus_i ≠ none then unsigned_start + 1 else unsigned_start
        let reached :=
          if plus_i ≠ none then reached ++ [decide (unsigned_start < len)] else reached
        let f_i := string_find s 'f' 0
        if f_i ≠ none ∧ s.getLast? ≠ some 'f' then reached
        else
          let len := if f_i ≠ none then len - 1 else len
          let reached :=
            if f_i ≠ none then reached ++ [decide (unsigned_start < len)] else reached
          reached ++ [decide (unsigned_start < len)]

/-! ## Order on byte sequences -/

/-- Lexicographic order on sequences of unsigned bytes, as `memcmp` followed by a comparison
of lengths gives it: the first position where the sequences differ decides, and a proper
initial segment is smaller. -/
def bytes_lt : List Nat → List Nat → Bool
  | [], [] => false
  | [], _ :: _ => true
  | _ :: _, [] => false
  | a :: as, b :: bs => decide (a < b) || (a == b && bytes_lt as bs)

/-! ## Number lexer: the fractional value in the words of the specification -/

/-- The digits after the `.` of a number text (between the `.` and the trailing `f` or the
end of the text); empty when the text has no `.`. -/
def fraction_digit_run (s : List Char) : List Char :=
  ((strip_f (strip_sign s)).dropWhile (fun c => c != '.')).drop 1

/-- The sum of `d_j * 10 ^ (-j)` over a run of digits whose first digit has the position
`j`. -/
def fraction_value_from : Nat → List Char → ℚ
  | _, [] => 0
  | j, c :: t => (digit_value c : ℚ) / 10 ^ j + fraction_value_from (j + 1) t

/-- The value of the fractional digits: the sum of `d_j * 10 ^ (-j)`, `d_j` the `j`-th digit
after the `.`; `0` for the empty run. -/
def fraction_value (l : List Char) : ℚ :=
  fraction_value_from 1 l

/-! # Theorems -/

/-! ## Bit-level facts used by the codecs -/

theorem platformEndian_true : platformEndian true = .kLittleEndian := by decide

theorem platformEndian_false : platformEndian false = .kBigEndian := by decide

theorem toMem_four (hostLE : Bool) (v : Nat) :
    toMem hostLE 4 v =
      if hostLE then [v % 256, v / 256 % 256, v / 65536 % 256, v / 16777216 % 256]
      else [v / 16777216 % 256, v / 65536 % 256, v / 256 % 256, v % 256] := by
  have h : List.range 4 = [0, 1, 2, 3] := by decide
  cases hostLE <;> simp [toMem, h]

theorem toMem_two (hostLE : Bool) (v : Nat) :
    toMem hostLE 2 v = if hostLE then [v % 256, v / 256 % 256] else [v / 256 % 256, v % 256] := by
  have h : List.range 2 = [0, 1] := by decide
  cases hostLE <;> simp [toMem, h]

theorem getByte_four_zero (hostLE : Bool) (v : Nat) : getByte hostLE 4 v 0 = v % 256 := by
  cases hostLE <;> simp [getByte, platformEndian_true, platformEndian_false, toMem_four]

theorem setByte_four_zero (hostLE : Bool) (v b : Nat) (hv : v < 4294967296) :
    setByte hostLE 4 v 0 b = v / 256 * 256 + b := by
  cases hostLE <;>
    simp [setByte, platformEndian_true, platformEndian_false, toMem_four, fromMem, fromMemLE] <;>
    omega

theorem and_63 (x : Nat) : x &&& 63 = x % 64 := Nat.and_pow_two_sub_one_eq_mod x 6

theorem and_63_left (x : Nat) : 63 &&& x = x % 64 := by rw [Nat.land_comm]; exact and_63 x

theorem shiftRight_6 (x : Nat) : x >>> 6 = x / 64 := Nat.shiftRight_eq_div_pow x 6

theorem shiftLeft_6 (x : Nat) : x <<< 6 = x * 64 := Nat.shiftLeft_eq x 6

set_option maxRecDepth 100000 in
theorem or_128_of_lt : ∀ y, y < 64 → 128 ||| y = 128 + y := by decide

set_option maxRecDepth 100000 in
theorem or_lead_of_lt : ∀ y, y < 32 →
    192 ||| y = 192 + y ∧ (y < 16 → 224 ||| y = 224 + y) ∧ (y < 8 → 240 ||| y = 240 + y) := by
  decide

set_option maxRecDepth 100000 in
theorem or_shifted_of_lt : ∀ a, a < 4 → ∀ y, y < 64 → (64 * a ||| y) = 64 * a + y := by decide


theorem cont_byte (x : Nat) : (128 ||| (63 &&& x % 256)) % 256 = 128 + x % 64 := by
  rw [and_63_left, or_128_of_lt _ (Nat.mod_lt _ (by norm_num))]
  omega

theorem lead_byte (x : Nat) (h : x < 32) :
    (192 ||| x % 256) % 256 = 192 + x ∧ (x < 16 → (224 ||| x % 256) % 256 = 224 + x) ∧
      (x < 8 → (240 ||| x % 256) % 256 = 240 + x) := by
  have hx : x % 256 = x := by omega
  obtain ⟨h2, h3, h4⟩ := or_lead_of_lt x h
  rw [hx, h2]
  refine ⟨by omega, fun h16 => ?_, fun h8 => ?_⟩
  · rw [h3 h16]; omega
  · rw [h4 h8]; omega

theorem findOctetCount_eq (cp : Nat) :
    findOctetCount cp =
      if cp ≤ 0x7F then 1 else if cp ≤ 0x7FF then 2 else if cp ≤ 0xFFFF then 3
      else if cp ≤ 0x10FFFF then 4 else 0 := by
  simp only [findOctetCount, s_range_and_octets, findOctetCountFrom, Range.in_]
  simp only [and_self, if_true, decide_eq_true_eq]
  split_ifs <;> first | rfl | omega

theorem ToUtf8_success (hostLE : Bool) (err : ErrorState) (buf : List Nat) (dstSize cp : Nat)
    (dsn : Option Nat) (hcp : cp ≤ 0x10FFFF) (hcap : findOctetCount cp ≤ dstSize)
    (hlen : dstSize ≤ buf.length) :
    ToUtf8 hostLE err (some buf) dstSize cp dsn =
      { code := .kERRC_NO
        dstBuf := some (utf8_octets cp ++ buf.drop (findOctetCount cp))
        dstSizeNeeded := dsn.map (fun _ => findOctetCount cp)
        err := { err with sErrorInfo := err.sErrorInfo.SetDefaults "Zv3D::ToUtf8()" } } := by
  have hn := findOctetCount_eq cp
  by_cases h1 : cp ≤ 0x7F
  · rw [if_pos h1] at hn
    rw [hn] at hcap
    obtain ⟨b0, rest, rfl⟩ : ∃ b0 rest, buf = b0 :: rest := by
      cases buf with
      | nil => simp at hlen; omega
      | cons b0 rest => exact ⟨b0, rest, rfl⟩
    have hd : ¬ dstSize = 0 := by omega
    have hd2 : ¬ dstSize < 1 := by omega
    simp [ToUtf8, hn, ToUtf8_fill, getByte_four_zero, utf8_octets, h1, hd, hd2,
      ErrorInfo.SetDefaults, Ne.symm hd]
    omega
  · rw [if_neg h1] at hn
    by_cases h2 : cp ≤ 0x7FF
    · rw [if_pos h2] at hn
      rw [hn] at hcap
      obtain ⟨b0, b1, rest, rfl⟩ : ∃ b0 b1 rest, buf = b0 :: b1 :: rest := by
        match buf, hlen with
        | b0 :: b1 :: rest, _ => exact ⟨b0, b1, rest, rfl⟩
        | [_], h => simp at h; omega
        | [], h => simp at h; omega
      have hd : ¬ dstSize = 0 := by omega
      have hd2 : ¬ dstSize < 2 := by omega
      simp [ToUtf8, hn, ToUtf8_fill, getByte_four_zero, utf8_octets, h1, h2, hd, hd2,
        ErrorInfo.SetDefaults, Ne.symm hd, cont_byte, shiftRight_6]
      exact (lead_byte (cp / 64) (by omega)).1
    · rw [if_neg h2] at hn
      by_cases h3 : cp ≤ 0xFFFF
      · rw [if_pos h3] at hn
        rw [hn] at hcap
        obtain ⟨b0, b1, b2, rest, rfl⟩ : ∃ b0 b1 b2 rest, buf = b0 :: b1 :: b2 :: rest := by
          match buf, hlen with
          | b0 :: b1 :: b2 :: rest, _ => exact ⟨b0, b1, b2, rest, rfl⟩
          | [_, _], h => simp at h; omega
          | [_], h => simp at h; omega
          | [], h => simp at h; omega
        have hd : ¬ dstSize = 0 := by omega
        have hd2 : ¬ dstSize < 3 := by omega
        simp [ToUtf8, hn, ToUtf8_fill, getByte_four_zero, utf8_octets, h1, h2, h3, hd, hd2,
          ErrorInfo.SetDefaults, Ne.symm hd, cont_byte, shiftRight_6]
        rw [((lead_byte (cp / 64 / 64) (by omega)).2.1 (by omega))]
        omega
      · rw [if_neg h3, if_pos hcp] at hn
        rw [hn] at hcap
        obtain ⟨b0, b1, b2, b3, rest, rfl⟩ :
            ∃ b0 b1 b2 b3 rest, buf = b0 :: b1 :: b2 :: b3 :: rest := by
          match buf, hlen with
          | b0 :: b1 :: b2 :: b3 :: rest, _ => exact ⟨b0, b1, b2, b3, rest, rfl⟩
          | [_, _, _], h => simp at h; omega
          | [_, _], h => simp at h; omega
          | [_], h => simp at h; omega
          | [], h => simp at h; omega
        have hd : ¬ dstSize = 0 := by omega
        have hd2 : ¬ dstSize < 4 := by omega
        simp [ToUtf8, hn, ToUtf8_fill, getByte_four_zero, utf8_octets, h1, h2, h3, hd, hd2,
          ErrorInfo.SetDefaults, Ne.symm hd, cont_byte, shiftRight_6]
        refine ⟨?_, by omega⟩
        rw [((lead_byte (cp / 64 / 64 / 64) (by omega)).2.2 (by omega))]
        omega


theorem and_127 (x : Nat) : x &&& 127 = x % 128 := Nat.and_pow_two_sub_one_eq_mod x 7

theorem and_31 (x : Nat) : x &&& 31 = x % 32 := Nat.and_pow_two_sub_one_eq_mod x 5

theorem and_15 (x : Nat) : x &&& 15 = x % 16 := Nat.and_pow_two_sub_one_eq_mod x 4

set_option maxRecDepth 100000 in
theorem FromUtf8_octets_eq : ∀ b, b < 256 →
    FromUtf8_octets b =
      some (if b < 0xC0 then (1, 0x7F) else if b < 0xE0 then (2, 0x3F)
            else if b < 0xF0 then (3, 0x1F) else (4, 0x0F)) := by
  decide

theorem FromUtf8_step_of_lt (hostLE : Bool) (acc y : Nat) (hy : y < 64) :
    setByte hostLE 4 ((acc <<< 6) % 4294967296) 0
        ((getByte hostLE 4 ((acc <<< 6) % 4294967296) 0 ||| y) % 256) =
      (acc * 64) % 4294967296 + y := by
  rw [getByte_four_zero, setByte_four_zero _ _ _ (Nat.mod_lt _ (by norm_num)), shiftLeft_6]
  have h1 : acc * 64 % 4294967296 % 256 = 64 * (acc % 4) := by omega
  rw [h1, or_shifted_of_lt _ (Nat.mod_lt _ (by norm_num)) _ hy]
  omega

theorem FromUtf8_step (hostLE : Bool) (acc b : Nat) :
    setByte hostLE 4 ((acc <<< 6) % 2 ^ 32) 0
        ((getByte hostLE 4 ((acc <<< 6) % 2 ^ 32) 0 ||| (b &&& 0x3F)) % 256) =
      (acc * 64) % 2 ^ 32 + b % 64 := by
  rw [and_63]
  exact FromUtf8_step_of_lt hostLE acc (b % 64) (Nat.mod_lt _ (by norm_num))

theorem FromUtf8_utf8_octets (hostLE : Bool) (err : ErrorState) (cp srcSize : Nat)
    (rest : List Nat) (srb : Option Nat) (hcp : cp ≤ 0x10FFFF)
    (hsz : findOctetCount cp ≤ srcSize) :
    FromUtf8 hostLE err 0 (some (utf8_octets cp ++ rest)) srcSize srb =
      some { code := .kERRC_NO
             cp := cp
             srcReadBytes := srb.map (fun _ => findOctetCount cp)
             err := { err with sErrorInfo := err.sErrorInfo.SetDefaults "Zv3D::FromUtf8()" } } := by
  have hn := findOctetCount_eq cp
  have hs0 : ¬ srcSize = 0 := by
    intro h0
    rw [h0, hn] at hsz
    split_ifs at hsz <;> omega
  by_cases h1 : cp ≤ 0x7F
  · rw [if_pos h1] at hn
    have hsz' : 1 ≤ srcSize := hn ▸ hsz
    have ho : FromUtf8_octets cp = some (1, 127) := by
      rw [FromUtf8_octets_eq _ (by omega), if_pos (by omega)]
    simp [FromUtf8, hn, utf8_octets, h1, ho, FromUtf8_fill, setByte_four_zero, and_127,
      ErrorInfo.SetDefaults, Ne.symm hs0, hs0, hsz', Nat.not_lt.mpr hsz']
    omega
  · rw [if_neg h1] at hn
    by_cases h2 : cp ≤ 0x7FF
    · rw [if_pos h2] at hn
      have hsz' : 2 ≤ srcSize := hn ▸ hsz
      have ho : FromUtf8_octets (192 + cp / 64) = some (2, 63) := by
        rw [FromUtf8_octets_eq _ (by omega), if_neg (by omega), if_pos (by omega)]
      simp [FromUtf8, hn, utf8_octets, h1, h2, ho, FromUtf8_fill, setByte_four_zero, and_63,
        ErrorInfo.SetDefaults, Ne.symm hs0, hs0, hsz', Nat.not_lt.mpr hsz']
      rw [FromUtf8_step_of_lt _ _ _ (Nat.mod_lt _ (by norm_num))]
      omega
    · rw [if_neg h2] at hn
      by_cases h3 : cp ≤ 0xFFFF
      · rw [if_pos h3] at hn
        have hsz' : 3 ≤ srcSize := hn ▸ hsz
        have ho : FromUtf8_octets (224 + cp / 4096) = some (3, 31) := by
          rw [FromUtf8_octets_eq _ (by omega), if_neg (by omega), if_neg (by omega),
            if_pos (by omega)]
        simp [FromUtf8, hn, utf8_octets, h1, h2, h3, ho, FromUtf8_fill, setByte_four_zero,
          and_63, and_31, ErrorInfo.SetDefaults, Ne.symm hs0, hs0, hsz', Nat.not_lt.mpr hsz']
        rw [FromUtf8_step_of_lt _ _ _ (Nat.mod_lt _ (by norm_num)),
          FromUtf8_step_of_lt _ _ _ (Nat.mod_lt _ (by norm_num))]
        omega
      · rw [if_neg h3, if_pos hcp] at hn
        have hsz' : 4 ≤ srcSize := hn ▸ hsz
        have ho : FromUtf8_octets (240 + cp / 262144) = some (4, 15) := by
          rw [FromUtf8_octets_eq _ (by omega), if_neg (by omega), if_neg (by omega),
            if_neg (by omega)]
        simp [FromUtf8, hn, utf8_octets, h1, h2, h3, ho, FromUtf8_fill, setByte_four_zero,
          and_63, and_15, ErrorInfo.SetDefaults, Ne.symm hs0, hs0, hsz', Nat.not_lt.mpr hsz']
        rw [FromUtf8_step_of_lt _ _ _ (Nat.mod_lt _ (by norm_num)),
          FromUtf8_step_of_lt _ _ _ (Nat.mod_lt _ (by norm_num)),
          FromUtf8_step_of_lt _ _ _ (Nat.mod_lt _ (by norm_num))]
        omega


/-! ## UTF-8 encoder and decoder -/

theorem utf8_octets_length (cp : Nat) (hcp : cp ≤ 0x10FFFF) :
    (utf8_octets cp).length = findOctetCount cp := by
  rw [findOctetCount_eq, utf8_octets]
  split_ifs <;> simp

theorem rfc3629_octets_eq (cp : Nat) (hcp : cp ≤ 0x10FFFF) :
    rfc3629_octets cp (findOctetCount cp) = utf8_octets cp := by
  have hr1 : List.range 1 = [0] := by decide
  have hr2 : List.range 2 = [0, 1] := by decide
  have hr3 : List.range 3 = [0, 1, 2] := by decide
  have h12 : ∀ x : Nat, x >>> 12 = x / 4096 := fun x => Nat.shiftRight_eq_div_pow x 12
  have h18 : ∀ x : Nat, x >>> 18 = x / 262144 := fun x => Nat.shiftRight_eq_div_pow x 18
  have hor : ∀ x : Nat, 128 ||| x % 64 = 128 + x % 64 := fun x =>
    or_128_of_lt _ (Nat.mod_lt _ (by norm_num))
  rw [findOctetCount_eq, utf8_octets]
  split_ifs with h1 h2 h3
  · simp [rfc3629_octets]
  · simp [rfc3629_octets, rfc3629_lead, hr1, shiftRight_6, and_63, hor]
    exact (or_lead_of_lt (cp / 64) (by omega)).1
  · simp [rfc3629_octets, rfc3629_lead, hr2, shiftRight_6, and_63, hor, h12]
    exact (or_lead_of_lt (cp / 4096) (by omega)).2.1 (by omega)
  · simp [rfc3629_octets, rfc3629_lead, hr3, shiftRight_6, and_63, hor, h12, h18]
    exact (or_lead_of_lt (cp / 262144) (by omega)).2.2 (by omega)

/-- C1. UTF-8 round trip: for every code point `cp ≤ 0x10FFFF`, on either host and in any
state of the error sink, `ToUtf8` into a destination of capacity at least 4 returns
`kERRC_NO` and reports `n = findOctetCount cp` bytes, and `FromUtf8` applied to exactly those
`n` bytes with source size `n` and the `cp` variable initialised to 0 returns `kERRC_NO`,
stores `cp` and reports `n` bytes read. -/
theorem ToUtf8_FromUtf8_roundtrip (hostLE : Bool) (err err2 : ErrorState) (buf : List Nat)
    (dstSize cp written read : Nat) (hcp : cp ≤ 0x10FFFF) (hcap : 4 ≤ dstSize)
    (hlen : dstSize ≤ buf.length) :
    (ToUtf8 hostLE err (some buf) dstSize cp (some written)).code = ErrorCode.kERRC_NO ∧
    (ToUtf8 hostLE err (some buf) dstSize cp (some written)).dstSizeNeeded
      = some (findOctetCount cp) ∧
    ∃ out, (ToUtf8 hostLE err (some buf) dstSize cp (some written)).dstBuf = some out ∧
      (FromUtf8 hostLE err2 0 (some (out.take (findOctetCount cp))) (findOctetCount cp)
          (some read)).map (fun d => (d.code, d.cp, d.srcReadBytes))
        = some (ErrorCode.kERRC_NO, cp, some (findOctetCount cp)) := by
  have hn4 : findOctetCount cp ≤ 4 := by
    rw [findOctetCount_eq]; split_ifs <;> omega
  rw [ToUtf8_success hostLE err buf dstSize cp (some written) hcp (by omega) hlen]
  refine ⟨rfl, rfl, _, rfl, ?_⟩
  rw [List.take_left' (utf8_octets_length cp hcp)]
  have h := FromUtf8_utf8_octets hostLE err2 cp (findOctetCount cp) [] (some read) hcp
    (Nat.le_refl _)
  rw [List.append_nil] at h
  rw [h]
  rfl

theorem ToUtf8_FromUtf8_roundtrip_witness :
    (0x20AC ≤ 0x10FFFF ∧ 4 ≤ 4 ∧ 4 ≤ [0, 0, 0, 0].length) ∧
    ((ToUtf8 true ⟨ErrorInfo.ctor, []⟩ (some [0, 0, 0, 0]) 4 0x20AC (some 0)).code
        = ErrorCode.kERRC_NO ∧
     (ToUtf8 true ⟨ErrorInfo.ctor, []⟩ (some [0, 0, 0, 0]) 4 0x20AC (some 0)).dstSizeNeeded
        = some (findOctetCount 0x20AC) ∧
     ∃ out, (ToUtf8 true ⟨ErrorInfo.ctor, []⟩ (some [0, 0, 0, 0]) 4 0x20AC (some 0)).dstBuf
          = some out ∧
       (FromUtf8 true ⟨ErrorInfo.ctor, []⟩ 0 (some (out.take (findOctetCount 0x20AC)))
            (findOctetCount 0x20AC) (some 0)).map (fun d => (d.code, d.cp, d.srcReadBytes))
          = some (ErrorCode.kERRC_NO, 0x20AC, some (findOctetCount 0x20AC))) :=
  ⟨by decide, ToUtf8_FromUtf8_roundtrip true ⟨ErrorInfo.ctor, []⟩ ⟨ErrorInfo.ctor, []⟩
    [0, 0, 0, 0] 4 0x20AC 0 0 (by decide) (by decide) (by decide)⟩


theorem Range.in_incl (lo hi p : Nat) :
    Range.in_ ⟨⟨lo, .kBT_Include⟩, ⟨hi, .kBT_Include⟩⟩ p = decide (lo ≤ p ∧ p ≤ hi) := by
  simp [Range.in_]

/-- C3. The octet count `findOctetCount cp`, which `ToUtf8` stores in `dstSizeNeeded` for
every code point `cp ≤ 0x10FFFF` whatever the destination and its capacity, is 1, 2, 3, 4 on
`[0,0x7F]`, `[0x80,0x7FF]`, `[0x800,0xFFFF]`, `[0x10000,0x10FFFF]`; the four table intervals
are pairwise disjoint, exactly one entry matches such a `cp`, and the lookup returns 0
exactly when `cp > 0x10FFFF` (in which case `dstSizeNeeded` keeps its value). -/
theorem findOctetCount_table (hostLE : Bool) (err : ErrorState) (dstBuf : Option (List Nat))
    (dstSize cp v : Nat) :
    findOctetCount cp =
        (if cp ≤ 0x7F then 1 else if cp ≤ 0x7FF then 2 else if cp ≤ 0xFFFF then 3
         else if cp ≤ 0x10FFFF then 4 else 0) ∧
    (findOctetCount cp = 0 ↔ cp > 0x10FFFF) ∧
    (s_range_and_octets.filter (fun e => e.1.in_ cp)).length
        = (if cp ≤ 0x10FFFF then 1 else 0) ∧
    s_range_and_octets.Pairwise (fun a b => ∀ p, ¬ (a.1.in_ p = true ∧ b.1.in_ p = true)) ∧
    (ToUtf8 hostLE err dstBuf dstSize cp (some v)).dstSizeNeeded
        = some (if cp ≤ 0x10FFFF then findOctetCount cp else v) := by
  have hn := findOctetCount_eq cp
  refine ⟨hn, ?_, ?_, ?_, ?_⟩
  · rw [hn]; split_ifs <;> simp <;> omega
  · simp only [s_range_and_octets, List.filter_cons, List.filter_nil, Range.in_incl,
      decide_eq_true_eq]
    split_ifs <;> first | rfl | omega
  · simp only [s_range_and_octets, List.pairwise_cons, List.mem_cons, List.not_mem_nil,
      or_false, Range.in_incl, decide_eq_true_eq]
    refine ⟨?_, ?_, ?_, ?_, List.Pairwise.nil⟩
    · intro b hb p
      rcases hb with rfl | rfl | rfl <;> simp only [Range.in_incl, decide_eq_true_eq] <;> omega
    · intro b hb p
      rcases hb with rfl | rfl <;> simp only [Range.in_incl, decide_eq_true_eq] <;> omega
    · intro b hb p
      rcases hb with rfl
      simp only [Range.in_incl, decide_eq_true_eq]; omega
    · intro b hb
      exact hb.elim
  · by_cases h4 : cp ≤ 0x10FFFF
    · have h0 : ¬ 0 = findOctetCount cp := by
        rw [hn]; split_ifs <;> simp
      rw [if_pos h4]
      simp only [ToUtf8, if_neg h0]
      split_ifs <;> first | rfl | (split <;> rfl)
    · have h0 : 0 = findOctetCount cp := by
        rw [hn]; split_ifs <;> first | rfl | omega
      rw [if_neg h4]
      simp only [ToUtf8, if_pos h0]


/-- C4. For every code point `cp ≤ 0x10FFFF` with octet count `n` and every non-null
destination of capacity at least `n`, on either host, `ToUtf8` returns `kERRC_NO` and leaves
in the destination exactly the RFC 3629 sequence of `cp` (the byte `cp` for `n = 1`; for
`n > 1` the lead byte `tag | (cp >> 6(n-1))` and then `0x80 | ((cp >> 6(n-1-i)) & 0x3F)` at
`i = 1..n-1`) followed by the unchanged destination bytes from position `n` on. -/
theorem ToUtf8_writes_rfc3629 (hostLE : Bool) (err : ErrorState) (buf : List Nat)
    (dstSize cp : Nat) (dsn : Option Nat) (hcp : cp ≤ 0x10FFFF)
    (hcap : findOctetCount cp ≤ dstSize) (hlen : dstSize ≤ buf.length) :
    (ToUtf8 hostLE err (some buf) dstSize cp dsn).code = ErrorCode.kERRC_NO ∧
    (ToUtf8 hostLE err (some buf) dstSize cp dsn).dstBuf
      = some (rfc3629_octets cp (findOctetCount cp) ++ buf.drop (findOctetCount cp)) := by
  rw [ToUtf8_success hostLE err buf dstSize cp dsn hcp hcap hlen, rfc3629_octets_eq cp hcp]
  exact ⟨rfl, rfl⟩

theorem ToUtf8_writes_rfc3629_witness :
    (0x20AC ≤ 0x10FFFF ∧ findOctetCount 0x20AC ≤ 3 ∧ 3 ≤ [7, 7, 7, 7, 7].length) ∧
    (ToUtf8 false ⟨ErrorInfo.ctor, []⟩ (some [7, 7, 7, 7, 7]) 3 0x20AC none).code
      = ErrorCode.kERRC_NO ∧
    (ToUtf8 false ⟨ErrorInfo.ctor, []⟩ (some [7, 7, 7, 7, 7]) 3 0x20AC none).dstBuf
      = some (rfc3629_octets 0x20AC (findOctetCount 0x20AC)
          ++ [7, 7, 7, 7, 7].drop (findOctetCount 0x20AC)) :=
  ⟨by decide, ToUtf8_writes_rfc3629 false ⟨ErrorInfo.ctor, []⟩ [7, 7, 7, 7, 7] 3 0x20AC none
    (by decide) (by decide) (by decide)⟩

/-- C5. `ToUtf8` returns `kERRC_VALUE_OUT_OF_RANGE` if and only if `cp > 0x10FFFF`; in that
case, for every destination pointer (null or not) and every capacity, the destination and
the variable behind `dstSizeNeeded` are left as they were. -/
theorem ToUtf8_out_of_range (hostLE : Bool) (err : ErrorState) (dstBuf : Option (List Nat))
    (dstSize cp : Nat) (dsn : Option Nat) :
    ((ToUtf8 hostLE err dstBuf dstSize cp dsn).code = ErrorCode.kERRC_VALUE_OUT_OF_RANGE
        ↔ cp > 0x10FFFF) ∧
    (cp > 0x10FFFF →
      (ToUtf8 hostLE err dstBuf dstSize cp dsn).dstBuf = dstBuf ∧
      (ToUtf8 hostLE err dstBuf dstSize cp dsn).dstSizeNeeded = dsn) := by
  have hn := findOctetCount_eq cp
  by_cases h4 : cp ≤ 0x10FFFF
  · have h0 : ¬ 0 = findOctetCount cp := by
      rw [hn]; split_ifs <;> simp
    refine ⟨⟨fun h => ?_, fun h => absurd h (by omega)⟩, fun h => absurd h (by omega)⟩
    exfalso
    revert h
    cases dstBuf <;> simp only [ToUtf8, if_neg h0] <;> split_ifs <;>
      simp [ErrorInfo.SetCode, ErrorState.PushInStack, ErrorInfo.SetMessage,
        ErrorInfo.SetFnameLnCodeLevApi, ErrorInfo.SetDefaults]
  · have h0 : 0 = findOctetCount cp := by
      rw [hn]; split_ifs <;> first | rfl | omega
    refine ⟨⟨fun _ => by omega, fun _ => ?_⟩, fun _ => ?_⟩
    · simp [ToUtf8, if_pos h0, ErrorState.PushInStack, ErrorInfo.SetMessage,
        ErrorInfo.SetFnameLnCodeLevApi]
    · simp [ToUtf8, if_pos h0]

theorem ToUtf8_out_of_range_witness :
    0x110000 > 0x10FFFF ∧
    (ToUtf8 true ⟨ErrorInfo.ctor, []⟩ (some [7, 7, 7, 7]) 4 0x110000 (some 9)).dstBuf
      = some [7, 7, 7, 7] ∧
    (ToUtf8 true ⟨ErrorInfo.ctor, []⟩ (some [7, 7, 7, 7]) 4 0x110000 (some 9)).dstSizeNeeded
      = some 9 :=
  ⟨by decide, (ToUtf8_out_of_range true ⟨ErrorInfo.ctor, []⟩ (some [7, 7, 7, 7]) 4 0x110000
    (some 9)).2 (by decide)⟩

/-- C6. For every code point `cp ≤ 0x10FFFF` with octet count `n`, every capacity `c < n`
and every destination pointer (including the probing call with a null destination and
capacity 0), `ToUtf8` returns `kERRC_NOT_ENOUGH_BUF_SPACE`, stores `n` in the variable behind
a non-null `dstSizeNeeded`, and leaves the destination as it was. -/
theorem ToUtf8_not_enough_space (hostLE : Bool) (err : ErrorState)
    (dstBuf : Option (List Nat)) (dstSize cp : Nat) (dsn : Option Nat)
    (hcp : cp ≤ 0x10FFFF) (hc : dstSize < findOctetCount cp) :
    (ToUtf8 hostLE err dstBuf dstSize cp dsn).code = ErrorCode.kERRC_NOT_ENOUGH_BUF_SPACE ∧
    (ToUtf8 hostLE err dstBuf dstSize cp dsn).dstSizeNeeded
      = dsn.map (fun _ => findOctetCount cp) ∧
    (ToUtf8 hostLE err dstBuf dstSize cp dsn).dstBuf = dstBuf := by
  have h0 : ¬ 0 = findOctetCount cp := by
    rw [findOctetCount_eq]
    split_ifs <;> simp
  simp only [ToUtf8, if_neg h0]
  by_cases hz : 0 = dstSize
  · simp [if_pos hz, ErrorInfo.SetCode]
  · simp [if_neg hz, if_pos hc, ErrorState.PushInStack, ErrorInfo.SetMessage,
      ErrorInfo.SetFnameLnCodeLevApi]

theorem ToUtf8_not_enough_space_witness :
    (0x20AC ≤ 0x10FFFF ∧ 0 < findOctetCount 0x20AC) ∧
    (ToUtf8 true ⟨ErrorInfo.ctor, []⟩ none 0 0x20AC (some 0)).code
      = ErrorCode.kERRC_NOT_ENOUGH_BUF_SPACE ∧
    (ToUtf8 true ⟨ErrorInfo.ctor, []⟩ none 0 0x20AC (some 0)).dstSizeNeeded
      = (some 0).map (fun _ => findOctetCount 0x20AC) ∧
    (ToUtf8 true ⟨ErrorInfo.ctor, []⟩ none 0 0x20AC (some 0)).dstBuf = none :=
  ⟨by decide, ToUtf8_not_enough_space true ⟨ErrorInfo.ctor, []⟩ none 0 0x20AC (some 0)
    (by decide) (by decide)⟩


/-! ## Bounded scalar transfer of 16-bit units -/

theorem writeBuiltin_two_at_0 (hostLE : Bool) (e : EndianType) (b0 b1 : Nat) (rest : List Nat)
    (dstSize u : Nat) (h : 2 ≤ dstSize) :
    writeBuiltin hostLE 2 (b0 :: b1 :: rest) 0 dstSize u e =
      { ok := true, buf := utf16_unit_layout hostLE e u ++ rest, pDst := 2,
        dstSize := dstSize - 2 } := by
  have h2 : ¬ dstSize < 2 := by omega
  cases hostLE <;> cases e <;>
    simp [writeBuiltin, h2, platformEndian_true, platformEndian_false, toMem_two,
      writeBuiltin_swapped, writeBuiltin_straight, utf16_unit_layout, unit_lsb_first,
      unit_msb_first]

theorem writeBuiltin_two_at_2 (hostLE : Bool) (e : EndianType) (a0 a1 b0 b1 : Nat)
    (rest : List Nat) (dstSize u : Nat) (h : 2 ≤ dstSize) :
    writeBuiltin hostLE 2 (a0 :: a1 :: b0 :: b1 :: rest) 2 dstSize u e =
      { ok := true, buf := a0 :: a1 :: (utf16_unit_layout hostLE e u ++ rest), pDst := 4,
        dstSize := dstSize - 2 } := by
  have h2 : ¬ dstSize < 2 := by omega
  cases hostLE <;> cases e <;>
    simp [writeBuiltin, h2, platformEndian_true, platformEndian_false, toMem_two,
      writeBuiltin_swapped, writeBuiltin_straight, utf16_unit_layout, unit_lsb_first,
      unit_msb_first]

theorem writeBuiltin_short (hostLE : Bool) (e : EndianType) (n : Nat) (buf : List Nat)
    (pDst dstSize u : Nat) (h : dstSize < n) :
    writeBuiltin hostLE n buf pDst dstSize u e =
      { ok := false, buf := buf, pDst := pDst, dstSize := dstSize } := by
  simp [writeBuiltin, h]

theorem readBuiltin_two_at_0 (hostLE : Bool) (e : EndianType) (b0 b1 : Nat) (rest : List Nat)
    (srcSize d : Nat) (h : 2 ≤ srcSize) :
    readBuiltin hostLE 2 (b0 :: b1 :: rest) 0 srcSize d e =
      { ok := true, pSrc := 2, srcSize := srcSize - 2,
        dst := utf16_unit_value hostLE e b0 b1 } := by
  have h2 : ¬ srcSize < 2 := by omega
  cases hostLE <;> cases e <;>
    simp [readBuiltin, h2, platformEndian_true, platformEndian_false, toMem_two,
      readBuiltin_swapped, readBuiltin_straight, utf16_unit_value, fromMem, fromMemLE]

theorem readBuiltin_two_at_2 (hostLE : Bool) (e : EndianType) (a0 a1 b0 b1 : Nat)
    (rest : List Nat) (srcSize d : Nat) (h : 2 ≤ srcSize) :
    readBuiltin hostLE 2 (a0 :: a1 :: b0 :: b1 :: rest) 2 srcSize d e =
      { ok := true, pSrc := 4, srcSize := srcSize - 2,
        dst := utf16_unit_value hostLE e b0 b1 } := by
  have h2 : ¬ srcSize < 2 := by omega
  cases hostLE <;> cases e <;>
    simp [readBuiltin, h2, platformEndian_true, platformEndian_false, toMem_two,
      readBuiltin_swapped, readBuiltin_straight, utf16_unit_value, fromMem, fromMemLE]

theorem readBuiltin_short (hostLE : Bool) (e : EndianType) (n : Nat) (buf : List Nat)
    (pSrc srcSize d : Nat) (h : srcSize < n) :
    readBuiltin hostLE n buf pSrc srcSize d e =
      { ok := false, pSrc := pSrc, srcSize := srcSize, dst := d } := by
  simp [readBuiltin, h]

theorem utf16_unit_layout_pair (hostLE : Bool) (e : EndianType) (u : Nat) :
    ∃ x y, utf16_unit_layout hostLE e u = [x, y] ∧
      (u < 65536 → utf16_unit_value hostLE e x y = u) := by
  cases hostLE <;> cases e <;>
    exact ⟨_, _, rfl, fun h => by simp [utf16_unit_value]; omega⟩

theorem and_1023 (x : Nat) : x &&& 1023 = x % 1024 := Nat.and_pow_two_sub_one_eq_mod x 10

theorem shiftRight_10 (x : Nat) : x >>> 10 = x / 1024 := Nat.shiftRight_eq_div_pow x 10

theorem shiftLeft_10 (x : Nat) : x <<< 10 = x * 1024 := Nat.shiftLeft_eq x 10

theorem utf16_high_eq (cp : Nat) (hcp : cp ≤ 0x10FFFF) :
    utf16_high cp = 0xD800 + ((cp - 0x10000) >>> 10) := by
  simp only [utf16_high, shiftRight_10]
  omega

theorem utf16_low_eq (cp : Nat) : utf16_low cp = 0xDC00 + ((cp - 0x10000) &&& 0x3FF) := by
  simp only [utf16_low, and_1023]
  omega

theorem ToUtf16_bmp (hostLE : Bool) (err : ErrorState) (buf : List Nat) (dstSize cp : Nat)
    (dsn : Option Nat) (e : EndianType) (hcp : cp < 0x10000) (hcap : 2 ≤ dstSize)
    (hlen : dstSize ≤ buf.length) :
    ToUtf16 hostLE err (some buf) dstSize cp dsn e =
      { code := .kERRC_NO
        dstBuf := some (utf16_unit_layout hostLE e (cp % 65536) ++ buf.drop 2)
        dstSizeNeeded := dsn.map (fun _ => 2)
        err := { err with sErrorInfo := err.sErrorInfo.SetDefaults "Zv3D::ToUtf16()" } } := by
  obtain ⟨b0, b1, rest, rfl⟩ : ∃ b0 b1 rest, buf = b0 :: b1 :: rest := by
    match buf, hlen with
    | b0 :: b1 :: rest, _ => exact ⟨b0, b1, rest, rfl⟩
    | [_], h => simp at h; omega
    | [], h => simp at h; omega
  have h1 : ¬ cp ≥ 0x10000 := by omega
  have h2 : ¬ 0 = dstSize := by omega
  simp only [ToUtf16, if_neg h1, if_neg h2, writeBuiltin_two_at_0 _ _ _ _ _ _ _ hcap]
  simp [ErrorInfo.SetDefaults]

theorem ToUtf16_pair (hostLE : Bool) (err : ErrorState) (buf : List Nat) (dstSize cp : Nat)
    (dsn : Option Nat) (e : EndianType) (hcp : cp ≥ 0x10000) (hcap : 4 ≤ dstSize)
    (hlen : dstSize ≤ buf.length) :
    ToUtf16 hostLE err (some buf) dstSize cp dsn e =
      { code := .kERRC_NO
        dstBuf := some (utf16_unit_layout hostLE e (utf16_high cp)
          ++ utf16_unit_layout hostLE e (utf16_low cp) ++ buf.drop 4)
        dstSizeNeeded := dsn.map (fun _ => 4)
        err := { err with sErrorInfo := err.sErrorInfo.SetDefaults "Zv3D::ToUtf16()" } } := by
  obtain ⟨b0, b1, b2, b3, rest, rfl⟩ :
      ∃ b0 b1 b2 b3 rest, buf = b0 :: b1 :: b2 :: b3 :: rest := by
    match buf, hlen with
    | b0 :: b1 :: b2 :: b3 :: rest, _ => exact ⟨b0, b1, b2, b3, rest, rfl⟩
    | [_, _, _], h => simp at h; omega
    | [_, _], h => simp at h; omega
    | [_], h => simp at h; omega
    | [], h => simp at h; omega
  have h2 : ¬ 0 = dstSize := by omega
  obtain ⟨x, y, hxy, _⟩ := utf16_unit_layout_pair hostLE e (utf16_high cp)
  have hh : (Utf16_makeSurrogates 0 0 cp).2.1 = utf16_high cp := by
    simp [Utf16_makeSurrogates, hcp, utf16_high]
  have hw : (Utf16_makeSurrogates 0 0 cp).2.2 = utf16_low cp := by
    simp [Utf16_makeSurrogates, hcp, utf16_low]
  simp only [ToUtf16, if_pos hcp, if_neg h2, hh, hw,
    writeBuiltin_two_at_0 _ _ _ _ _ _ _ (show 2 ≤ dstSize by omega), hxy]
  simp only [List.cons_append, List.nil_append,
    writeBuiltin_two_at_2 _ _ _ _ _ _ _ _ _ (show 2 ≤ dstSize - 2 by omega)]
  simp [ErrorInfo.SetDefaults]


set_option maxRecDepth 100000 in
theorem and_FC00_low : ∀ lo, lo < 256 → 0xFC00 &&& lo = 0 := by decide

set_option maxRecDepth 100000 in
theorem and_FC00_high : ∀ hi, hi < 256 →
    0xFC00 &&& 2 ^ 8 * hi = 256 * (hi &&& 0xFC) ∧
      (256 * (hi &&& 0xFC) = 0xD800 ↔ (0xD8 ≤ hi ∧ hi ≤ 0xDB)) := by
  decide

theorem high_surrogate_iff (s : Nat) (hs : s < 65536) :
    s &&& 0xFC00 = 0xD800 ↔ (0xD800 ≤ s ∧ s ≤ 0xDBFF) := by
  have hdecomp : s = 2 ^ 8 * (s / 256) + s % 256 := by omega
  have hlo : s % 256 < 2 ^ 8 := Nat.mod_lt _ (by norm_num)
  have hhi : s / 256 < 256 := by omega
  have hand : s &&& 0xFC00 = 256 * (s / 256 &&& 0xFC) := by
    conv_lhs => rw [hdecomp]
    rw [Nat.mul_add_lt_is_or hlo, Nat.and_comm, Nat.and_or_distrib_left,
      and_FC00_low _ hlo, (and_FC00_high _ hhi).1, Nat.or_zero]
  rw [hand, (and_FC00_high _ hhi).2]
  omega

theorem U32_ofInt_sub_D800 (a : Nat) (h : 0xD800 ≤ a) (ha : a < 4294967296) :
    U32_ofInt ((a : Int) - 0xD800) = a - 0xD800 := by
  unfold U32_ofInt
  omega

theorem U32_ofInt_sub_DC00 (a : Nat) (h : 0xDC00 ≤ a) (ha : a < 4294967296) :
    U32_ofInt ((a : Int) - 0xDC00) = a - 0xDC00 := by
  unfold U32_ofInt
  omega

theorem FromUtf16_single (hostLE : Bool) (err : ErrorState) (cp0 : Nat) (b0 b1 : Nat)
    (rest : List Nat) (srcSize : Nat) (srb : Option Nat) (e : EndianType) (h : 2 ≤ srcSize)
    (hs : ¬ (utf16_unit_value hostLE e b0 b1 &&& 0xFC00 = 0xD800)) :
    FromUtf16 hostLE err cp0 (some (b0 :: b1 :: rest)) srcSize srb e =
      { code := .kERRC_NO
        cp := utf16_unit_value hostLE e b0 b1
        srcReadBytes := srb.map (fun _ => 2)
        err := { err with sErrorInfo := err.sErrorInfo.SetDefaults "Zv3D::FromUtf16()" } } := by
  simp only [FromUtf16, readBuiltin_two_at_0 _ _ _ _ _ _ _ h, if_neg hs]
  simp [ErrorInfo.SetDefaults]

theorem FromUtf16_pair (hostLE : Bool) (err : ErrorState) (cp0 : Nat) (b0 b1 b2 b3 : Nat)
    (rest : List Nat) (srcSize : Nat) (srb : Option Nat) (e : EndianType) (h : 4 ≤ srcSize)
    (hs : utf16_unit_value hostLE e b0 b1 &&& 0xFC00 = 0xD800) :
    FromUtf16 hostLE err cp0 (some (b0 :: b1 :: b2 :: b3 :: rest)) srcSize srb e =
      { code := .kERRC_NO
        cp := (0x10000
          + (U32_ofInt ((utf16_unit_value hostLE e b0 b1 : Int) - 0xD800) <<< 10) % 2 ^ 32
          + U32_ofInt ((utf16_unit_value hostLE e b2 b3 : Int) - 0xDC00)) % 2 ^ 32
        srcReadBytes := srb.map (fun _ => 4)
        err := { err with sErrorInfo := err.sErrorInfo.SetDefaults "Zv3D::FromUtf16()" } } := by
  simp only [FromUtf16, readBuiltin_two_at_0 _ _ _ _ _ _ _ (show 2 ≤ srcSize by omega),
    if_pos hs, readBuiltin_two_at_2 _ _ _ _ _ _ _ _ _ (show 2 ≤ srcSize - 2 by omega)]
  simp [ErrorInfo.SetDefaults]

theorem FromUtf16_pair_short (hostLE : Bool) (err : ErrorState) (cp0 : Nat) (b0 b1 : Nat)
    (rest : List Nat) (srcSize : Nat) (srb : Option Nat) (e : EndianType) (h : 2 ≤ srcSize)
    (h4 : srcSize < 4) (hs : utf16_unit_value hostLE e b0 b1 &&& 0xFC00 = 0xD800) :
    (FromUtf16 hostLE err cp0 (some (b0 :: b1 :: rest)) srcSize srb e).code
        = .kERRC_NOT_ENOUGH_DATA ∧
    (FromUtf16 hostLE err cp0 (some (b0 :: b1 :: rest)) srcSize srb e).cp = cp0 ∧
    (FromUtf16 hostLE err cp0 (some (b0 :: b1 :: rest)) srcSize srb e).srcReadBytes = srb := by
  simp only [FromUtf16, readBuiltin_two_at_0 _ _ _ _ _ _ _ h, if_pos hs,
    readBuiltin_short _ _ 2 _ _ (srcSize - 2) _ (show srcSize - 2 < 2 by omega)]
  simp [ErrorState.PushInStack, ErrorInfo.SetMessage, ErrorInfo.SetFnameLnCodeLevApi]


/-! ## UTF-16 encoder and decoder -/

/-- C2, refuted as stated: the code point `0xD800` lies in `[0, 0x10FFFF]`, `ToUtf16` (here
on a little-endian host, little-endian data, capacity 4) returns `kERRC_NO` and reports 2
bytes, but `FromUtf16` applied to exactly those 2 bytes takes the unit for a high surrogate,
finds no second unit and returns `kERRC_NOT_ENOUGH_DATA`, leaving `cp` at its initial 0. -/
theorem ToUtf16_FromUtf16_roundtrip_fails_at_D800 :
    (ToUtf16 true ⟨ErrorInfo.ctor, []⟩ (some [0, 0, 0, 0]) 4 0xD800 (some 0)
        .kLittleEndian).code = ErrorCode.kERRC_NO ∧
    (ToUtf16 true ⟨ErrorInfo.ctor, []⟩ (some [0, 0, 0, 0]) 4 0xD800 (some 0)
        .kLittleEndian).dstSizeNeeded = some 2 ∧
    (ToUtf16 true ⟨ErrorInfo.ctor, []⟩ (some [0, 0, 0, 0]) 4 0xD800 (some 0)
        .kLittleEndian).dstBuf = some [0x00, 0xD8, 0, 0] ∧
    (FromUtf16 true ⟨ErrorInfo.ctor, []⟩ 0 (some [0x00, 0xD8]) 2 (some 0)
        .kLittleEndian).code = ErrorCode.kERRC_NOT_ENOUGH_DATA ∧
    (FromUtf16 true ⟨ErrorInfo.ctor, []⟩ 0 (some [0x00, 0xD8]) 2 (some 0)
        .kLittleEndian).cp = 0 := by
  decide


/-- C2, amended: for every code point `cp ≤ 0x10FFFF` outside the high-surrogate range
`[0xD800, 0xDBFF]`, for every byte order (in particular `kLittleEndian` and `kBigEndian`), on
either host and in any state of the error sink, `ToUtf16` into a destination of capacity at
least 4 returns `kERRC_NO` and reports `n` bytes (`n = 4` if `cp ≥ 0x10000`, else 2), and
`FromUtf16` applied to exactly those `n` bytes with the same byte order returns `kERRC_NO`,
stores `cp` and reports `n` bytes read. -/
theorem ToUtf16_FromUtf16_roundtrip (hostLE : Bool) (err err2 : ErrorState) (buf : List Nat)
    (dstSize cp cp0 written read : Nat) (e : EndianType) (hcp : cp ≤ 0x10FFFF)
    (hsur : ¬ (0xD800 ≤ cp ∧ cp ≤ 0xDBFF)) (hcap : 4 ≤ dstSize)
    (hlen : dstSize ≤ buf.length) :
    (ToUtf16 hostLE err (some buf) dstSize cp (some written) e).code = ErrorCode.kERRC_NO ∧
    (ToUtf16 hostLE err (some buf) dstSize cp (some written) e).dstSizeNeeded
      = some (if cp ≥ 0x10000 then 4 else 2) ∧
    ∃ out, (ToUtf16 hostLE err (some buf) dstSize cp (some written) e).dstBuf = some out ∧
      (FromUtf16 hostLE err2 cp0 (some (out.take (if cp ≥ 0x10000 then 4 else 2)))
          (if cp ≥ 0x10000 then 4 else 2) (some read) e).code = ErrorCode.kERRC_NO ∧
      (FromUtf16 hostLE err2 cp0 (some (out.take (if cp ≥ 0x10000 then 4 else 2)))
          (if cp ≥ 0x10000 then 4 else 2) (some read) e).cp = cp ∧
      (FromUtf16 hostLE err2 cp0 (some (out.take (if cp ≥ 0x10000 then 4 else 2)))
          (if cp ≥ 0x10000 then 4 else 2) (some read) e).srcReadBytes
        = some (if cp ≥ 0x10000 then 4 else 2) := by
  by_cases h : cp ≥ 0x10000
  · rw [ToUtf16_pair hostLE err buf dstSize cp (some written) e h hcap hlen]
    simp only [if_pos h]
    refine ⟨by trivial, by trivial, _, rfl, ?_⟩
    have hhi : utf16_high cp = 0xD800 + (cp - 0x10000) / 1024 := by
      rw [utf16_high_eq cp hcp, shiftRight_10]
    have hlo : utf16_low cp = 0xDC00 + (cp - 0x10000) % 1024 := by
      rw [utf16_low_eq cp, and_1023]
    obtain ⟨x1, y1, h1, hv1⟩ := utf16_unit_layout_pair hostLE e (utf16_high cp)
    obtain ⟨x2, y2, h2, hv2⟩ := utf16_unit_layout_pair hostLE e (utf16_low cp)
    have hv1 := hv1 (by omega)
    have hv2 := hv2 (by omega)
    have hs : utf16_unit_value hostLE e x1 y1 &&& 0xFC00 = 0xD800 := by
      rw [hv1, high_surrogate_iff _ (by omega)]
      omega
    rw [h1, h2]
    simp only [List.cons_append, List.nil_append, List.take_succ_cons, List.take_zero]
    rw [FromUtf16_pair hostLE err2 cp0 x1 y1 x2 y2 [] 4 (some read) e (Nat.le_refl _) hs]
    refine ⟨rfl, ?_, rfl⟩
    show (0x10000 + (U32_ofInt ((utf16_unit_value hostLE e x1 y1 : Int) - 0xD800) <<< 10)
      % 2 ^ 32 + U32_ofInt ((utf16_unit_value hostLE e x2 y2 : Int) - 0xDC00)) % 2 ^ 32 = cp
    rw [hv1, hv2, U32_ofInt_sub_D800 _ (by omega) (by omega),
      U32_ofInt_sub_DC00 _ (by omega) (by omega), shiftLeft_10]
    omega
  · rw [ToUtf16_bmp hostLE err buf dstSize cp (some written) e (by omega) (by omega) hlen]
    simp only [if_neg h]
    refine ⟨by trivial, by trivial, _, rfl, ?_⟩
    have hmod : cp % 65536 = cp := by omega
    obtain ⟨x1, y1, h1, hv1⟩ := utf16_unit_layout_pair hostLE e (cp % 65536)
    have hv1 := hv1 (by omega)
    have hs : ¬ (utf16_unit_value hostLE e x1 y1 &&& 0xFC00 = 0xD800) := by
      rw [hv1, high_surrogate_iff _ (by omega)]
      omega
    rw [h1]
    simp only [List.cons_append, List.nil_append, List.take_succ_cons, List.take_zero]
    rw [FromUtf16_single hostLE err2 cp0 x1 y1 [] 2 (some read) e (Nat.le_refl _) hs]
    refine ⟨rfl, ?_, rfl⟩
    show utf16_unit_value hostLE e x1 y1 = cp
    omega

theorem ToUtf16_FromUtf16_roundtrip_witness :
    (0x1F600 ≤ 0x10FFFF ∧ ¬ (0xD800 ≤ 0x1F600 ∧ 0x1F600 ≤ 0xDBFF) ∧ 4 ≤ 4 ∧
      4 ≤ [0, 0, 0, 0].length) ∧
    ((ToUtf16 false ⟨ErrorInfo.ctor, []⟩ (some [0, 0, 0, 0]) 4 0x1F600 (some 0)
        .kLittleEndian).code = ErrorCode.kERRC_NO ∧
     (ToUtf16 false ⟨ErrorInfo.ctor, []⟩ (some [0, 0, 0, 0]) 4 0x1F600 (some 0)
        .kLittleEndian).dstSizeNeeded = some (if 0x1F600 ≥ 0x10000 then 4 else 2) ∧
     ∃ out, (ToUtf16 false ⟨ErrorInfo.ctor, []⟩ (some [0, 0, 0, 0]) 4 0x1F600 (some 0)
        .kLittleEndian).dstBuf = some out ∧
      (FromUtf16 false ⟨ErrorInfo.ctor, []⟩ 7
          (some (out.take (if 0x1F600 ≥ 0x10000 then 4 else 2)))
          (if 0x1F600 ≥ 0x10000 then 4 else 2) (some 0) .kLittleEndian).code
        = ErrorCode.kERRC_NO ∧
      (FromUtf16 false ⟨ErrorInfo.ctor, []⟩ 7
          (some (out.take (if 0x1F600 ≥ 0x10000 then 4 else 2)))
          (if 0x1F600 ≥ 0x10000 then 4 else 2) (some 0) .kLittleEndian).cp = 0x1F600 ∧
      (FromUtf16 false ⟨ErrorInfo.ctor, []⟩ 7
          (some (out.take (if 0x1F600 ≥ 0x10000 then 4 else 2)))
          (if 0x1F600 ≥ 0x10000 then 4 else 2) (some 0) .kLittleEndian).srcReadBytes
        = some (if 0x1F600 ≥ 0x10000 then 4 else 2)) :=
  ⟨by decide, ToUtf16_FromUtf16_roundtrip false ⟨ErrorInfo.ctor, []⟩ ⟨ErrorInfo.ctor, []⟩
    [0, 0, 0, 0] 4 0x1F600 7 0 0 .kLittleEndian (by decide) (by decide) (by decide)
    (by decide)⟩


theorem utf16_unit_layout_eq_octets (hostLE : Bool) (e : EndianType) (u : Nat)
    (he : e ≠ .kIgnoreEndian) (hu : u < 65536) :
    utf16_unit_layout hostLE e u = utf16_unit_octets e u := by
  have h : u / 256 % 256 = u / 256 := by omega
  cases e <;>
    simp [utf16_unit_layout, utf16_unit_octets, unit_lsb_first, unit_msb_first, h] at he ⊢

/-- C7. For every code point `cp ≤ 0x10FFFF`, every non-null destination of sufficient
capacity (2 bytes if `cp < 0x10000`, else 4), each byte order in `kLittleEndian`,
`kBigEndian` and either host, `ToUtf16` returns `kERRC_NO`, reports that required size, and
leaves in the destination: for `cp < 0x10000` the single unit `cp`; for `cp ≥ 0x10000` the
unit `0xD800 + ((cp - 0x10000) >> 10)` followed by `0xDC00 + ((cp - 0x10000) & 0x3FF)`; each
unit least-significant byte first for `kLittleEndian` and most-significant byte first for
`kBigEndian`; the bytes after them are unchanged. -/
theorem ToUtf16_writes_units (hostLE : Bool) (err : ErrorState) (buf : List Nat)
    (dstSize cp : Nat) (dsn : Option Nat) (e : EndianType) (hcp : cp ≤ 0x10FFFF)
    (he : e = .kLittleEndian ∨ e = .kBigEndian)
    (hcap : (if cp < 0x10000 then 2 else 4) ≤ dstSize) (hlen : dstSize ≤ buf.length) :
    (ToUtf16 hostLE err (some buf) dstSize cp dsn e).code = ErrorCode.kERRC_NO ∧
    (ToUtf16 hostLE err (some buf) dstSize cp dsn e).dstSizeNeeded
      = dsn.map (fun _ => if cp < 0x10000 then 2 else 4) ∧
    (ToUtf16 hostLE err (some buf) dstSize cp dsn e).dstBuf
      = some (if cp < 0x10000 then utf16_unit_octets e cp ++ buf.drop 2
              else utf16_unit_octets e (0xD800 + ((cp - 0x10000) >>> 10))
                ++ utf16_unit_octets e (0xDC00 + ((cp - 0x10000) &&& 0x3FF))
                ++ buf.drop 4) := by
  have hne : e ≠ .kIgnoreEndian := by
    rcases he with rfl | rfl <;> decide
  by_cases h : cp < 0x10000
  · rw [if_pos h] at hcap
    rw [ToUtf16_bmp hostLE err buf dstSize cp dsn e h hcap hlen]
    simp only [if_pos h]
    have hmod : cp % 65536 = cp := by omega
    rw [hmod, utf16_unit_layout_eq_octets hostLE e cp hne h]
    exact ⟨by trivial, by trivial, by trivial⟩
  · rw [if_neg h] at hcap
    rw [ToUtf16_pair hostLE err buf dstSize cp dsn e (by omega) hcap hlen]
    simp only [if_neg h]
    have hhi := utf16_high_eq cp hcp
    have hlo := utf16_low_eq cp
    have hhi2 : utf16_high cp < 65536 := by
      rw [hhi, shiftRight_10]; omega
    have hlo2 : utf16_low cp < 65536 := by
      rw [hlo, and_1023]; omega
    rw [utf16_unit_layout_eq_octets hostLE e _ hne hhi2,
      utf16_unit_layout_eq_octets hostLE e _ hne hlo2, hhi, hlo]
    exact ⟨by trivial, by trivial, by trivial⟩

theorem ToUtf16_writes_units_witness :
    (0x1F600 ≤ 0x10FFFF ∧ (EndianType.kBigEndian = .kLittleEndian ∨
        EndianType.kBigEndian = .kBigEndian) ∧
      (if 0x1F600 < 0x10000 then 2 else 4) ≤ 4 ∧ 4 ≤ [7, 7, 7, 7, 7].length) ∧
    ((ToUtf16 true ⟨ErrorInfo.ctor, []⟩ (some [7, 7, 7, 7, 7]) 4 0x1F600 (some 0)
        .kBigEndian).code = ErrorCode.kERRC_NO ∧
     (ToUtf16 true ⟨ErrorInfo.ctor, []⟩ (some [7, 7, 7, 7, 7]) 4 0x1F600 (some 0)
        .kBigEndian).dstSizeNeeded
      = (some 0).map (fun _ => if 0x1F600 < 0x10000 then 2 else 4) ∧
     (ToUtf16 true ⟨ErrorInfo.ctor, []⟩ (some [7, 7, 7, 7, 7]) 4 0x1F600 (some 0)
        .kBigEndian).dstBuf
      = some (if 0x1F600 < 0x10000 then
                utf16_unit_octets .kBigEndian 0x1F600 ++ [7, 7, 7, 7, 7].drop 2
              else utf16_unit_octets .kBigEndian (0xD800 + ((0x1F600 - 0x10000) >>> 10))
                ++ utf16_unit_octets .kBigEndian (0xDC00 + ((0x1F600 - 0x10000) &&& 0x3FF))
                ++ [7, 7, 7, 7, 7].drop 4)) :=
  ⟨by decide, ToUtf16_writes_units true ⟨ErrorInfo.ctor, []⟩ [7, 7, 7, 7, 7] 4 0x1F600
    (some 0) .kBigEndian (by decide) (by decide) (by decide) (by decide)⟩

/-- C8, refuted as stated: for `cp = 0x110000 > 0x10FFFF` (little-endian host and data,
destination of capacity 4) `ToUtf16` does not fail: it returns `kERRC_NO`, reports 4 bytes
and writes the two units `0xDC00 0xDC00`. -/
theorem ToUtf16_accepts_0x110000 :
    (ToUtf16 true ⟨ErrorInfo.ctor, []⟩ (some [0, 0, 0, 0]) 4 0x110000 (some 0)
        .kLittleEndian).code = ErrorCode.kERRC_NO ∧
    (ToUtf16 true ⟨ErrorInfo.ctor, []⟩ (some [0, 0, 0, 0]) 4 0x110000 (some 0)
        .kLittleEndian).code ≠ ErrorCode.kERRC_VALUE_OUT_OF_RANGE ∧
    (ToUtf16 true ⟨ErrorInfo.ctor, []⟩ (some [0, 0, 0, 0]) 4 0x110000 (some 0)
        .kLittleEndian).dstSizeNeeded = some 4 ∧
    (ToUtf16 true ⟨ErrorInfo.ctor, []⟩ (some [0, 0, 0, 0]) 4 0x110000 (some 0)
        .kLittleEndian).dstBuf = some [0x00, 0xDC, 0x00, 0xDC] := by
  decide

theorem ToUtf16_code_ne_out_of_range (hostLE : Bool) (err : ErrorState)
    (dstBuf : Option (List Nat)) (dstSize cp : Nat) (dsn : Option Nat) (e : EndianType) :
    (ToUtf16 hostLE err dstBuf dstSize cp dsn e).code ≠ ErrorCode.kERRC_VALUE_OUT_OF_RANGE := by
  cases dstBuf <;> simp only [ToUtf16] <;> split_ifs <;>
    simp [ErrorInfo.SetCode, ErrorState.PushInStack, ErrorInfo.SetMessage,
      ErrorInfo.SetFnameLnCodeLevApi, ErrorInfo.SetDefaults]

/-- C8, amended: for every code point `cp > 0x10FFFF`, `ToUtf16` performs no range check:
for every destination, capacity and byte order it never returns `kERRC_VALUE_OUT_OF_RANGE`
and reports required size 4; given a non-null destination of capacity at least 4 it returns
`kERRC_NO` after writing the two units `(0xD800 + ((cp - 0x10000) >> 10)) mod 2^16` and
`0xDC00 + ((cp - 0x10000) & 0x3FF)` in the layout of the byte order. -/
theorem ToUtf16_above_range (hostLE : Bool) (err : ErrorState) (buf : List Nat)
    (dstSize cp : Nat) (dsn : Option Nat) (e : EndianType) (hcp : cp > 0x10FFFF)
    (hcap : 4 ≤ dstSize) (hlen : dstSize ≤ buf.length) :
    (∀ (dstBuf : Option (List Nat)) (c : Nat),
      (ToUtf16 hostLE err dstBuf c cp dsn e).code ≠ ErrorCode.kERRC_VALUE_OUT_OF_RANGE ∧
      (ToUtf16 hostLE err dstBuf c cp dsn e).dstSizeNeeded = dsn.map (fun _ => 4)) ∧
    (ToUtf16 hostLE err (some buf) dstSize cp dsn e).code = ErrorCode.kERRC_NO ∧
    (ToUtf16 hostLE err (some buf) dstSize cp dsn e).dstBuf
      = some (utf16_unit_layout hostLE e ((0xD800 + ((cp - 0x10000) >>> 10)) % 2 ^ 32 % 65536)
          ++ utf16_unit_layout hostLE e (0xDC00 + ((cp - 0x10000) &&& 0x3FF))
          ++ buf.drop 4) := by
  have h : cp ≥ 0x10000 := by omega
  refine ⟨fun dstBuf c => ⟨ToUtf16_code_ne_out_of_range hostLE err dstBuf c cp dsn e, ?_⟩, ?_⟩
  · cases dstBuf <;> simp only [ToUtf16, if_pos h] <;> split_ifs <;> rfl
  · rw [ToUtf16_pair hostLE err buf dstSize cp dsn e h hcap hlen, utf16_low_eq]
    exact ⟨rfl, rfl⟩

theorem ToUtf16_above_range_witness :
    (0x110000 > 0x10FFFF ∧ 4 ≤ 4 ∧ 4 ≤ [0, 0, 0, 0].length) ∧
    ((∀ (dstBuf : Option (List Nat)) (c : Nat),
      (ToUtf16 false ⟨ErrorInfo.ctor, []⟩ dstBuf c 0x110000 (some 0) .kBigEndian).code
        ≠ ErrorCode.kERRC_VALUE_OUT_OF_RANGE ∧
      (ToUtf16 false ⟨ErrorInfo.ctor, []⟩ dstBuf c 0x110000 (some 0) .kBigEndian).dstSizeNeeded
        = (some 0).map (fun _ => 4)) ∧
    (ToUtf16 false ⟨ErrorInfo.ctor, []⟩ (some [0, 0, 0, 0]) 4 0x110000 (some 0)
        .kBigEndian).code = ErrorCode.kERRC_NO ∧
    (ToUtf16 false ⟨ErrorInfo.ctor, []⟩ (some [0, 0, 0, 0]) 4 0x110000 (some 0)
        .kBigEndian).dstBuf
      = some (utf16_unit_layout false .kBigEndian
            ((0xD800 + ((0x110000 - 0x10000) >>> 10)) % 2 ^ 32 % 65536)
          ++ utf16_unit_layout false .kBigEndian (0xDC00 + ((0x110000 - 0x10000) &&& 0x3FF))
          ++ [0, 0, 0, 0].drop 4)) :=
  ⟨by decide, ToUtf16_above_range false ⟨ErrorInfo.ctor, []⟩ [0, 0, 0, 0] 4 0x110000 (some 0)
    .kBigEndian (by decide) (by decide) (by decide)⟩


/-- C9. For every code point `cp`, every byte order, every destination pointer (null
included), on either host, `ToUtf16` called with capacity 0 returns
`kERRC_NOT_ENOUGH_BUF_SPACE`, leaves the destination as it was, and stores the required size
in the variable behind a non-null `dstSizeNeeded`: 4 if `cp ≥ 0x10000`, otherwise 2. -/
theorem ToUtf16_probe (hostLE : Bool) (err : ErrorState) (dstBuf : Option (List Nat))
    (cp : Nat) (dsn : Option Nat) (e : EndianType) :
    (ToUtf16 hostLE err dstBuf 0 cp dsn e).code = ErrorCode.kERRC_NOT_ENOUGH_BUF_SPACE ∧
    (ToUtf16 hostLE err dstBuf 0 cp dsn e).dstBuf = dstBuf ∧
    (ToUtf16 hostLE err dstBuf 0 cp dsn e).dstSizeNeeded
      = dsn.map (fun _ => if cp ≥ 0x10000 then 4 else 2) := by
  by_cases h : cp ≥ 0x10000
  · simp [ToUtf16, if_pos h, ErrorInfo.SetCode]
  · simp [ToUtf16, if_neg h, ErrorInfo.SetCode]

/-- C10. For every code point `cp ≥ 0x10000`, every byte order and every non-null
destination of capacity `c < 4`, on either host, `ToUtf16` returns
`kERRC_NOT_ENOUGH_BUF_SPACE` and reports required size 4; when `c ≤ 1` the destination is
unchanged, and when `c` is 2 or 3 exactly its first two bytes are overwritten, with the high
surrogate in the layout of the byte order (least-significant byte first for `kLittleEndian`,
most-significant byte first for `kBigEndian`). -/
theorem ToUtf16_pair_short_capacity (hostLE : Bool) (err : ErrorState) (buf : List Nat)
    (c cp : Nat) (dsn : Option Nat) (e : EndianType) (hcp : cp ≥ 0x10000) (hc : c < 4)
    (hlen : c ≤ buf.length) :
    (ToUtf16 hostLE err (some buf) c cp dsn e).code = ErrorCode.kERRC_NOT_ENOUGH_BUF_SPACE ∧
    (ToUtf16 hostLE err (some buf) c cp dsn e).dstSizeNeeded = dsn.map (fun _ => 4) ∧
    (ToUtf16 hostLE err (some buf) c cp dsn e).dstBuf
      = some (if c ≤ 1 then buf
              else utf16_unit_layout hostLE e (utf16_high cp) ++ buf.drop 2) := by
  have hh : (Utf16_makeSurrogates 0 0 cp).2.1 = utf16_high cp := by
    simp [Utf16_makeSurrogates, hcp, utf16_high]
  by_cases h0 : 0 = c
  · subst h0
    simp [ToUtf16, if_pos hcp, ErrorInfo.SetCode]
  · by_cases h1 : c ≤ 1
    · have hs : c < 2 := by omega
      simp only [ToUtf16, if_pos hcp, if_neg h0, writeBuiltin_short _ _ 2 _ _ c _ hs, if_pos h1]
      simp [ErrorState.PushInStack, ErrorInfo.SetMessage, ErrorInfo.SetFnameLnCodeLevApi]
    · obtain ⟨b0, b1, rest, rfl⟩ : ∃ b0 b1 rest, buf = b0 :: b1 :: rest := by
        match buf, hlen with
        | b0 :: b1 :: rest, _ => exact ⟨b0, b1, rest, rfl⟩
        | [_], h => simp at h; omega
        | [], h => simp at h; omega
      obtain ⟨x, y, hxy, _⟩ := utf16_unit_layout_pair hostLE e (utf16_high cp)
      simp only [ToUtf16, if_pos hcp, if_neg h0, hh,
        writeBuiltin_two_at_0 _ _ _ _ _ _ _ (show 2 ≤ c by omega),
        writeBuiltin_short _ _ 2 _ _ (c - 2) _ (show c - 2 < 2 by omega), if_neg h1]
      simp [ErrorState.PushInStack, ErrorInfo.SetMessage, ErrorInfo.SetFnameLnCodeLevApi]

theorem ToUtf16_pair_short_capacity_witness :
    (0x1F600 ≥ 0x10000 ∧ 3 < 4 ∧ 3 ≤ [7, 7, 7].length) ∧
    ((ToUtf16 true ⟨ErrorInfo.ctor, []⟩ (some [7, 7, 7]) 3 0x1F600 (some 0) .kBigEndian).code
      = ErrorCode.kERRC_NOT_ENOUGH_BUF_SPACE ∧
    (ToUtf16 true ⟨ErrorInfo.ctor, []⟩ (some [7, 7, 7]) 3 0x1F600 (some 0)
        .kBigEndian).dstSizeNeeded = (some 0).map (fun _ => 4) ∧
    (ToUtf16 true ⟨ErrorInfo.ctor, []⟩ (some [7, 7, 7]) 3 0x1F600 (some 0) .kBigEndian).dstBuf
      = some (if 3 ≤ 1 then [7, 7, 7]
              else utf16_unit_layout true .kBigEndian (utf16_high 0x1F600)
                ++ [7, 7, 7].drop 2)) :=
  ⟨by decide, ToUtf16_pair_short_capacity true ⟨ErrorInfo.ctor, []⟩ [7, 7, 7] 3 0x1F600
    (some 0) .kBigEndian (by decide) (by decide) (by decide)⟩


/-! ## UTF-8 decoder on arbitrary sources -/

theorem FromUtf8_octets_lead (b0 : Nat) (hb0 : b0 < 256) :
    FromUtf8_octets b0 = some (utf8_lead_count b0, utf8_lead_mask b0) := by
  rw [FromUtf8_octets_eq b0 hb0, utf8_lead_count, utf8_lead_mask]
  split_ifs <;> rfl

theorem utf8_lead_count_range (b0 : Nat) : 1 ≤ utf8_lead_count b0 ∧ utf8_lead_count b0 ≤ 4 := by
  unfold utf8_lead_count
  split_ifs <;> omega

theorem FromUtf8_empty (hostLE : Bool) (err : ErrorState) (cp0 : Nat) (src : List Nat)
    (srb : Option Nat) :
    ∃ r, FromUtf8 hostLE err cp0 (some src) 0 srb = some r ∧
      r.code = .kERRC_NOT_ENOUGH_DATA ∧ r.cp = cp0 ∧ r.srcReadBytes = srb := by
  simp [FromUtf8, ErrorState.PushInStack, ErrorInfo.SetMessage, ErrorInfo.SetFnameLnCodeLevApi]

theorem FromUtf8_short (hostLE : Bool) (err : ErrorState) (cp0 : Nat) (src : List Nat)
    (srcSize : Nat) (srb : Option Nat) (hb0 : src.getD 0 0 < 256) (h0 : srcSize ≠ 0)
    (hk : srcSize < utf8_lead_count (src.getD 0 0)) :
    ∃ r, FromUtf8 hostLE err cp0 (some src) srcSize srb = some r ∧
      r.code = .kERRC_NOT_ENOUGH_DATA ∧ r.cp = cp0 ∧ r.srcReadBytes = srb := by
  simp only [FromUtf8, if_neg (Ne.symm h0), FromUtf8_octets_lead _ hb0, gt_iff_lt, if_pos hk]
  exact ⟨_, rfl, rfl, rfl, rfl⟩

theorem FromUtf8_enough (hostLE : Bool) (err : ErrorState) (cp0 : Nat) (src : List Nat)
    (srcSize : Nat) (srb : Option Nat) (hb0 : src.getD 0 0 < 256)
    (hk : utf8_lead_count (src.getD 0 0) ≤ srcSize) :
    FromUtf8 hostLE err cp0 (some src) srcSize srb =
      some { code := .kERRC_NO
             cp := FromUtf8_fill hostLE src (utf8_lead_count (src.getD 0 0) - 1) 1
               (setByte hostLE 4 cp0 0
                 ((src.getD 0 0 &&& utf8_lead_mask (src.getD 0 0)) % 256))
             srcReadBytes := srb.map (fun _ => utf8_lead_count (src.getD 0 0))
             err := { err with sErrorInfo := err.sErrorInfo.SetDefaults "Zv3D::FromUtf8()" } } := by
  have h0 : ¬ 0 = srcSize := by
    have := (utf8_lead_count_range (src.getD 0 0)).1
    omega
  simp only [FromUtf8, if_neg h0, FromUtf8_octets_lead _ hb0, gt_iff_lt,
    if_neg (Nat.not_lt.mpr hk)]
  rfl


theorem shiftLeft_6_or (a b : Nat) : (a <<< 6) ||| (b &&& 0x3F) = a * 64 + b % 64 := by
  rw [shiftLeft_6, and_63]
  have h := Nat.mul_add_lt_is_or (show b % 64 < 2 ^ 6 from Nat.mod_lt _ (by norm_num)) a
  have e : (2 : Nat) ^ 6 = 64 := by norm_num
  rw [e] at h
  rw [Nat.mul_comm a 64, ← h]

theorem FromUtf8_fill_accumulate (hostLE : Bool) (src : List Nat) :
    ∀ (n i acc m : Nat), i + n ≤ src.length → acc < 2 ^ m → m + 6 * n ≤ 32 →
      FromUtf8_fill hostLE src n i acc = utf8_accumulate acc ((src.drop i).take n) := by
  intro n
  induction n with
  | zero =>
    intro i acc m _ _ _
    simp [FromUtf8_fill, utf8_accumulate]
  | succ n ih =>
    intro i acc m hlen hacc hm
    have hi : i < src.length := by omega
    have hdrop : (src.drop i).take (n + 1) = src.getD i 0 :: (src.drop (i + 1)).take n := by
      rw [List.drop_eq_getElem_cons hi, List.take_succ_cons]
      simp [List.getD_eq_getElem?_getD, List.getElem?_eq_getElem hi]
    have hpow : (2 : Nat) ^ (m + 6) = 2 ^ m * 64 := by
      rw [pow_add]; norm_num
    have hle : (2 : Nat) ^ (m + 6) ≤ 2 ^ 32 := Nat.pow_le_pow_right (by norm_num) (by omega)
    have h32 : (2 : Nat) ^ 32 = 4294967296 := by norm_num
    have hstep : acc * 64 % 2 ^ 32 + src.getD i 0 % 64 = acc * 64 + src.getD i 0 % 64 := by
      have : acc * 64 < 2 ^ 32 := by
        have : src.getD i 0 % 64 < 64 := Nat.mod_lt _ (by norm_num)
        omega
      rw [Nat.mod_eq_of_lt this]
    have hnext : acc * 64 + src.getD i 0 % 64 < 2 ^ (m + 6) := by
      have : src.getD i 0 % 64 < 64 := Nat.mod_lt _ (by norm_num)
      omega
    rw [hdrop]
    simp only [FromUtf8_fill, FromUtf8_step, hstep]
    rw [ih (i + 1) _ (m + 6) (by omega) hnext (by omega)]
    simp only [utf8_accumulate, List.foldl_cons, shiftLeft_6_or]


theorem utf8_lead_mask_le (b0 : Nat) : utf8_lead_mask b0 ≤ 127 := by
  unfold utf8_lead_mask
  split_ifs <;> omega

/-- C11. For every non-null source whose lead byte `b0` is a byte, with `k` and the payload
mask determined by `b0` (`k = 1`, mask `0x7F` for `b0 < 0xC0`; `k = 2`, `0x3F` for
`0xC0..0xDF`; `k = 3`, `0x1F` for `0xE0..0xEF`; `k = 4`, `0x0F` from `0xF0` on): whenever the
source holds at least `k` bytes, `FromUtf8` called with `cp` initially 0 returns `kERRC_NO`,
reports `k` bytes read and stores the accumulator seeded with `b0 & mask` and, for each of
the following `k - 1` bytes in order, shifted left by 6 and OR-ed with the byte's low 6 bits;
on either host. -/
theorem FromUtf8_decodes (hostLE : Bool) (err : ErrorState) (src : List Nat) (srcSize : Nat)
    (srb : Option Nat) (hb0 : src.getD 0 0 < 256)
    (hk : utf8_lead_count (src.getD 0 0) ≤ srcSize) (hlen : srcSize ≤ src.length) :
    ∃ r, FromUtf8 hostLE err 0 (some src) srcSize srb = some r ∧
      r.code = ErrorCode.kERRC_NO ∧
      r.srcReadBytes = srb.map (fun _ => utf8_lead_count (src.getD 0 0)) ∧
      r.cp = utf8_accumulate (src.getD 0 0 &&& utf8_lead_mask (src.getD 0 0))
        ((src.drop 1).take (utf8_lead_count (src.getD 0 0) - 1)) := by
  rw [FromUtf8_enough hostLE err 0 src srcSize srb hb0 hk]
  refine ⟨_, rfl, rfl, rfl, ?_⟩
  have hr := utf8_lead_count_range (src.getD 0 0)
  have hm := utf8_lead_mask_le (src.getD 0 0)
  have hand : src.getD 0 0 &&& utf8_lead_mask (src.getD 0 0) ≤ 127 :=
    Nat.le_trans Nat.and_le_right hm
  have hseed : setByte hostLE 4 0 0
      ((src.getD 0 0 &&& utf8_lead_mask (src.getD 0 0)) % 256)
      = src.getD 0 0 &&& utf8_lead_mask (src.getD 0 0) := by
    rw [setByte_four_zero hostLE 0 _ (by norm_num)]
    omega
  show FromUtf8_fill hostLE src (utf8_lead_count (src.getD 0 0) - 1) 1 _ = _
  rw [hseed]
  exact FromUtf8_fill_accumulate hostLE src _ 1 _ 7 (by omega)
    (by have h7 : (2 : Nat) ^ 7 = 128 := by norm_num
        omega) (by omega)

theorem FromUtf8_decodes_witness :
    ([0xE2, 0x82, 0xAC, 0x41].getD 0 0 < 256 ∧
      utf8_lead_count ([0xE2, 0x82, 0xAC, 0x41].getD 0 0) ≤ 4 ∧
      4 ≤ [0xE2, 0x82, 0xAC, 0x41].length) ∧
    ∃ r, FromUtf8 false ⟨ErrorInfo.ctor, []⟩ 0 (some [0xE2, 0x82, 0xAC, 0x41]) 4 (some 0)
        = some r ∧
      r.code = ErrorCode.kERRC_NO ∧
      r.srcReadBytes
        = (some 0).map (fun _ => utf8_lead_count ([0xE2, 0x82, 0xAC, 0x41].getD 0 0)) ∧
      r.cp = utf8_accumulate ([0xE2, 0x82, 0xAC, 0x41].getD 0 0
            &&& utf8_lead_mask ([0xE2, 0x82, 0xAC, 0x41].getD 0 0))
        (([0xE2, 0x82, 0xAC, 0x41].drop 1).take
          (utf8_lead_count ([0xE2, 0x82, 0xAC, 0x41].getD 0 0) - 1)) :=
  ⟨by decide, FromUtf8_decodes false ⟨ErrorInfo.ctor, []⟩ [0xE2, 0x82, 0xAC, 0x41] 4 (some 0)
    (by decide) (by decide) (by decide)⟩

/-- C12. For every non-null source (whose lead byte, if any, is a byte) `FromUtf8` returns
`kERRC_NOT_ENOUGH_DATA` if and only if the source is empty (`srcSize = 0`) or holds fewer
bytes than the octet count derived from its lead byte; in that case `cp` and the variable
behind `srcReadBytes` are left unchanged; and on every success the reported number of bytes
read is that octet count, which is in `{1,2,3,4}` and never exceeds `srcSize`. -/
theorem FromUtf8_not_enough_data (hostLE : Bool) (err : ErrorState) (cp0 : Nat)
    (src : List Nat) (srcSize : Nat) (srb : Option Nat) (hb0 : src.getD 0 0 < 256) :
    ∃ r, FromUtf8 hostLE err cp0 (some src) srcSize srb = some r ∧
      (r.code = ErrorCode.kERRC_NOT_ENOUGH_DATA ↔
        (srcSize = 0 ∨ srcSize < utf8_lead_count (src.getD 0 0))) ∧
      (r.code = ErrorCode.kERRC_NOT_ENOUGH_DATA → r.cp = cp0 ∧ r.srcReadBytes = srb) ∧
      (r.code = ErrorCode.kERRC_NO →
        r.srcReadBytes = srb.map (fun _ => utf8_lead_count (src.getD 0 0)) ∧
        1 ≤ utf8_lead_count (src.getD 0 0) ∧ utf8_lead_count (src.getD 0 0) ≤ 4 ∧
        utf8_lead_count (src.getD 0 0) ≤ srcSize) := by
  have hr := utf8_lead_count_range (src.getD 0 0)
  by_cases h0 : srcSize = 0
  · subst h0
    obtain ⟨r, hr1, hr2, hr3, hr4⟩ := FromUtf8_empty hostLE err cp0 src srb
    refine ⟨r, hr1, ?_, fun _ => ⟨hr3, hr4⟩, fun h => ?_⟩
    · rw [hr2]; exact ⟨fun _ => Or.inl rfl, fun _ => rfl⟩
    · rw [hr2] at h; cases h
  · by_cases hk : srcSize < utf8_lead_count (src.getD 0 0)
    · obtain ⟨r, hr1, hr2, hr3, hr4⟩ := FromUtf8_short hostLE err cp0 src srcSize srb hb0 h0 hk
      refine ⟨r, hr1, ?_, fun _ => ⟨hr3, hr4⟩, fun h => ?_⟩
      · rw [hr2]; exact ⟨fun _ => Or.inr hk, fun _ => rfl⟩
      · rw [hr2] at h; cases h
    · rw [FromUtf8_enough hostLE err cp0 src srcSize srb hb0 (by omega)]
      refine ⟨_, rfl, ?_, fun h => ?_, fun _ => ⟨rfl, hr.1, hr.2, by omega⟩⟩
      · constructor
        · intro h; cases h
        · intro h; omega
      · cases h

theorem FromUtf8_not_enough_data_witness :
    [0xE2, 0x82].getD 0 0 < 256 ∧
    ∃ r, FromUtf8 true ⟨ErrorInfo.ctor, []⟩ 7 (some [0xE2, 0x82]) 2 (some 9) = some r ∧
      (r.code = ErrorCode.kERRC_NOT_ENOUGH_DATA ↔
        (2 = 0 ∨ 2 < utf8_lead_count ([0xE2, 0x82].getD 0 0))) ∧
      (r.code = ErrorCode.kERRC_NOT_ENOUGH_DATA → r.cp = 7 ∧ r.srcReadBytes = some 9) ∧
      (r.code = ErrorCode.kERRC_NO →
        r.srcReadBytes = (some 9).map (fun _ => utf8_lead_count ([0xE2, 0x82].getD 0 0)) ∧
        1 ≤ utf8_lead_count ([0xE2, 0x82].getD 0 0) ∧
        utf8_lead_count ([0xE2, 0x82].getD 0 0) ≤ 4 ∧
        utf8_lead_count ([0xE2, 0x82].getD 0 0) ≤ 2) :=
  ⟨by decide, FromUtf8_not_enough_data true ⟨ErrorInfo.ctor, []⟩ 7 [0xE2, 0x82] 2 (some 9)
    (by decide)⟩

/-! ## UTF-16 decoder on arbitrary sources -/

theorem readBuiltin_two (hostLE : Bool) (e : EndianType) (buf : List Nat)
    (pSrc srcSize d : Nat) (h : 2 ≤ srcSize) :
    readBuiltin hostLE 2 buf pSrc srcSize d e =
      { ok := true, pSrc := pSrc + 2, srcSize := srcSize - 2,
        dst := utf16_unit_value hostLE e (buf.getD pSrc 0) (buf.getD (pSrc + 1) 0) } := by
  have h2 : ¬ srcSize < 2 := by omega
  cases hostLE <;> cases e <;>
    simp [readBuiltin, h2, platformEndian_true, platformEndian_false, toMem_two,
      readBuiltin_swapped, readBuiltin_straight, utf16_unit_value, fromMem, fromMemLE]


theorem FromUtf16_too_short (hostLE : Bool) (err : ErrorState) (cp0 : Nat) (src : List Nat)
    (srcSize : Nat) (srb : Option Nat) (e : EndianType) (h : srcSize < 2) :
    (FromUtf16 hostLE err cp0 (some src) srcSize srb e).code = .kERRC_NOT_ENOUGH_DATA ∧
    (FromUtf16 hostLE err cp0 (some src) srcSize srb e).cp = cp0 ∧
    (FromUtf16 hostLE err cp0 (some src) srcSize srb e).srcReadBytes = srb := by
  simp only [FromUtf16, readBuiltin_short _ _ 2 _ _ srcSize _ h]
  exact ⟨rfl, rfl, rfl⟩

theorem FromUtf16_one_unit (hostLE : Bool) (err : ErrorState) (cp0 : Nat) (src : List Nat)
    (srcSize : Nat) (srb : Option Nat) (e : EndianType) (h : 2 ≤ srcSize)
    (hs : ¬ (utf16_unit_value hostLE e (src.getD 0 0) (src.getD 1 0) &&& 0xFC00 = 0xD800)) :
    FromUtf16 hostLE err cp0 (some src) srcSize srb e =
      { code := .kERRC_NO
        cp := utf16_unit_value hostLE e (src.getD 0 0) (src.getD 1 0)
        srcReadBytes := srb.map (fun _ => 2)
        err := { err with sErrorInfo := err.sErrorInfo.SetDefaults "Zv3D::FromUtf16()" } } := by
  simp only [FromUtf16, readBuiltin_two _ _ _ _ _ _ h, Nat.zero_add, if_neg hs]
  rfl

theorem FromUtf16_two_units (hostLE : Bool) (err : ErrorState) (cp0 : Nat) (src : List Nat)
    (srcSize : Nat) (srb : Option Nat) (e : EndianType) (h : 4 ≤ srcSize)
    (hs : utf16_unit_value hostLE e (src.getD 0 0) (src.getD 1 0) &&& 0xFC00 = 0xD800) :
    FromUtf16 hostLE err cp0 (some src) srcSize srb e =
      { code := .kERRC_NO
        cp := (0x10000
          + (U32_ofInt ((utf16_unit_value hostLE e (src.getD 0 0) (src.getD 1 0) : Int)
              - 0xD800) <<< 10) % 2 ^ 32
          + U32_ofInt ((utf16_unit_value hostLE e (src.getD 2 0) (src.getD 3 0) : Int)
              - 0xDC00)) % 2 ^ 32
        srcReadBytes := srb.map (fun _ => 4)
        err := { err with sErrorInfo := err.sErrorInfo.SetDefaults "Zv3D::FromUtf16()" } } := by
  simp only [FromUtf16, readBuiltin_two _ _ _ _ _ _ (show 2 ≤ srcSize by omega), Nat.zero_add,
    if_pos hs, readBuiltin_two _ _ _ _ _ _ (show 2 ≤ srcSize - 2 by omega)]
  rfl

theorem FromUtf16_second_unit_missing (hostLE : Bool) (err : ErrorState) (cp0 : Nat)
    (src : List Nat) (srcSize : Nat) (srb : Option Nat) (e : EndianType) (h : 2 ≤ srcSize)
    (h4 : srcSize < 4)
    (hs : utf16_unit_value hostLE e (src.getD 0 0) (src.getD 1 0) &&& 0xFC00 = 0xD800) :
    (FromUtf16 hostLE err cp0 (some src) srcSize srb e).code = .kERRC_NOT_ENOUGH_DATA ∧
    (FromUtf16 hostLE err cp0 (some src) srcSize srb e).cp = cp0 ∧
    (FromUtf16 hostLE err cp0 (some src) srcSize srb e).srcReadBytes = srb := by
  simp only [FromUtf16, readBuiltin_two _ _ _ _ _ _ h, Nat.zero_add, if_pos hs,
    readBuiltin_short _ _ 2 _ _ (srcSize - 2) _ (show srcSize - 2 < 2 by omega)]
  exact ⟨rfl, rfl, rfl⟩

theorem utf16_unit_value_eq_at (hostLE : Bool) (e : EndianType) (src : List Nat) (i : Nat)
    (he : e = .kLittleEndian ∨ e = .kBigEndian) :
    utf16_unit_value hostLE e (src.getD i 0) (src.getD (i + 1) 0) = utf16_unit_at e src i := by
  rcases he with rfl | rfl <;> simp [utf16_unit_value, utf16_unit_at]

theorem utf16_combine_eq (s1 s2 : Nat) :
    (((0x10000 + (U32_ofInt ((s1 : Int) - 0xD800) <<< 10) % 2 ^ 32
        + U32_ofInt ((s2 : Int) - 0xDC00)) % 2 ^ 32 : Nat) : Int)
      = (0x10000 + ((s1 : Int) - 0xD800) * 2 ^ 10 + ((s2 : Int) - 0xDC00)) % 2 ^ 32 := by
  unfold U32_ofInt
  rw [shiftLeft_10]
  push_cast
  omega


/-- C13. For every non-null source and byte order in `kLittleEndian`, `kBigEndian`, on
either host, with `u1` the first 16-bit unit read in that order and `u2` the second: if
`(u1 & 0xFC00) != 0xD800` and at least 2 bytes are available, `FromUtf16` returns `kERRC_NO`,
stores `cp = u1` and reports 2 bytes read; if `(u1 & 0xFC00) == 0xD800` and at least 4 bytes
are available, it returns `kERRC_NO`, stores
`cp = 0x10000 + ((u1 - 0xD800) << 10) + (u2 - 0xDC00)` modulo `2^32` and reports 4 bytes
read, whatever `u2` is. -/
theorem FromUtf16_decodes (hostLE : Bool) (err : ErrorState) (cp0 : Nat) (src : List Nat)
    (srcSize : Nat) (srb : Option Nat) (e : EndianType)
    (he : e = .kLittleEndian ∨ e = .kBigEndian)
    (hsz : (if utf16_unit_at e src 0 &&& 0xFC00 = 0xD800 then 4 else 2) ≤ srcSize) :
    (FromUtf16 hostLE err cp0 (some src) srcSize srb e).code = ErrorCode.kERRC_NO ∧
    (FromUtf16 hostLE err cp0 (some src) srcSize srb e).srcReadBytes
      = srb.map (fun _ => if utf16_unit_at e src 0 &&& 0xFC00 = 0xD800 then 4 else 2) ∧
    (((FromUtf16 hostLE err cp0 (some src) srcSize srb e).cp : Nat) : Int)
      = (if utf16_unit_at e src 0 &&& 0xFC00 = 0xD800 then
          (0x10000 + ((utf16_unit_at e src 0 : Int) - 0xD800) * 2 ^ 10
            + ((utf16_unit_at e src 2 : Int) - 0xDC00)) % 2 ^ 32
         else (utf16_unit_at e src 0 : Int)) := by
  have h1 := utf16_unit_value_eq_at hostLE e src 0 he
  have h2 := utf16_unit_value_eq_at hostLE e src 2 he
  simp only [Nat.zero_add] at h1
  by_cases hs : utf16_unit_at e src 0 &&& 0xFC00 = 0xD800
  · rw [if_pos hs] at hsz
    rw [FromUtf16_two_units hostLE err cp0 src srcSize srb e hsz (by rw [h1]; exact hs)]
    simp only [if_pos hs]
    refine ⟨by trivial, by trivial, ?_⟩
    rw [h1, h2]
    exact utf16_combine_eq _ _
  · rw [if_neg hs] at hsz
    rw [FromUtf16_one_unit hostLE err cp0 src srcSize srb e hsz (by rw [h1]; exact hs)]
    simp only [if_neg hs]
    refine ⟨by trivial, by trivial, ?_⟩
    rw [h1]

theorem FromUtf16_decodes_witness :
    ((EndianType.kBigEndian = .kLittleEndian ∨ EndianType.kBigEndian = .kBigEndian) ∧
      (if utf16_unit_at .kBigEndian [0xD8, 0x3D, 0x00, 0x41] 0 &&& 0xFC00 = 0xD800
        then 4 else 2) ≤ 4) ∧
    ((FromUtf16 true ⟨ErrorInfo.ctor, []⟩ 0 (some [0xD8, 0x3D, 0x00, 0x41]) 4 (some 0)
        .kBigEndian).code = ErrorCode.kERRC_NO ∧
    (FromUtf16 true ⟨ErrorInfo.ctor, []⟩ 0 (some [0xD8, 0x3D, 0x00, 0x41]) 4 (some 0)
        .kBigEndian).srcReadBytes
      = (some 0).map (fun _ =>
          if utf16_unit_at .kBigEndian [0xD8, 0x3D, 0x00, 0x41] 0 &&& 0xFC00 = 0xD800
          then 4 else 2) ∧
    (((FromUtf16 true ⟨ErrorInfo.ctor, []⟩ 0 (some [0xD8, 0x3D, 0x00, 0x41]) 4 (some 0)
        .kBigEndian).cp : Nat) : Int)
      = (if utf16_unit_at .kBigEndian [0xD8, 0x3D, 0x00, 0x41] 0 &&& 0xFC00 = 0xD800 then
          (0x10000 + ((utf16_unit_at .kBigEndian [0xD8, 0x3D, 0x00, 0x41] 0 : Int) - 0xD800)
              * 2 ^ 10
            + ((utf16_unit_at .kBigEndian [0xD8, 0x3D, 0x00, 0x41] 2 : Int) - 0xDC00))
            % 2 ^ 32
         else (utf16_unit_at .kBigEndian [0xD8, 0x3D, 0x00, 0x41] 0 : Int))) :=
  ⟨by decide, FromUtf16_decodes true ⟨ErrorInfo.ctor, []⟩ 0 [0xD8, 0x3D, 0x00, 0x41] 4
    (some 0) .kBigEndian (by decide) (by decide)⟩

/-- C14. For every non-null source and every byte order, on either host, with `u1` the first
unit as `readBuiltin` delivers it: `FromUtf16` returns `kERRC_NOT_ENOUGH_DATA` if and only
if `srcSize < 2`, or `(u1 & 0xFC00) == 0xD800` and `srcSize < 4`; in that case `cp` and the
variable behind `srcReadBytes` are left unchanged; and on every success the reported number
of bytes read is 2 or 4 and never exceeds `srcSize`. -/
theorem FromUtf16_not_enough_data (hostLE : Bool) (err : ErrorState) (cp0 : Nat)
    (src : List Nat) (srcSize : Nat) (srb : Option Nat) (e : EndianType) :
    ((FromUtf16 hostLE err cp0 (some src) srcSize srb e).code
        = ErrorCode.kERRC_NOT_ENOUGH_DATA ↔
      (srcSize < 2 ∨
        (utf16_unit_value hostLE e (src.getD 0 0) (src.getD 1 0) &&& 0xFC00 = 0xD800
          ∧ srcSize < 4))) ∧
    ((FromUtf16 hostLE err cp0 (some src) srcSize srb e).code
        = ErrorCode.kERRC_NOT_ENOUGH_DATA →
      (FromUtf16 hostLE err cp0 (some src) srcSize srb e).cp = cp0 ∧
      (FromUtf16 hostLE err cp0 (some src) srcSize srb e).srcReadBytes = srb) ∧
    ((FromUtf16 hostLE err cp0 (some src) srcSize srb e).code = ErrorCode.kERRC_NO →
      ∃ n, (n = 2 ∨ n = 4) ∧ n ≤ srcSize ∧
        (FromUtf16 hostLE err cp0 (some src) srcSize srb e).srcReadBytes
          = srb.map (fun _ => n)) := by
  by_cases h2 : srcSize < 2
  · obtain ⟨a, b, c⟩ := FromUtf16_too_short hostLE err cp0 src srcSize srb e h2
    rw [a, b, c]
    exact ⟨⟨fun _ => Or.inl h2, fun _ => rfl⟩, fun _ => ⟨rfl, rfl⟩, fun h => by cases h⟩
  · by_cases hs : utf16_unit_value hostLE e (src.getD 0 0) (src.getD 1 0) &&& 0xFC00 = 0xD800
    · by_cases h4 : srcSize < 4
      · obtain ⟨a, b, c⟩ := FromUtf16_second_unit_missing hostLE err cp0 src srcSize srb e
          (by omega) h4 hs
        rw [a, b, c]
        exact ⟨⟨fun _ => Or.inr ⟨hs, h4⟩, fun _ => rfl⟩, fun _ => ⟨rfl, rfl⟩,
          fun h => by cases h⟩
      · rw [FromUtf16_two_units hostLE err cp0 src srcSize srb e (by omega) hs]
        refine ⟨⟨fun h => (by cases h), fun h => ?_⟩, fun h => (by cases h),
          fun _ => ⟨4, Or.inr rfl, by omega, rfl⟩⟩
        rcases h with h | ⟨_, h⟩ <;> omega
    · rw [FromUtf16_one_unit hostLE err cp0 src srcSize srb e (by omega) hs]
      refine ⟨⟨fun h => (by cases h), fun h => ?_⟩, fun h => (by cases h),
        fun _ => ⟨2, Or.inl rfl, by omega, rfl⟩⟩
      rcases h with h | ⟨h, _⟩
      · omega
      · exact absurd h hs

theorem FromUtf16_not_enough_data_witness :
    (FromUtf16 true ⟨ErrorInfo.ctor, []⟩ 7 (some [0x00, 0xD8, 0x41]) 3 (some 9)
        .kLittleEndian).code = ErrorCode.kERRC_NOT_ENOUGH_DATA ∧
    (FromUtf16 true ⟨ErrorInfo.ctor, []⟩ 7 (some [0x00, 0xD8, 0x41]) 3 (some 9)
        .kLittleEndian).cp = 7 ∧
    (FromUtf16 true ⟨ErrorInfo.ctor, []⟩ 7 (some [0x00, 0xD8, 0x41]) 3 (some 9)
        .kLittleEndian).srcReadBytes = some 9 :=
  have h := FromUtf16_not_enough_data true ⟨ErrorInfo.ctor, []⟩ 7 [0x00, 0xD8, 0x41] 3
    (some 9) .kLittleEndian
  have hc := h.1.2 (Or.inr (by decide))
  ⟨hc, h.2.1 hc⟩

/-! ## Bounded scalar transfer: bookkeeping -/

theorem writeBuiltin_swapped_frame (pDst : Nat) :
    ∀ (n : Nat) (pSrc buf : List Nat),
      (writeBuiltin_swapped pDst n pSrc buf).length = buf.length ∧
      ∀ i, (i < pDst ∨ pDst + n ≤ i) → (writeBuiltin_swapped pDst n pSrc buf)[i]? = buf[i]? := by
  intro n
  induction n with
  | zero => intro pSrc buf; exact ⟨rfl, fun _ _ => rfl⟩
  | succ n ih =>
    intro pSrc buf
    obtain ⟨h1, h2⟩ := ih pSrc.tail (buf.set (pDst + n) (pSrc.headD 0))
    refine ⟨?_, fun i hi => ?_⟩
    · rw [writeBuiltin_swapped, h1, List.length_set]
    · rw [writeBuiltin_swapped, h2 i (by omega), List.getElem?_set_ne (by omega)]

theorem writeBuiltin_straight_frame :
    ∀ (n pDst : Nat) (pSrc buf : List Nat),
      (writeBuiltin_straight n pDst pSrc buf).2 = pDst + n ∧
      (writeBuiltin_straight n pDst pSrc buf).1.length = buf.length ∧
      ∀ i, (i < pDst ∨ pDst + n ≤ i) →
        (writeBuiltin_straight n pDst pSrc buf).1[i]? = buf[i]? := by
  intro n
  induction n with
  | zero => intro pDst pSrc buf; exact ⟨rfl, rfl, fun _ _ => rfl⟩
  | succ n ih =>
    intro pDst pSrc buf
    obtain ⟨h0, h1, h2⟩ := ih (pDst + 1) pSrc.tail (buf.set pDst (pSrc.headD 0))
    refine ⟨?_, ?_, fun i hi => ?_⟩
    · rw [writeBuiltin_straight, h0]; omega
    · rw [writeBuiltin_straight, h1, List.length_set]
    · rw [writeBuiltin_straight, h2 i (by omega), List.getElem?_set_ne (by omega)]

theorem readBuiltin_straight_cursor (buf : List Nat) :
    ∀ (n pSrc pDst : Nat) (dstMem : List Nat),
      (readBuiltin_straight buf n pSrc pDst dstMem).2 = pSrc + n := by
  intro n
  induction n with
  | zero => intro pSrc pDst dstMem; rfl
  | succ n ih =>
    intro pSrc pDst dstMem
    rw [readBuiltin_straight, ih]; omega

/-- C15. Buffer bookkeeping of `readBuiltin` and `writeBuiltin`, for every scalar width `n`
(in particular 2 and 4), every `EndianType` and either host: the call returns false exactly
when the remaining size is below `n`, and then leaves the cursor, the remaining size, the
buffer and (for read) the destination variable unchanged; otherwise it returns true,
advances the cursor by exactly `n` and reduces the remaining size by exactly `n`, and
`writeBuiltin` keeps the buffer's length and every byte outside the `n` positions at the
old cursor. -/
theorem builtin_bookkeeping (hostLE : Bool) (n : Nat) (buf : List Nat) (p size v d : Nat)
    (e : EndianType) :
    ((writeBuiltin hostLE n buf p size v e).ok = false ↔ size < n) ∧
    ((readBuiltin hostLE n buf p size d e).ok = false ↔ size < n) ∧
    (size < n →
      writeBuiltin hostLE n buf p size v e
        = { ok := false, buf := buf, pDst := p, dstSize := size } ∧
      readBuiltin hostLE n buf p size d e
        = { ok := false, pSrc := p, srcSize := size, dst := d }) ∧
    (n ≤ size →
      (writeBuiltin hostLE n buf p size v e).ok = true ∧
      (writeBuiltin hostLE n buf p size v e).pDst = p + n ∧
      (writeBuiltin hostLE n buf p size v e).dstSize = size - n ∧
      (writeBuiltin hostLE n buf p size v e).buf.length = buf.length ∧
      (∀ i, (i < p ∨ p + n ≤ i) → (writeBuiltin hostLE n buf p size v e).buf[i]? = buf[i]?) ∧
      (readBuiltin hostLE n buf p size d e).ok = true ∧
      (readBuiltin hostLE n buf p size d e).pSrc = p + n ∧
      (readBuiltin hostLE n buf p size d e).srcSize = size - n) := by
  by_cases h : size < n
  · have hw := writeBuiltin_short hostLE e n buf p size v h
    have hr := readBuiltin_short hostLE e n buf p size d h
    rw [hw, hr]
    exact ⟨⟨fun _ => h, fun _ => rfl⟩, ⟨fun _ => h, fun _ => rfl⟩, fun _ => ⟨rfl, rfl⟩,
      fun h' => absurd h (by omega)⟩
  · have hs := writeBuiltin_swapped_frame p n (toMem hostLE n v) buf
    have ht := writeBuiltin_straight_frame n p (toMem hostLE n v) buf
    have hc := readBuiltin_straight_cursor buf n p 0 (toMem hostLE n d)
    by_cases hp : platformEndian hostLE ≠ e
    · have hw : writeBuiltin hostLE n buf p size v e
          = { ok := true, buf := writeBuiltin_swapped p n (toMem hostLE n v) buf,
              pDst := p + n, dstSize := size - n } := by
        simp only [writeBuiltin, if_neg h, if_pos hp]
      have hr : readBuiltin hostLE n buf p size d e
          = { ok := true, pSrc := p + n, srcSize := size - n,
              dst := fromMem hostLE (readBuiltin_swapped buf p n 0 (toMem hostLE n d)) } := by
        simp only [readBuiltin, if_neg h, if_pos hp]
      rw [hw, hr]
      exact ⟨⟨fun h' => (by cases h'), fun h' => absurd h' h⟩,
        ⟨fun h' => (by cases h'), fun h' => absurd h' h⟩, fun h' => absurd h' h,
        fun _ => ⟨rfl, rfl, rfl, hs.1, hs.2, rfl, rfl, rfl⟩⟩
    · have hw : writeBuiltin hostLE n buf p size v e
          = { ok := true, buf := (writeBuiltin_straight n p (toMem hostLE n v) buf).1,
              pDst := (writeBuiltin_straight n p (toMem hostLE n v) buf).2,
              dstSize := size - n } := by
        simp only [writeBuiltin, if_neg h, if_neg hp]
      have hr : readBuiltin hostLE n buf p size d e
          = { ok := true, pSrc := (readBuiltin_straight buf n p 0 (toMem hostLE n d)).2,
              srcSize := size - n,
              dst := fromMem hostLE (readBuiltin_straight buf n p 0 (toMem hostLE n d)).1 } := by
        simp only [readBuiltin, if_neg h, if_neg hp]
      rw [hw, hr]
      exact ⟨⟨fun h' => (by cases h'), fun h' => absurd h' h⟩,
        ⟨fun h' => (by cases h'), fun h' => absurd h' h⟩, fun h' => absurd h' h,
        fun _ => ⟨rfl, ht.1, rfl, ht.2.1, ht.2.2, rfl, hc, rfl⟩⟩

theorem builtin_bookkeeping_witness :
    4 ≤ 5 ∧
    (writeBuiltin true 4 [1, 2, 3, 4, 5, 6] 1 5 0x11223344 .kBigEndian).ok = true ∧
    (writeBuiltin true 4 [1, 2, 3, 4, 5, 6] 1 5 0x11223344 .kBigEndian).pDst = 1 + 4 ∧
    (writeBuiltin true 4 [1, 2, 3, 4, 5, 6] 1 5 0x11223344 .kBigEndian).dstSize = 5 - 4 ∧
    (writeBuiltin true 4 [1, 2, 3, 4, 5, 6] 1 5 0x11223344 .kBigEndian).buf[0]?
      = [1, 2, 3, 4, 5, 6][0]? ∧
    (readBuiltin true 4 [1, 2, 3, 4, 5, 6] 1 5 0 .kBigEndian).pSrc = 1 + 4 :=
  have h := (builtin_bookkeeping true 4 [1, 2, 3, 4, 5, 6] 1 5 0x11223344 0 .kBigEndian).2.2.2
    (by decide)
  ⟨by decide, h.1, h.2.1, h.2.2.1, h.2.2.2.2.1 0 (Or.inl (by decide)), h.2.2.2.2.2.2.1⟩

/-! ## Bounded scalar transfer: values and byte addressing -/

theorem readBuiltin_four (hostLE : Bool) (e : EndianType) (buf : List Nat)
    (pSrc srcSize d : Nat) (h : 4 ≤ srcSize) :
    readBuiltin hostLE 4 buf pSrc srcSize d e =
      { ok := true, pSrc := pSrc + 4, srcSize := srcSize - 4,
        dst :=
          if e = .kLittleEndian ∨ (e = .kIgnoreEndian ∧ hostLE = false) then
            buf.getD pSrc 0 + 256 * (buf.getD (pSrc + 1) 0
              + 256 * (buf.getD (pSrc + 2) 0 + 256 * buf.getD (pSrc + 3) 0))
          else
            buf.getD (pSrc + 3) 0 + 256 * (buf.getD (pSrc + 2) 0
              + 256 * (buf.getD (pSrc + 1) 0 + 256 * buf.getD pSrc 0)) } := by
  have h2 : ¬ srcSize < 4 := by omega
  cases hostLE <;> cases e <;>
    simp [readBuiltin, h2, platformEndian_true, platformEndian_false, toMem_four,
      readBuiltin_swapped, readBuiltin_straight, fromMem, fromMemLE]

theorem write_read_two (hostLE : Bool) (e : EndianType) (buf : List Nat)
    (p size size2 v d : Nat) (hv : v < 65536) (hsz : 2 ≤ size) (hsz2 : 2 ≤ size2)
    (hlen : p + 2 ≤ buf.length) :
    (readBuiltin hostLE 2 (writeBuiltin hostLE 2 buf p size v e).buf p size2 d e).dst = v := by
  have h2 : ¬ size < 2 := by omega
  have h3 : ¬ size2 < 2 := by omega
  have hp0 : p < buf.length := by omega
  have hp1 : p + 1 < buf.length := by omega
  cases hostLE <;> cases e <;>
    simp [readBuiltin, writeBuiltin, h2, h3, platformEndian_true, platformEndian_false,
      toMem_two, readBuiltin_swapped, readBuiltin_straight, writeBuiltin_swapped,
      writeBuiltin_straight, fromMem, fromMemLE, List.getElem?_set, hp0, hp1] <;> omega


theorem write_read_four (hostLE : Bool) (e : EndianType) (buf : List Nat)
    (p size size2 v d : Nat) (hv : v < 4294967296) (hsz : 4 ≤ size) (hsz2 : 4 ≤ size2)
    (hlen : p + 4 ≤ buf.length) :
    (readBuiltin hostLE 4 (writeBuiltin hostLE 4 buf p size v e).buf p size2 d e).dst = v := by
  have h2 : ¬ size < 4 := by omega
  have h3 : ¬ size2 < 4 := by omega
  have hp0 : p < buf.length := by omega
  have hp1 : p + 1 < buf.length := by omega
  have hp2 : p + 2 < buf.length := by omega
  have hp3 : p + 3 < buf.length := by omega
  cases hostLE <;> cases e <;>
    simp [readBuiltin, writeBuiltin, h2, h3, platformEndian_true, platformEndian_false,
      toMem_four, readBuiltin_swapped, readBuiltin_straight, writeBuiltin_swapped,
      writeBuiltin_straight, fromMem, fromMemLE, List.getElem?_set, List.getElem_set,
      hp0, hp1, hp2, hp3, Nat.add_assoc] <;>
    omega

/-- C16. Regardless of the host's byte order, for every buffer and cursor with at least
`n` bytes remaining (`n` = 2 or 4), `readBuiltin` with `kLittleEndian` yields the sum of
`b[i] * 256^i` and with `kBigEndian` the sum of `b[i] * 256^(n-1-i)` over the `n` bytes
`b[0..n-1]` at the cursor; in particular (header example) the bytes `9c 8a 00 4f` read as
little-endian `U32` give 1325435548 and the bytes `3b 17 a9 04` read as big-endian `U32`
give 991406340. -/
theorem readBuiltin_value (hostLE : Bool) (n : Nat) (buf : List Nat) (p size d : Nat)
    (hn : n = 2 ∨ n = 4) (hsz : n ≤ size) :
    (readBuiltin hostLE n buf p size d .kLittleEndian).ok = true ∧
    (readBuiltin hostLE n buf p size d .kLittleEndian).dst
      = little_endian_sum (fun i => buf.getD (p + i) 0) n ∧
    (readBuiltin hostLE n buf p size d .kBigEndian).ok = true ∧
    (readBuiltin hostLE n buf p size d .kBigEndian).dst
      = big_endian_sum (fun i => buf.getD (p + i) 0) n ∧
    (readBuiltin hostLE 4 [0x9c, 0x8a, 0x00, 0x4f, 0x3b, 0x17, 0xa9, 0x04] 0 8 d
      .kLittleEndian).dst = 1325435548 ∧
    (readBuiltin hostLE 4 [0x9c, 0x8a, 0x00, 0x4f, 0x3b, 0x17, 0xa9, 0x04] 4 4 d
      .kBigEndian).dst = 991406340 := by
  refine ⟨?_, ?_, ?_, ?_, ?_, ?_⟩
  · rcases hn with rfl | rfl
    · rw [readBuiltin_two _ _ _ _ _ _ hsz]
    · rw [readBuiltin_four _ _ _ _ _ _ hsz]
  · rcases hn with rfl | rfl
    · rw [readBuiltin_two _ _ _ _ _ _ hsz]
      simp [little_endian_sum, Finset.sum_range_succ, utf16_unit_value]
      omega
    · rw [readBuiltin_four _ _ _ _ _ _ hsz]
      simp [little_endian_sum, Finset.sum_range_succ]
      omega
  · rcases hn with rfl | rfl
    · rw [readBuiltin_two _ _ _ _ _ _ hsz]
    · rw [readBuiltin_four _ _ _ _ _ _ hsz]
  · rcases hn with rfl | rfl
    · rw [readBuiltin_two _ _ _ _ _ _ hsz]
      simp [big_endian_sum, Finset.sum_range_succ, utf16_unit_value]
      omega
    · rw [readBuiltin_four _ _ _ _ _ _ hsz]
      simp [big_endian_sum, Finset.sum_range_succ]
      omega
  · rw [readBuiltin_four _ _ _ _ _ _ (by norm_num)]
    simp
  · rw [readBuiltin_four _ _ _ _ _ _ (by norm_num)]
    simp

theorem readBuiltin_value_witness :
    ((4 = 2 ∨ 4 = 4) ∧ 4 ≤ 8) ∧
    (readBuiltin false 4 [0x9c, 0x8a, 0x00, 0x4f, 0x3b, 0x17, 0xa9, 0x04] 0 8 0
      .kLittleEndian).dst
      = little_endian_sum
          (fun i => [0x9c, 0x8a, 0x00, 0x4f, 0x3b, 0x17, 0xa9, 0x04].getD (0 + i) 0) 4 ∧
    (readBuiltin false 4 [0x9c, 0x8a, 0x00, 0x4f, 0x3b, 0x17, 0xa9, 0x04] 0 8 0
      .kLittleEndian).dst = 1325435548 :=
  have h := readBuiltin_value false 4 [0x9c, 0x8a, 0x00, 0x4f, 0x3b, 0x17, 0xa9, 0x04] 0 8 0
    (by decide) (by decide)
  ⟨by decide, h.2.1, h.2.2.2.2.1⟩

/-- C17. For every scalar value `v` of width `n` = 2 or 4, every `EndianType` (also
`kIgnoreEndian`) and either host: `writeBuiltin` of `v` into a buffer with at least `n` bytes
of capacity at the cursor returns true, and `readBuiltin` with the same byte order from the
same cursor of the resulting buffer returns true and yields exactly `v`. -/
theorem writeBuiltin_readBuiltin_roundtrip (hostLE : Bool) (n : Nat) (buf : List Nat)
    (p size size2 v d : Nat) (e : EndianType) (hn : n = 2 ∨ n = 4) (hv : v < 256 ^ n)
    (hsz : n ≤ size) (hlen : p + size ≤ buf.length) (hsz2 : n ≤ size2) :
    (writeBuiltin hostLE n buf p size v e).ok = true ∧
    (readBuiltin hostLE n (writeBuiltin hostLE n buf p size v e).buf p size2 d e).ok = true ∧
    (readBuiltin hostLE n (writeBuiltin hostLE n buf p size v e).buf p size2 d e).dst = v := by
  have hw : (writeBuiltin hostLE n buf p size v e).ok = true := by
    simp only [writeBuiltin, if_neg (Nat.not_lt.mpr hsz)]
    split_ifs <;> rfl
  refine ⟨hw, ?_, ?_⟩
  · rcases hn with rfl | rfl
    · rw [readBuiltin_two _ _ _ _ _ _ hsz2]
    · rw [readBuiltin_four _ _ _ _ _ _ hsz2]
  · rcases hn with rfl | rfl
    · exact write_read_two hostLE e buf p size size2 v d (by norm_num at hv; exact hv) hsz hsz2
        (by omega)
    · exact write_read_four hostLE e buf p size size2 v d (by norm_num at hv; exact hv) hsz
        hsz2 (by omega)


theorem writeBuiltin_readBuiltin_roundtrip_witness :
    ((4 = 2 ∨ 4 = 4) ∧ 0x11223344 < 256 ^ 4 ∧ 4 ≤ 5 ∧ 1 + 5 ≤ [1, 2, 3, 4, 5, 6].length
      ∧ 4 ≤ 5) ∧
    ((writeBuiltin true 4 [1, 2, 3, 4, 5, 6] 1 5 0x11223344 .kIgnoreEndian).ok = true ∧
    (readBuiltin true 4
      (writeBuiltin true 4 [1, 2, 3, 4, 5, 6] 1 5 0x11223344 .kIgnoreEndian).buf 1 5 0
      .kIgnoreEndian).ok = true ∧
    (readBuiltin true 4
      (writeBuiltin true 4 [1, 2, 3, 4, 5, 6] 1 5 0x11223344 .kIgnoreEndian).buf 1 5 0
      .kIgnoreEndian).dst = 0x11223344) :=
  ⟨by decide, writeBuiltin_readBuiltin_roundtrip true 4 [1, 2, 3, 4, 5, 6] 1 5 5 0x11223344 0
    .kIgnoreEndian (by decide) (by decide) (by decide) (by decide) (by decide)⟩

/-- C18, the code at the failing inputs: with `kIgnoreEndian` the bytes are reversed on both
hosts.  On a little-endian host `writeBuiltin` of the `U16` value `0x1234` leaves `12 34`
where the host's own order `kLittleEndian` leaves `34 12`, and `readBuiltin` of `34 12`
yields `0x3412` instead of `0x1234`; on a big-endian host `kIgnoreEndian` leaves `34 12`
where `kBigEndian` leaves `12 34`, and reading `12 34` yields `0x3412`. -/
theorem kIgnoreEndian_reverses_bytes :
    (writeBuiltin true 2 [0, 0] 0 2 0x1234 .kIgnoreEndian).buf = [0x12, 0x34] ∧
    (writeBuiltin true 2 [0, 0] 0 2 0x1234 .kLittleEndian).buf = [0x34, 0x12] ∧
    (readBuiltin true 2 [0x34, 0x12] 0 2 0 .kIgnoreEndian).dst = 0x3412 ∧
    (readBuiltin true 2 [0x34, 0x12] 0 2 0 .kLittleEndian).dst = 0x1234 ∧
    (writeBuiltin false 2 [0, 0] 0 2 0x1234 .kIgnoreEndian).buf = [0x34, 0x12] ∧
    (writeBuiltin false 2 [0, 0] 0 2 0x1234 .kBigEndian).buf = [0x12, 0x34] ∧
    (readBuiltin false 2 [0x12, 0x34] 0 2 0 .kIgnoreEndian).dst = 0x3412 ∧
    (readBuiltin false 2 [0x12, 0x34] 0 2 0 .kBigEndian).dst = 0x1234 := by
  decide

theorem and_255 (x : Nat) : x &&& 255 = x % 256 := Nat.and_pow_two_sub_one_eq_mod x 8

theorem shiftRight_8 (x : Nat) : x >>> 8 = x / 256 := Nat.shiftRight_eq_div_pow x 8

theorem shiftRight_16 (x : Nat) : x >>> 16 = x / 65536 := Nat.shiftRight_eq_div_pow x 16

theorem shiftRight_24 (x : Nat) : x >>> 24 = x / 16777216 := Nat.shiftRight_eq_div_pow x 24

/-- C19. Host-independent byte addressing: for every scalar `v` of width `n` in `{2, 4}`,
every index `i < n` and every byte `b`, on both hosts, `getByte(v, i)` equals
`(v >> 8i) & 0xFF`, and `setByte(v, i, b)` yields a scalar of the same width whose byte `i`
(in that numbering) is `b` and whose other bytes equal those of `v`. -/
theorem getByte_setByte_addressing (hostLE : Bool) (n v i b : Nat) (hn : n = 2 ∨ n = 4)
    (hi : i < n) (hv : v < 256 ^ n) (hb : b < 256) :
    getByte hostLE n v i = (v >>> (8 * i)) &&& 0xFF ∧
    setByte hostLE n v i b < 256 ^ n ∧
    ∀ j, j < n →
      (setByte hostLE n v i b >>> (8 * j)) &&& 0xFF
        = if j = i then b else (v >>> (8 * j)) &&& 0xFF := by
  rcases hn with rfl | rfl
  · have hv2 : v < 65536 := by norm_num at hv; exact hv
    refine ⟨?_, ?_, ?_⟩
    · interval_cases i <;> cases hostLE <;>
        simp [getByte, platformEndian_true, platformEndian_false, toMem_two, and_255,
          shiftRight_8]
    · interval_cases i <;> cases hostLE <;>
        simp [setByte, platformEndian_true, platformEndian_false, toMem_two, fromMem,
          fromMemLE] <;> omega
    · intro j hj
      interval_cases i <;> interval_cases j <;> cases hostLE <;>
        simp [setByte, platformEndian_true, platformEndian_false, toMem_two, fromMem,
          fromMemLE, and_255, shiftRight_8] <;> omega
  · have hv2 : v < 4294967296 := by norm_num at hv; exact hv
    refine ⟨?_, ?_, ?_⟩
    · interval_cases i <;> cases hostLE <;>
        simp [getByte, platformEndian_true, platformEndian_false, toMem_four, and_255,
          shiftRight_8, shiftRight_16, shiftRight_24]
    · interval_cases i <;> cases hostLE <;>
        simp [setByte, platformEndian_true, platformEndian_false, toMem_four, fromMem,
          fromMemLE] <;> omega
    · intro j hj
      interval_cases i <;> interval_cases j <;> cases hostLE <;>
        simp [setByte, platformEndian_true, platformEndian_false, toMem_four, fromMem,
          fromMemLE, and_255, shiftRight_8, shiftRight_16, shiftRight_24] <;> omega

theorem getByte_setByte_addressing_witness :
    ((4 = 2 ∨ 4 = 4) ∧ 2 < 4 ∧ 0x11223344 < 256 ^ 4 ∧ 0xAB < 256) ∧
    (getByte false 4 0x11223344 2 = (0x11223344 >>> (8 * 2)) &&& 0xFF ∧
    setByte false 4 0x11223344 2 0xAB < 256 ^ 4 ∧
    ∀ j, j < 4 →
      (setByte false 4 0x11223344 2 0xAB >>> (8 * j)) &&& 0xFF
        = if j = 2 then 0xAB else (0x11223344 >>> (8 * j)) &&& 0xFF) :=
  ⟨by decide, getByte_setByte_addressing false 4 0x11223344 2 0xAB (by decide) (by decide)
    (by decide) (by decide)⟩

/-! ## Number lexer: acceptance -/

theorem find_from_eq_none (t : List Char) (ch : Char) :
    ∀ i, find_from t ch i = none ↔ ch ∉ t := by
  induction t with
  | nil => intro i; simp [find_from]
  | cons c t ih =>
    intro i
    by_cases h : c = ch
    · simp [find_from, h]
    · simp [find_from, h, ih (i + 1), Ne.symm h]

theorem find_from_ge (t : List Char) (ch : Char) :
    ∀ i j, find_from t ch i = some j → i ≤ j := by
  induction t with
  | nil => intro i j h; simp [find_from] at h
  | cons c t ih =>
    intro i j h
    by_cases hc : c = ch
    · simp [find_from, hc] at h; omega
    · simp [find_from, hc] at h
      have := ih (i + 1) j h
      omega

theorem rfind_from_eq_none (t : List Char) (ch : Char) :
    ∀ i, rfind_from t ch i = none ↔ ch ∉ t := by
  induction t with
  | nil => intro i; simp [rfind_from]
  | cons c t ih =>
    intro i
    have h1 := ih (i + 1)
    cases hr : rfind_from t ch (i + 1) with
    | none =>
      rw [hr] at h1
      have hnot : ch ∉ t := h1.mp rfl
      by_cases hc : c = ch
      · simp [rfind_from, hr, hc]
      · simp [rfind_from, hr, hc, hnot, Ne.symm hc]
    | some j =>
      rw [hr] at h1
      have hin : ch ∈ t := by
        by_contra hcon
        have := h1.mpr hcon
        cases this
      simp [rfind_from, hr, hin]

theorem rfind_from_ge (t : List Char) (ch : Char) :
    ∀ i j, rfind_from t ch i = some j → i ≤ j := by
  induction t with
  | nil => intro i j h; simp [rfind_from] at h
  | cons c t ih =>
    intro i j h
    cases hr : rfind_from t ch (i + 1) with
    | none =>
      by_cases hc : c = ch
      · simp [rfind_from, hr, hc] at h; omega
      · simp [rfind_from, hr, hc] at h
    | some k =>
      simp [rfind_from, hr] at h
      have := ih (i + 1) k hr
      omega

theorem find_from_eq_rfind_from (t : List Char) (ch : Char) :
    ∀ i, find_from t ch i = rfind_from t ch i ↔ t.count ch ≤ 1 := by
  induction t with
  | nil => intro i; simp [find_from, rfind_from]
  | cons c t ih =>
    intro i
    by_cases hc : c = ch
    · subst hc
      cases hr : rfind_from t c (i + 1) with
      | none =>
        have hnot : c ∉ t := (rfind_from_eq_none t c (i + 1)).mp hr
        simp [find_from, rfind_from, hr, List.count_eq_zero.mpr hnot]
      | some j =>
        have hge := rfind_from_ge t c (i + 1) j hr
        have hin : c ∈ t := by
          by_contra hcon
          have := (rfind_from_eq_none t c (i + 1)).mpr hcon
          rw [hr] at this; cases this
        have hpos : 0 < t.count c := List.count_pos_iff.mpr hin
        simp [find_from, rfind_from, hr]
        omega
    · have hne : ¬ (c == ch) = true := by simpa using hc
      cases hr : rfind_from t ch (i + 1) with
      | none =>
        have := ih (i + 1)
        rw [hr] at this
        simp [find_from, rfind_from, hr, hc, List.count_cons, hne, this]
      | some j =>
        have := ih (i + 1)
        rw [hr] at this
        simp [find_from, rfind_from, hr, hc, List.count_cons, hne, this]

theorem MoreThanOne_eq (s : List Char) (ch : Char) :
    MoreThanOne s ch = decide (2 ≤ s.count ch) := by
  have hiff := find_from_eq_rfind_from s ch 0
  unfold MoreThanOne string_find string_rfind
  simp only [List.drop_zero]
  cases hf : find_from s ch 0 with
  | none =>
    have hnot : ch ∉ s := (find_from_eq_none s ch 0).mp hf
    simp [List.count_eq_zero.mpr hnot]
  | some i =>
    cases hr : rfind_from s ch 0 with
    | none =>
      have hnot : ch ∉ s := (rfind_from_eq_none s ch 0).mp hr
      have := (find_from_eq_none s ch 0).mpr hnot
      rw [hf] at this; cases this
    | some li =>
      rw [hf, hr] at hiff
      by_cases hil : i = li
      · subst hil
        have := hiff.mp rfl
        simp
        omega
      · have : ¬ s.count ch ≤ 1 := fun h => hil (by simpa using hiff.mpr h)
        simp [hil]
        omega

theorem find_first_not_of_from_eq_none (t set : List Char) :
    ∀ i, find_first_not_of_from t set i = none ↔ ∀ c ∈ t, c ∈ set := by
  induction t with
  | nil => intro i; simp [find_first_not_of_from]
  | cons c t ih =>
    intro i
    by_cases h : c ∈ set
    · simp [find_first_not_of_from, h, ih (i + 1)]
    · simp [find_first_not_of_from, h]

theorem find_first_of_from_eq_none (t set : List Char) :
    ∀ i, find_first_of_from t set i = none ↔ ∀ c ∈ t, c ∉ set := by
  induction t with
  | nil => intro i; simp [find_first_of_from]
  | cons c t ih =>
    intro i
    by_cases h : c ∈ set
    · simp [find_first_of_from, h]
    · simp [find_first_of_from, h, ih (i + 1)]

theorem ParseNumber_value_ok (s : List Char) (sign : Int) (unsigned_start len : Nat)
    (d_result : Option ℚ) : (ParseNumber_value s sign unsigned_start len d_result).ok = true := by
  cases d_result <;> rfl


theorem string_find_ne_none (s : List Char) (ch : Char) :
    string_find s ch 0 ≠ none ↔ ch ∈ s := by
  unfold string_find
  rw [List.drop_zero, Ne, find_from_eq_none]
  exact not_not

theorem ParseNumber_ok_iff (s : List Char) (i_result : Int) (d_result : Option ℚ) :
    (ParseNumber s i_result d_result).ok = true ↔
      (s ≠ [] ∧ (∀ c ∈ s, c ∈ "0123456789.-+f".toList) ∧
        (∃ c ∈ s, c ∈ "0123456789".toList) ∧
        (s.count '.' ≤ 1 ∧ s.count '+' ≤ 1 ∧ s.count '-' ≤ 1 ∧ s.count 'f' ≤ 1) ∧
        ('-' ∈ s → s.head? = some '-') ∧ ('+' ∈ s → s.head? = some '+') ∧
        ('f' ∈ s → s.getLast? = some 'f')) := by
  have hA : string_find_first_not_of s "0123456789.-+f".toList 0 ≠ none ↔
      ¬ ∀ c ∈ s, c ∈ "0123456789.-+f".toList := by
    unfold string_find_first_not_of
    rw [List.drop_zero, Ne, find_first_not_of_from_eq_none]
  have hD : string_find_first_of s "0123456789".toList 0 = none ↔
      ¬ ∃ c ∈ s, c ∈ "0123456789".toList := by
    unfold string_find_first_of
    rw [List.drop_zero, find_first_of_from_eq_none]
    push_neg
    rfl
  have hM : (".+-f".toList.any (fun ch => MoreThanOne s ch)) = true ↔
      ¬ (s.count '.' ≤ 1 ∧ s.count '+' ≤ 1 ∧ s.count '-' ≤ 1 ∧ s.count 'f' ≤ 1) := by
    have e : ".+-f".toList = ['.', '+', '-', 'f'] := rfl
    rw [e]
    simp only [List.any_cons, List.any_nil, MoreThanOne_eq, Bool.or_false, Bool.or_eq_true,
      decide_eq_true_eq]
    omega
  have hl : s.length = 0 ↔ s = [] := List.length_eq_zero
  unfold ParseNumber
  simp only [hl, hA, hD, hM, string_find_ne_none]
  by_cases h1 : s = []
  · rw [if_pos h1]
    exact ⟨fun h => (by cases h), fun h => absurd h1 h.1⟩
  rw [if_neg h1]
  by_cases h2 : ∀ c ∈ s, c ∈ "0123456789.-+f".toList
  swap
  · rw [if_pos h2]
    exact ⟨fun h => (by cases h), fun h => absurd h.2.1 h2⟩
  rw [if_neg (not_not.mpr h2)]
  by_cases h3 : ∃ c ∈ s, c ∈ "0123456789".toList
  swap
  · rw [if_pos h3]
    exact ⟨fun h => (by cases h), fun h => absurd h.2.2.1 h3⟩
  rw [if_neg (not_not.mpr h3)]
  by_cases h4 : s.count '.' ≤ 1 ∧ s.count '+' ≤ 1 ∧ s.count '-' ≤ 1 ∧ s.count 'f' ≤ 1
  swap
  · rw [if_pos h4]
    exact ⟨fun h => (by cases h), fun h => absurd h.2.2.2.1 h4⟩
  rw [if_neg (not_not.mpr h4)]
  by_cases h5 : '-' ∈ s ∧ s.head? ≠ some '-'
  · rw [if_pos h5]
    exact ⟨fun h => (by cases h), fun h => absurd (h.2.2.2.2.1 h5.1) h5.2⟩
  rw [if_neg h5]
  by_cases h6 : '+' ∈ s ∧ s.head? ≠ some '+'
  · rw [if_pos h6]
    exact ⟨fun h => (by cases h), fun h => absurd (h.2.2.2.2.2.1 h6.1) h6.2⟩
  rw [if_neg h6]
  by_cases h7 : 'f' ∈ s ∧ s.getLast? ≠ some 'f'
  · rw [if_pos h7]
    exact ⟨fun h => (by cases h), fun h => absurd (h.2.2.2.2.2.2 h7.1) h7.2⟩
  rw [if_neg h7, ParseNumber_value_ok]
  refine ⟨fun _ => ⟨h1, h2, h3, h4, ?_, ?_, ?_⟩, fun _ => rfl⟩
  · intro hm; by_contra hc; exact h5 ⟨hm, hc⟩
  · intro hm; by_contra hc; exact h6 ⟨hm, hc⟩
  · intro hm; by_contra hc; exact h7 ⟨hm, hc⟩

theorem strip_sign_count (s : List Char) (ch : Char) (h1 : ch ≠ '+') (h2 : ch ≠ '-') :
    (strip_sign s).count ch = s.count ch := by
  unfold strip_sign
  split
  · simp [List.count_cons, Ne.symm h1]
  · simp [List.count_cons, Ne.symm h2]
  · rfl

theorem strip_sign_mem (s : List Char) (ch : Char) (h1 : ch ≠ '+') (h2 : ch ≠ '-') :
    ch ∈ strip_sign s ↔ ch ∈ s := by
  rw [← List.count_pos_iff, ← List.count_pos_iff, strip_sign_count s ch h1 h2]

theorem strip_sign_getLast (s : List Char) :
    s.getLast? = some 'f' ↔ (strip_sign s).getLast? = some 'f' := by
  unfold strip_sign
  split
  · rename_i t
    cases t with
    | nil => simp
    | cons a u => simp [List.getLast?_cons_cons]
  · rename_i t
    cases t with
    | nil => simp
    | cons a u => simp [List.getLast?_cons_cons]
  · rfl

theorem strip_sign_forall (s : List Char) (P : Char → Prop) (h1 : P '+') (h2 : P '-') :
    (∀ c ∈ s, P c) ↔ (∀ c ∈ strip_sign s, P c) := by
  unfold strip_sign
  split
  · simp [h1]
  · simp [h2]
  · rfl

theorem strip_sign_exists (s : List Char) (P : Char → Prop) (h1 : ¬ P '+') (h2 : ¬ P '-') :
    (∃ c ∈ s, P c) ↔ (∃ c ∈ strip_sign s, P c) := by
  unfold strip_sign
  split
  · simp [h1]
  · simp [h2]
  · rfl

theorem sign_conditions (s : List Char) :
    (s.count '+' ≤ 1 ∧ s.count '-' ≤ 1 ∧ ('-' ∈ s → s.head? = some '-') ∧
        ('+' ∈ s → s.head? = some '+')) ↔
      ('+' ∉ strip_sign s ∧ '-' ∉ strip_sign s) := by
  cases s with
  | nil => simp [strip_sign]
  | cons c t =>
    by_cases hp : c = '+'
    · subst hp
      have e : strip_sign ('+' :: t) = t := rfl
      rw [e]
      simp only [List.count_cons_self, List.head?_cons, List.mem_cons, Option.some.injEq]
      constructor
      · rintro ⟨a, b, c, _⟩
        refine ⟨List.count_eq_zero.mp (by omega), fun hm => ?_⟩
        have := c (Or.inr hm)
        exact absurd this (by decide)
      · rintro ⟨a, b⟩
        have ha := List.count_eq_zero.mpr a
        have hb := List.count_eq_zero.mpr b
        refine ⟨by omega, ?_, ?_, fun _ => trivial⟩
        · rw [List.count_cons_of_ne (by decide)]; omega
        · rintro (h | h)
          · exact absurd h (by decide)
          · exact absurd h b
    · by_cases hm : c = '-'
      · subst hm
        have e : strip_sign ('-' :: t) = t := rfl
        rw [e]
        simp only [List.count_cons_self, List.head?_cons, List.mem_cons, Option.some.injEq]
        constructor
        · rintro ⟨a, b, _, d⟩
          refine ⟨fun hm => ?_, List.count_eq_zero.mp (by omega)⟩
          have := d (Or.inr hm)
          exact absurd this (by decide)
        · rintro ⟨a, b⟩
          have ha := List.count_eq_zero.mpr a
          have hb := List.count_eq_zero.mpr b
          refine ⟨?_, by omega, fun _ => trivial, ?_⟩
          · rw [List.count_cons_of_ne (by decide)]; omega
          · rintro (h | h)
            · exact absurd h (by decide)
            · exact absurd h a
      · have e : strip_sign (c :: t) = c :: t := by
          unfold strip_sign
          split
          · rename_i h; cases h; exact absurd rfl hp
          · rename_i h; cases h; exact absurd rfl hm
          · rfl
        rw [e]
        simp only [List.head?_cons, Option.some.injEq]
        constructor
        · rintro ⟨_, _, c1, d1⟩
          exact ⟨fun h => hp (d1 h), fun h => hm (c1 h)⟩
        · rintro ⟨a, b⟩
          have ha := List.count_eq_zero.mpr a
          have hb := List.count_eq_zero.mpr b
          exact ⟨by omega, by omega, fun h => absurd h b, fun h => absurd h a⟩


theorem strip_f_cases (x : List Char) :
    (x.getLast? ≠ some 'f' ∧ strip_f x = x) ∨ (x = strip_f x ++ ['f']) := by
  unfold strip_f
  by_cases h : x.getLast? = some 'f'
  · right
    obtain ⟨L, rfl⟩ := List.getLast?_eq_some_iff.mp h
    simp
  · left
    exact ⟨h, if_neg h⟩

theorem strip_f_count (x : List Char) (ch : Char) (h : ch ≠ 'f') :
    (strip_f x).count ch = x.count ch := by
  rcases strip_f_cases x with ⟨_, e⟩ | e
  · rw [e]
  · conv_rhs => rw [e]
    simp [List.count_append, List.count_cons, Ne.symm h]

theorem strip_f_mem (x : List Char) (ch : Char) (h : ch ≠ 'f') :
    ch ∈ strip_f x ↔ ch ∈ x := by
  rw [← List.count_pos_iff, ← List.count_pos_iff, strip_f_count x ch h]

theorem strip_f_forall (x : List Char) (P : Char → Prop) (h : P 'f') :
    (∀ c ∈ x, P c) ↔ (∀ c ∈ strip_f x, P c) := by
  rcases strip_f_cases x with ⟨_, e⟩ | e
  · rw [e]
  · conv_lhs => rw [e]
    simp only [List.mem_append, List.mem_singleton]
    constructor
    · intro H c hc; exact H c (Or.inl hc)
    · intro H c hc
      rcases hc with hc | rfl
      · exact H c hc
      · exact h

theorem strip_f_exists (x : List Char) (P : Char → Prop) (h : ¬ P 'f') :
    (∃ c ∈ x, P c) ↔ (∃ c ∈ strip_f x, P c) := by
  rcases strip_f_cases x with ⟨_, e⟩ | e
  · rw [e]
  · conv_lhs => rw [e]
    simp only [List.mem_append, List.mem_singleton]
    constructor
    · rintro ⟨c, hc | rfl, hp⟩
      · exact ⟨c, hc, hp⟩
      · exact absurd hp h
    · rintro ⟨c, hc, hp⟩
      exact ⟨c, Or.inl hc, hp⟩

theorem f_conditions (x : List Char) :
    (x.count 'f' ≤ 1 ∧ ('f' ∈ x → x.getLast? = some 'f')) ↔ 'f' ∉ strip_f x := by
  rcases strip_f_cases x with ⟨h, e⟩ | e
  · rw [e]
    constructor
    · rintro ⟨_, b⟩ hm
      exact h (b hm)
    · intro hn
      have := List.count_eq_zero.mpr hn
      exact ⟨by omega, fun hm => absurd hm hn⟩
  · constructor
    · rintro ⟨a, _⟩
      rw [e, List.count_append] at a
      simp only [List.count_cons_self, List.count_nil] at a
      exact List.count_eq_zero.mp (by omega)
    · intro hn
      have hc := List.count_eq_zero.mpr hn
      rw [e]
      refine ⟨?_, fun _ => List.getLast?_concat _⟩
      rw [List.count_append]
      simp only [List.count_cons_self, List.count_nil]
      omega


theorem mem_allowed_chars (c : Char) :
    c ∈ "0123456789.-+f".toList ↔
      (c ∈ "0123456789".toList ∨ c = '.' ∨ c = '-' ∨ c = '+' ∨ c = 'f') := by
  have e1 : "0123456789.-+f".toList
      = ['0', '1', '2', '3', '4', '5', '6', '7', '8', '9', '.', '-', '+', 'f'] := rfl
  have e2 : "0123456789".toList = ['0', '1', '2', '3', '4', '5', '6', '7', '8', '9'] := rfl
  rw [e1, e2]
  simp only [List.mem_cons, List.not_mem_nil, or_false]
  tauto

theorem not_digit_special :
    '+' ∉ "0123456789".toList ∧ '-' ∉ "0123456789".toList ∧ 'f' ∉ "0123456789".toList ∧
      '.' ∉ "0123456789".toList := by
  decide

theorem number_grammar_iff (s : List Char) :
    number_grammar s = true ↔
      ((∀ c ∈ strip_f (strip_sign s), c ∈ "0123456789".toList ∨ c = '.') ∧
        (strip_f (strip_sign s)).count '.' ≤ 1 ∧
        ∃ c ∈ strip_f (strip_sign s), c ∈ "0123456789".toList) := by
  simp only [number_grammar, isDecimalDigit, Bool.and_eq_true, List.all_eq_true,
    List.any_eq_true, Bool.or_eq_true, decide_eq_true_eq, beq_iff_eq, and_assoc]

theorem ParseNumber_checks_iff_grammar (s : List Char) :
    (s ≠ [] ∧ (∀ c ∈ s, c ∈ "0123456789.-+f".toList) ∧
        (∃ c ∈ s, c ∈ "0123456789".toList) ∧
        (s.count '.' ≤ 1 ∧ s.count '+' ≤ 1 ∧ s.count '-' ≤ 1 ∧ s.count 'f' ≤ 1) ∧
        ('-' ∈ s → s.head? = some '-') ∧ ('+' ∈ s → s.head? = some '+') ∧
        ('f' ∈ s → s.getLast? = some 'f')) ↔
      number_grammar s = true := by
  obtain ⟨np, nm, nf, nd⟩ := not_digit_special
  have hall : (∀ c ∈ s, c ∈ "0123456789.-+f".toList) ↔
      (∀ c ∈ strip_f (strip_sign s), c ∈ "0123456789.-+f".toList) := by
    rw [strip_sign_forall s (fun c => c ∈ "0123456789.-+f".toList) (by decide) (by decide),
      strip_f_forall _ (fun c => c ∈ "0123456789.-+f".toList) (by decide)]
  have hex : (∃ c ∈ s, c ∈ "0123456789".toList) ↔
      (∃ c ∈ strip_f (strip_sign s), c ∈ "0123456789".toList) := by
    rw [strip_sign_exists s (fun c => c ∈ "0123456789".toList) np nm,
      strip_f_exists _ (fun c => c ∈ "0123456789".toList) nf]
  have hdot : s.count '.' = (strip_f (strip_sign s)).count '.' := by
    rw [strip_f_count _ '.' (by decide), strip_sign_count s '.' (by decide) (by decide)]
  have hsign := sign_conditions s
  rw [← strip_f_mem (strip_sign s) '+' (by decide),
    ← strip_f_mem (strip_sign s) '-' (by decide)] at hsign
  have hf : (s.count 'f' ≤ 1 ∧ ('f' ∈ s → s.getLast? = some 'f')) ↔
      'f' ∉ strip_f (strip_sign s) := by
    rw [← f_conditions, strip_sign_count s 'f' (by decide) (by decide),
      strip_sign_mem s 'f' (by decide) (by decide), ← strip_sign_getLast]
  rw [number_grammar_iff]
  constructor
  · rintro ⟨_, ha, he, ⟨hd, hp, hm, hfc⟩, hmh, hph, hfl⟩
    have hs := hsign.mp ⟨hp, hm, hmh, hph⟩
    have hfn := hf.mp ⟨hfc, hfl⟩
    refine ⟨fun c hc => ?_, hdot ▸ hd, hex.mp he⟩
    rcases (mem_allowed_chars c).mp (hall.mp ha c hc) with h | h | h | h | h
    · exact Or.inl h
    · exact Or.inr h
    · exact absurd (h ▸ hc) hs.2
    · exact absurd (h ▸ hc) hs.1
    · exact absurd (h ▸ hc) hfn
  · rintro ⟨hb, hd, he⟩
    have hnp : '+' ∉ strip_f (strip_sign s) := fun hm => by
      rcases hb _ hm with h | h
      · exact np h
      · exact absurd h (by decide)
    have hnm : '-' ∉ strip_f (strip_sign s) := fun hm => by
      rcases hb _ hm with h | h
      · exact nm h
      · exact absurd h (by decide)
    have hnf : 'f' ∉ strip_f (strip_sign s) := fun hm => by
      rcases hb _ hm with h | h
      · exact nf h
      · exact absurd h (by decide)
    obtain ⟨h1, h2, h3, h4⟩ := hsign.mpr ⟨hnp, hnm⟩
    obtain ⟨h5, h6⟩ := hf.mpr hnf
    have hes := hex.mpr he
    refine ⟨?_, hall.mpr (fun c hc => ?_), hes, ⟨hdot ▸ hd, h1, h2, h5⟩, h3, h4, h6⟩
    · rintro rfl
      obtain ⟨c, hc, _⟩ := hes
      cases hc
    · rcases hb c hc with h | h
      · exact (mem_allowed_chars c).mpr (Or.inl h)
      · exact (mem_allowed_chars c).mpr (Or.inr (Or.inl h))

theorem strip_sign_cons_of_ne (c : Char) (t : List Char) (hp : c ≠ '+') (hm : c ≠ '-') :
    strip_sign (c :: t) = c :: t := by
  unfold strip_sign
  split
  · rename_i h; cases h; exact absurd rfl hp
  · rename_i h; cases h; exact absurd rfl hm
  · rfl

theorem strip_sign_cases (s : List Char) :
    s = strip_sign s ∨ s = '+' :: strip_sign s ∨ s = '-' :: strip_sign s := by
  unfold strip_sign
  split
  · exact Or.inr (Or.inl rfl)
  · exact Or.inr (Or.inr rfl)
  · exact Or.inl rfl

theorem number_grammar_iff_exists (s : List Char) :
    number_grammar s = true ↔
      ∃ sign body suffix, s = sign ++ body ++ suffix ∧
        (sign = [] ∨ sign = ['+'] ∨ sign = ['-']) ∧ (suffix = [] ∨ suffix = ['f']) ∧
        (∀ c ∈ body, c ∈ "0123456789".toList ∨ c = '.') ∧ body.count '.' ≤ 1 ∧
        ∃ c ∈ body, c ∈ "0123456789".toList := by
  obtain ⟨np, nm, nf, nd⟩ := not_digit_special
  rw [number_grammar_iff]
  constructor
  · rintro ⟨hb, hd, he⟩
    have hsuf : ∃ suffix, strip_sign s = strip_f (strip_sign s) ++ suffix ∧
        (suffix = [] ∨ suffix = ['f']) := by
      rcases strip_f_cases (strip_sign s) with ⟨_, e⟩ | e
      · exact ⟨[], by rw [e, List.append_nil], Or.inl rfl⟩
      · exact ⟨['f'], e, Or.inr rfl⟩
    obtain ⟨suffix, e1, hs⟩ := hsuf
    rcases strip_sign_cases s with e | e | e
    · exact ⟨[], _, suffix, by rw [List.nil_append, ← e1]; exact e, Or.inl rfl, hs, hb, hd, he⟩
    · exact ⟨['+'], _, suffix, by rw [List.append_assoc, ← e1]; exact e, Or.inr (Or.inl rfl),
        hs, hb, hd, he⟩
    · exact ⟨['-'], _, suffix, by rw [List.append_assoc, ← e1]; exact e, Or.inr (Or.inr rfl),
        hs, hb, hd, he⟩
  · rintro ⟨sign, body, suffix, rfl, hsign, hsuf, hb, hd, he⟩
    have hbody : ∀ c ∈ body, c ≠ '+' ∧ c ≠ '-' ∧ c ≠ 'f' := by
      intro c hc
      rcases hb c hc with h | h
      · exact ⟨fun e => np (e ▸ h), fun e => nm (e ▸ h), fun e => nf (e ▸ h)⟩
      · subst h; decide
    have hne : body ≠ [] := by
      rintro rfl
      obtain ⟨c, hc, _⟩ := he
      cases hc
    have h1 : strip_sign (sign ++ body ++ suffix) = body ++ suffix := by
      rcases hsign with rfl | rfl | rfl
      · cases body with
        | nil => exact absurd rfl hne
        | cons c t =>
          have := hbody c (List.mem_cons_self c t)
          exact strip_sign_cons_of_ne c _ this.1 this.2.1
      · rfl
      · rfl
    have h2 : strip_f (body ++ suffix) = body := by
      rcases hsuf with rfl | rfl
      · rw [List.append_nil]
        rcases strip_f_cases body with ⟨_, e⟩ | e
        · exact e
        · have hm : 'f' ∈ body := by
            rw [e]; simp
          exact absurd rfl (hbody 'f' hm).2.2
      · unfold strip_f
        rw [if_pos (List.getLast?_concat body), List.dropLast_concat]
    rw [h1, h2]
    exact ⟨hb, hd, he⟩

/-- C20. `ParseNumber` returns true if and only if the text matches the grammar: an
optional single leading `+` or `-`, then decimal digits with at most one `.` anywhere among
them, then an optional single trailing `f`, with at least one decimal digit overall; whatever
the output slots hold and whether or not a fractional slot is passed.  In particular it
returns false for the empty text, `abc`, a text without a digit (`+.f`), `1.2.3`, a sign that
is not the first character (`1-2`) and an `f` that is not the last character (`1f2`). -/
theorem ParseNumber_accepts_iff_grammar (s : List Char) (i_result : Int)
    (d_result : Option ℚ) :
    ((ParseNumber s i_result d_result).ok = true ↔
      ∃ sign body suffix, s = sign ++ body ++ suffix ∧
        (sign = [] ∨ sign = ['+'] ∨ sign = ['-']) ∧ (suffix = [] ∨ suffix = ['f']) ∧
        (∀ c ∈ body, c ∈ "0123456789".toList ∨ c = '.') ∧ body.count '.' ≤ 1 ∧
        ∃ c ∈ body, c ∈ "0123456789".toList) ∧
    (ParseNumber s i_result d_result).ok = number_grammar s ∧
    (ParseNumber [] i_result d_result).ok = false ∧
    (ParseNumber "abc".toList i_result d_result).ok = false ∧
    (ParseNumber "+.f".toList i_result d_result).ok = false ∧
    (ParseNumber "1.2.3".toList i_result d_result).ok = false ∧
    (ParseNumber "1-2".toList i_result d_result).ok = false ∧
    (ParseNumber "1f2".toList i_result d_result).ok = false := by
  have key : ∀ t : List Char, (ParseNumber t i_result d_result).ok = number_grammar t := by
    intro t
    have h := (ParseNumber_ok_iff t i_result d_result).trans (ParseNumber_checks_iff_grammar t)
    cases h1 : (ParseNumber t i_result d_result).ok <;> cases h2 : number_grammar t
    · rfl
    · rw [h1, h2] at h; exact absurd (h.mpr rfl) (by decide)
    · rw [h1, h2] at h; exact absurd (h.mp rfl) (by decide)
    · rfl
  refine ⟨?_, key s, ?_, ?_, ?_, ?_, ?_, ?_⟩
  · rw [key, number_grammar_iff_exists]
  · rw [key]; decide
  · rw [key]; decide
  · rw [key]; decide
  · rw [key]; decide
  · rw [key]; decide
  · rw [key]; decide

/-! ## Boolean lexer, ranges and the length of a byte string -/

theorem ParseBoolean_eq (s : List Char) (b : Bool) :
    ParseBoolean s b =
      if s = "true".toList ∨ s = "1".toList ∨ s = "yes".toList then ⟨true, true⟩
      else if s = "false".toList ∨ s = "0".toList ∨ s = "no".toList then ⟨true, false⟩
      else ⟨false, b⟩ := by
  unfold ParseBoolean
  cases s with
  | nil => cases b <;> decide
  | cons c t => rfl

/-- C25. `ParseBoolean` returns true with result true exactly for the texts `true`, `1`,
`yes`; returns true with result false exactly for `false`, `0`, `no`; and returns false,
leaving the result variable as it was, for every other text, among them the empty text and
the differently-cased spelling `TRUE`. -/
theorem ParseBoolean_table (s : List Char) (b : Bool) :
    (((ParseBoolean s b).ok = true ∧ (ParseBoolean s b).b_result = true) ↔
      (s = "true".toList ∨ s = "1".toList ∨ s = "yes".toList)) ∧
    (((ParseBoolean s b).ok = true ∧ (ParseBoolean s b).b_result = false) ↔
      (s = "false".toList ∨ s = "0".toList ∨ s = "no".toList)) ∧
    ((ParseBoolean s b).ok = false ↔
      s ∉ ["true".toList, "1".toList, "yes".toList, "false".toList, "0".toList,
        "no".toList]) ∧
    ((ParseBoolean s b).ok = false → (ParseBoolean s b).b_result = b) ∧
    ParseBoolean "".toList b = ⟨false, b⟩ ∧
    ParseBoolean "TRUE".toList b = ⟨false, b⟩ ∧
    ParseBoolean "yes".toList b = ⟨true, true⟩ ∧
    ParseBoolean "no".toList b = ⟨true, false⟩ := by
  refine ⟨?_, ?_, ?_, ?_, by cases b <;> decide, by cases b <;> decide,
    by cases b <;> decide, by cases b <;> decide⟩
  · rw [ParseBoolean_eq]
    by_cases h1 : s = "true".toList ∨ s = "1".toList ∨ s = "yes".toList
    · rw [if_pos h1]; exact ⟨fun _ => h1, fun _ => ⟨rfl, rfl⟩⟩
    · rw [if_neg h1]
      refine ⟨fun h => ?_, fun h => absurd h h1⟩
      split_ifs at h with h2
      · exact absurd h.2 (by decide)
      · exact absurd h.1 (by decide)
  · rw [ParseBoolean_eq]
    by_cases h1 : s = "true".toList ∨ s = "1".toList ∨ s = "yes".toList
    · rw [if_pos h1]
      refine ⟨fun h => absurd h.2 (by decide), fun h => ?_⟩
      rcases h1 with rfl | rfl | rfl <;> revert h <;> decide
    · rw [if_neg h1]
      by_cases h2 : s = "false".toList ∨ s = "0".toList ∨ s = "no".toList
      · rw [if_pos h2]; exact ⟨fun _ => h2, fun _ => ⟨rfl, rfl⟩⟩
      · rw [if_neg h2]; exact ⟨fun h => (by cases h.1), fun h => absurd h h2⟩
  · rw [ParseBoolean_eq]
    simp only [List.mem_cons, List.not_mem_nil, or_false]
    by_cases h1 : s = "true".toList ∨ s = "1".toList ∨ s = "yes".toList
    · rw [if_pos h1]
      refine ⟨fun h => absurd h (by decide), fun h => absurd ?_ h⟩
      tauto
    · rw [if_neg h1]
      by_cases h2 : s = "false".toList ∨ s = "0".toList ∨ s = "no".toList
      · rw [if_pos h2]
        refine ⟨fun h => absurd h (by decide), fun h => absurd ?_ h⟩
        tauto
      · rw [if_neg h2]
        refine ⟨fun _ => ?_, fun _ => rfl⟩
        tauto
  · rw [ParseBoolean_eq]
    split_ifs
    · intro h; exact absurd h (by decide)
    · intro h; exact absurd h (by decide)
    · intro _; rfl

/-- C26. For every range over `U32` with bounds `lo` and `hi` and every combination of the
two boundary types, `Range::in(p)` is true if and only if `p` lies above the low bound, or on
it when the low boundary is `kBT_Include`, and below the high bound, or on it when the high
boundary is `kBT_Include`. -/
theorem Range_in_iff (lo hi p : Nat) (lt ht : BoundaryType) :
    (Range.mk ⟨lo, lt⟩ ⟨hi, ht⟩).in_ p = true ↔
      ((p > lo ∨ (p = lo ∧ lt = BoundaryType.kBT_Include)) ∧
        (p < hi ∨ (p = hi ∧ ht = BoundaryType.kBT_Include))) := by
  cases lt <;> cases ht <;> simp [Range.in_] <;> omega

theorem Utf8Len_loop_append (pre : List Nat) (hpre : ∀ b ∈ pre, b ≠ 0) (rest : List Nat) :
    ∀ len, Utf8Len_loop (pre ++ 0 :: rest) len = (len + pre.length) % 2 ^ 32 ∨
      (pre = [] ∧ Utf8Len_loop (pre ++ 0 :: rest) len = len) := by
  induction pre with
  | nil => intro len; exact Or.inr ⟨rfl, by simp [Utf8Len_loop]⟩
  | cons b t ih =>
    intro len
    have hb : b ≠ 0 := hpre b (List.mem_cons_self _ _)
    have ht : ∀ x ∈ t, x ≠ 0 := fun x hx => hpre x (List.mem_cons_of_mem _ hx)
    left
    rw [List.cons_append, Utf8Len_loop, if_pos hb]
    rcases ih ht ((len + 1) % 2 ^ 32) with h | ⟨h1, h2⟩
    · rw [h, List.length_cons]; omega
    · rw [h2, h1]; simp

theorem Utf8Len_string (pre rest : List Nat) (hpre : ∀ b ∈ pre, b ≠ 0) :
    Utf8Len (some (pre ++ 0 :: rest)) = pre.length % 2 ^ 32 := by
  unfold Utf8Len
  rcases Utf8Len_loop_append pre hpre rest 0 with h | ⟨h1, h2⟩
  · simp only [h, Nat.zero_add]
  · simp only [h2, h1]; rfl

/-- C30, the claim as stated fails: the counter of `Utf8Len` is a `U32`, so for the
NUL-terminated string of `2 ^ 32` bytes `1` the result is `0`, not the number of bytes before
the first zero byte. -/
theorem Utf8Len_wraps_at_4GiB :
    (List.replicate 4294967296 1).length = 4294967296 ∧
    (∀ b ∈ List.replicate 4294967296 1, b ≠ 0) ∧
    Utf8Len (some (List.replicate 4294967296 1 ++ 0 :: [])) = 0 ∧
    Utf8Len (some (List.replicate 4294967296 1 ++ 0 :: []))
      ≠ (List.replicate 4294967296 1).length := by
  have hne : ∀ b ∈ List.replicate 4294967296 1, b ≠ 0 := by
    intro b hb
    rw [List.eq_of_mem_replicate hb]
    exact Nat.one_ne_zero
  have h := Utf8Len_string (List.replicate 4294967296 1) [] hne
  rw [List.length_replicate] at h
  refine ⟨List.length_replicate _ _, hne, h, ?_⟩
  rw [h, List.length_replicate]
  decide

/-- C30, amended. For every non-null NUL-terminated byte string (`pre` free of zero bytes,
then a zero byte, then anything) `Utf8Len` returns the number of bytes before the first zero
byte reduced modulo `2 ^ 32`, hence that number itself whenever it is below `2 ^ 32`; it is a
byte count, not a code-point count (one 3-octet sequence has length 3); and for a null
pointer it returns `0`. -/
theorem Utf8Len_counts_bytes (pre rest : List Nat) (hpre : ∀ b ∈ pre, b ≠ 0) :
    Utf8Len (some (pre ++ 0 :: rest)) = pre.length % 2 ^ 32 ∧
    (pre.length < 2 ^ 32 → Utf8Len (some (pre ++ 0 :: rest)) = pre.length) ∧
    Utf8Len (some [0xE2, 0x82, 0xAC, 0]) = 3 ∧
    Utf8Len none = 0 := by
  have h := Utf8Len_string pre rest hpre
  refine ⟨h, fun hlt => ?_, by decide, rfl⟩
  rw [h]
  exact Nat.mod_eq_of_lt hlt

theorem Utf8Len_counts_bytes_witness :
    (∀ b ∈ [0x41, 0xE2, 0x82, 0xAC], b ≠ 0) ∧
    Utf8Len (some ([0x41, 0xE2, 0x82, 0xAC] ++ 0 :: [0x42, 0])) =
      [0x41, 0xE2, 0x82, 0xAC].length % 2 ^ 32 ∧
    ([0x41, 0xE2, 0x82, 0xAC].length < 2 ^ 32 →
      Utf8Len (some ([0x41, 0xE2, 0x82, 0xAC] ++ 0 :: [0x42, 0]))
        = [0x41, 0xE2, 0x82, 0xAC].length) ∧
    Utf8Len (some [0xE2, 0x82, 0xAC, 0]) = 3 ∧
    Utf8Len none = 0 :=
  ⟨by decide, Utf8Len_counts_bytes [0x41, 0xE2, 0x82, 0xAC] [0x42, 0] (by decide)⟩

/-! ## Hexadecimal lexer -/

theorem ParseHex_loop_none (s : List Char) (hex_end digit_count : Nat) (h : digit_count ≠ 0) :
    ∀ fuel hex_value exp, ParseHex_loop s hex_end digit_count fuel hex_value exp = none := by
  intro fuel
  induction fuel with
  | zero => intro hex_value exp; rfl
  | succ k ih =>
    intro hex_value exp
    rw [ParseHex_loop, if_pos h]
    exact ih _ _

theorem hex_grammar_short (s : List Char) (h : s.length < 3) : hex_grammar s = false := by
  unfold hex_grammar
  split
  · simp only [List.length_cons] at h; omega
  · rfl

theorem ParseHex_short (fuel : Nat) (s : List Char) (h_result : Nat) (h : s.length < 3) :
    ParseHex fuel s h_result = some ⟨false, h_result⟩ := by
  unfold ParseHex
  simp only [if_pos h]

theorem ParseHex_eq (fuel : Nat) (s : List Char) (h_result : Nat) :
    ParseHex fuel s h_result = if hex_grammar s then none else some ⟨false, h_result⟩ := by
  match s with
  | [] => rfl
  | [a] => rw [hex_grammar_short [a] (by simp), ParseHex_short fuel [a] _ (by simp)]; rfl
  | [a, b] => rw [hex_grammar_short [a, b] (by simp), ParseHex_short fuel [a, b] _ (by simp)]; rfl
  | a :: b :: c :: t =>
    have hlen : ¬ (a :: b :: c :: t).length < 3 := by simp
    have h0 : string_at (a :: b :: c :: t) 0 = a := rfl
    have h1 : string_at (a :: b :: c :: t) 1 = b := rfl
    have hcnt : ¬ (0 = (a :: b :: c :: t).length - (0 + 1 + 1)) := by
      simp only [List.length_cons]; omega
    have hloop := ParseHex_loop_none (a :: b :: c :: t) (a :: b :: c :: t).length
      ((a :: b :: c :: t).length - (0 + 1 + 1)) (fun e => hcnt e.symm) fuel 0 0
    have hfind : string_find_first_not_of (a :: b :: c :: t) "0123456789ABCDEFabcdef".toList
        (0 + 1 + 1) ≠ none ↔ ¬ ∀ x ∈ c :: t, x ∈ "0123456789ABCDEFabcdef".toList := by
      unfold string_find_first_not_of
      rw [Ne, find_first_not_of_from_eq_none]
      rfl
    unfold ParseHex
    simp only [if_neg hlen, h0, h1]
    by_cases ha : a = '0'
    · subst ha
      rw [if_pos rfl]
      by_cases hb : b = 'x' ∨ b = 'X'
      · rw [if_neg (not_not.mpr hb)]
        by_cases hd : ∀ x ∈ c :: t, x ∈ "0123456789ABCDEFabcdef".toList
        · rw [if_neg (fun h => hfind.mp h hd), if_neg hcnt, hloop]
          have hg : hex_grammar ('0' :: b :: c :: t) = true := by
            simp only [hex_grammar, Bool.and_eq_true, Bool.or_eq_true, beq_iff_eq,
              List.all_eq_true, decide_eq_true_eq]
            exact ⟨hb, hd⟩
          rw [hg]; rfl
        · rw [if_pos (hfind.mpr hd)]
          have hg : hex_grammar ('0' :: b :: c :: t) = false := by
            rw [← Bool.not_eq_true]
            simp only [hex_grammar, Bool.and_eq_true, Bool.or_eq_true, beq_iff_eq,
              List.all_eq_true, decide_eq_true_eq]
            exact fun h => hd h.2
          rw [hg]; rfl
      · rw [if_pos hb]
        have hg : hex_grammar ('0' :: b :: c :: t) = false := by
          rw [← Bool.not_eq_true]
          simp only [hex_grammar, Bool.and_eq_true, Bool.or_eq_true, beq_iff_eq,
            List.all_eq_true, decide_eq_true_eq]
          exact fun h => hb h.1
        rw [hg]; rfl
    · rw [if_neg ha]
      have hg : hex_grammar (a :: b :: c :: t) = false := by
        unfold hex_grammar
        split
        · rename_i heq
          simp only [List.cons.injEq] at heq
          exact absurd heq.1 ha
        · rfl
      rw [hg]; rfl

theorem hex_grammar_iff (s : List Char) :
    hex_grammar s = true ↔
      (3 ≤ s.length ∧ (s.take 2 = ['0', 'x'] ∨ s.take 2 = ['0', 'X']) ∧
        ∀ c ∈ s.drop 2, c ∈ "0123456789ABCDEFabcdef".toList) := by
  match s with
  | [] => simp [hex_grammar]
  | [a] => rw [hex_grammar_short [a] (by simp)]; simp
  | [a, b] => rw [hex_grammar_short [a, b] (by simp)]; simp
  | a :: b :: c :: t =>
    by_cases ha : a = '0'
    · subst ha
      simp only [hex_grammar, Bool.and_eq_true, Bool.or_eq_true, beq_iff_eq,
        List.all_eq_true, decide_eq_true_eq, List.length_cons, List.take_succ_cons,
        List.take_zero, List.drop_succ_cons, List.drop_zero, List.cons.injEq, and_true,
        true_and]
      constructor
      · rintro ⟨h1, h2⟩; exact ⟨by omega, h1, h2⟩
      · rintro ⟨_, h1, h2⟩; exact ⟨h1, h2⟩
    · have hg : hex_grammar (a :: b :: c :: t) = false := by
        unfold hex_grammar
        split
        · rename_i heq
          simp only [List.cons.injEq] at heq
          exact absurd heq.1 ha
        · rfl
      rw [hg]
      simp only [List.take_succ_cons, List.take_zero, List.cons.injEq, and_true,
        Bool.false_eq_true, false_iff, not_and]
      intro _ h
      rcases h with h | h <;> exact absurd h.1 ha

/-- C22, on the code: for the texts `0x1F` and `0X00ff` of the claim the call does not return
within any number of iterations of the digit loop, whatever the output variable holds; so
it neither returns true nor stores 31 or 255.  The loop body never changes `digit_count`. -/
theorem ParseHex_0x1F_does_not_return (fuel : Nat) (h_result : Nat) :
    ParseHex fuel "0x1F".toList h_result = none ∧
    ParseHex fuel "0X00ff".toList h_result = none ∧
    ParseHex fuel "0x1F".toList h_result ≠ some ⟨true, 31⟩ ∧
    ParseHex fuel "0X00ff".toList h_result ≠ some ⟨true, 255⟩ := by
  have h1 : ParseHex fuel "0x1F".toList h_result = none := by
    rw [ParseHex_eq]; rfl
  have h2 : ParseHex fuel "0X00ff".toList h_result = none := by
    rw [ParseHex_eq]; rfl
  refine ⟨h1, h2, ?_, ?_⟩
  · rw [h1]; exact fun h => Option.noConfusion h
  · rw [h2]; exact fun h => Option.noConfusion h

/-- C23. `ParseHex` returns false, leaving the output variable as it was, exactly for the
texts that have fewer than 3 characters, or whose first two characters are not `0` followed
by `x` or `X`, or that contain a character outside `0-9`, `a-f`, `A-F` after the prefix (no
iteration of the digit loop is needed for that); for example `1F`, `0x` and `0xG1`. -/
theorem ParseHex_rejects (fuel : Nat) (s : List Char) (h_result : Nat) :
    (ParseHex fuel s h_result = some ⟨false, h_result⟩ ↔
      (s.length < 3 ∨ ¬ (s.take 2 = ['0', 'x'] ∨ s.take 2 = ['0', 'X']) ∨
        ∃ c ∈ s.drop 2, c ∉ "0123456789ABCDEFabcdef".toList)) ∧
    ParseHex fuel "1F".toList h_result = some ⟨false, h_result⟩ ∧
    ParseHex fuel "0x".toList h_result = some ⟨false, h_result⟩ ∧
    ParseHex fuel "0xG1".toList h_result = some ⟨false, h_result⟩ := by
  have key : ∀ t : List Char, hex_grammar t = false →
      ParseHex fuel t h_result = some ⟨false, h_result⟩ := by
    intro t ht
    rw [ParseHex_eq, ht]; rfl
  refine ⟨?_, key _ (by decide), key _ (by decide), key _ (by decide)⟩
  rw [ParseHex_eq]
  cases hg : hex_grammar s
  · have hn : ¬ (3 ≤ s.length ∧ (s.take 2 = ['0', 'x'] ∨ s.take 2 = ['0', 'X']) ∧
        ∀ c ∈ s.drop 2, c ∈ "0123456789ABCDEFabcdef".toList) := by
      rw [← hex_grammar_iff, hg]; exact Bool.false_ne_true
    refine ⟨fun _ => ?_, fun _ => rfl⟩
    by_contra hc
    push_neg at hc
    exact hn ⟨hc.1, hc.2.1, hc.2.2⟩
  · have hy := (hex_grammar_iff s).mp hg
    refine ⟨fun h => ?_, fun h => ?_⟩
    · exact Option.noConfusion h
    · rcases h with h | h | ⟨c, hc, hcn⟩
      · omega
      · exact absurd hy.2.1 h
      · exact absurd (hy.2.2 c hc) hcn

/-- C24, on the code: `ParseHex` returns (within some number of loop iterations) if and only
if the text fails the length, prefix or character test; for every text made of the prefix
`0x` or `0X` and one or more hexadecimal digits, such as `0x0`, the digit-accumulation loop
is still running after any number of iterations, because its body never changes
`digit_count`. -/
theorem ParseHex_returns_iff (s : List Char) (h_result : Nat) :
    ((∃ fuel r, ParseHex fuel s h_result = some r) ↔ hex_grammar s = false) ∧
    ((∀ fuel, ParseHex fuel s h_result = none) ↔
      (3 ≤ s.length ∧ (s.take 2 = ['0', 'x'] ∨ s.take 2 = ['0', 'X']) ∧
        ∀ c ∈ s.drop 2, c ∈ "0123456789ABCDEFabcdef".toList)) ∧
    (∀ fuel, ParseHex fuel "0x0".toList h_result = none) ∧
    (∀ hex_end digit_count, digit_count ≠ 0 →
      ∀ fuel hex_value exp, ParseHex_loop s hex_end digit_count fuel hex_value exp = none) := by
  refine ⟨?_, ?_, ?_, fun hex_end digit_count h => ParseHex_loop_none s hex_end digit_count h⟩
  · cases hg : hex_grammar s
    · refine ⟨fun _ => rfl, fun _ => ⟨0, ⟨false, h_result⟩, ?_⟩⟩
      rw [ParseHex_eq, hg]; rfl
    · refine ⟨fun h => ?_, fun h => absurd h (by decide)⟩
      obtain ⟨fuel, r, hr⟩ := h
      rw [ParseHex_eq, hg] at hr
      exact Option.noConfusion hr
  · rw [← hex_grammar_iff]
    cases hg : hex_grammar s
    · refine ⟨fun h => ?_, fun h => absurd h (by decide)⟩
      have h0 := h 0
      rw [ParseHex_eq, hg] at h0
      exact Option.noConfusion h0
    · refine ⟨fun _ => rfl, fun _ fuel => ?_⟩
      rw [ParseHex_eq, hg]; rfl
  · intro fuel
    rw [ParseHex_eq]; rfl

/-! ## Error sink: what the codecs push -/

theorem FromUtf8_scan_total (b0 : Nat) :
    ∀ fuel cOctets mask flag, cOctets < 4 → 4 ≤ cOctets + fuel →
      ∃ k m, FromUtf8_scan b0 fuel cOctets mask flag = some (k, m) := by
  intro fuel
  induction fuel with
  | zero => intro cOctets mask flag h1 h2; omega
  | succ n ih =>
    intro cOctets mask flag h1 h2
    rw [FromUtf8_scan]
    by_cases hf : b0 &&& flag ≠ 0
    · rw [if_pos hf]
      by_cases h4 : cOctets + 1 = 4
      · exact ⟨_, _, if_pos h4⟩
      · simp only [if_neg h4]
        exact ih _ _ _ (by omega) (by omega)
    · rw [if_neg hf]
      exact ⟨_, _, rfl⟩

theorem FromUtf8_octets_total (b0 : Nat) : ∃ k m, FromUtf8_octets b0 = some (k, m) := by
  unfold FromUtf8_octets
  by_cases hf : b0 &&& 0x80 ≠ 0
  · simp only [if_pos hf]
    exact FromUtf8_scan_total b0 8 1 _ _ (by omega) (by omega)
  · simp only [if_neg hf]
    exact ⟨_, _, rfl⟩

theorem ToUtf8_sink (hostLE : Bool) (err : ErrorState) (dstBuf : Option (List Nat))
    (dstSize cp : Nat) (dsn : Option Nat) :
    ((ToUtf8 hostLE err dstBuf dstSize cp dsn).code = ErrorCode.kERRC_NO ∧
      (ToUtf8 hostLE err dstBuf dstSize cp dsn).err.sErrorInfoStack_ = err.sErrorInfoStack_ ∧
      (ToUtf8 hostLE err dstBuf dstSize cp dsn).err.sErrorInfo.code_ = ErrorCode.kERRC_NO) ∨
    ((ToUtf8 hostLE err dstBuf dstSize cp dsn).code = ErrorCode.kERRC_NOT_ENOUGH_BUF_SPACE ∧
      dstSize = 0 ∧
      (ToUtf8 hostLE err dstBuf dstSize cp dsn).err.sErrorInfoStack_ = err.sErrorInfoStack_ ∧
      (ToUtf8 hostLE err dstBuf dstSize cp dsn).err.sErrorInfo.code_
        = ErrorCode.kERRC_NOT_ENOUGH_BUF_SPACE) ∨
    (dstSize = 0 →
      (ToUtf8 hostLE err dstBuf dstSize cp dsn).code = ErrorCode.kERRC_VALUE_OUT_OF_RANGE) ∧
    ∃ rec, (ToUtf8 hostLE err dstBuf dstSize cp dsn).err.sErrorInfoStack_
        = rec :: err.sErrorInfoStack_ ∧
      rec.code_ = (ToUtf8 hostLE err dstBuf dstSize cp dsn).code ∧
      ((rec.code_ = ErrorCode.kERRC_INVALID_PTR ∧ rec.level_ = ErrorLevel.kERRL_FATAL) ∨
        ((rec.code_ = ErrorCode.kERRC_NOT_ENOUGH_BUF_SPACE ∨
            rec.code_ = ErrorCode.kERRC_VALUE_OUT_OF_RANGE ∨
            rec.code_ = ErrorCode.kERRC_NOT_ENOUGH_DATA) ∧
          rec.level_ = ErrorLevel.kERRL_ERROR)) := by
  unfold ToUtf8
  by_cases h0 : 0 = findOctetCount cp
  · right; right
    simp only [if_pos h0]
    exact ⟨fun _ => rfl, _, rfl, rfl, Or.inr ⟨Or.inr (Or.inl rfl), rfl⟩⟩
  · simp only [if_neg h0]
    by_cases h1 : 0 = dstSize
    · right; left
      simp only [if_pos h1]
      exact ⟨rfl, h1.symm, trivial, rfl⟩
    · simp only [if_neg h1]
      by_cases h2 : dstSize < findOctetCount cp
      · right; right
        simp only [if_pos h2]
        exact ⟨fun h => absurd h.symm h1, _, rfl, rfl, Or.inr ⟨Or.inl rfl, rfl⟩⟩
      · simp only [if_neg h2]
        cases dstBuf with
        | none =>
          right; right
          exact ⟨fun h => absurd h.symm h1, _, rfl, rfl, Or.inl ⟨rfl, rfl⟩⟩
        | some b =>
          left
          exact ⟨rfl, rfl, rfl⟩

theorem ToUtf16_sink (hostLE : Bool) (err : ErrorState) (dstBuf : Option (List Nat))
    (dstSize cp : Nat) (dsn : Option Nat) (e : EndianType) :
    ((ToUtf16 hostLE err dstBuf dstSize cp dsn e).code = ErrorCode.kERRC_NO ∧
      (ToUtf16 hostLE err dstBuf dstSize cp dsn e).err.sErrorInfoStack_
        = err.sErrorInfoStack_ ∧
      (ToUtf16 hostLE err dstBuf dstSize cp dsn e).err.sErrorInfo.code_
        = ErrorCode.kERRC_NO) ∨
    ((ToUtf16 hostLE err dstBuf dstSize cp dsn e).code
        = ErrorCode.kERRC_NOT_ENOUGH_BUF_SPACE ∧
      dstSize = 0 ∧
      (ToUtf16 hostLE err dstBuf dstSize cp dsn e).err.sErrorInfoStack_
        = err.sErrorInfoStack_ ∧
      (ToUtf16 hostLE err dstBuf dstSize cp dsn e).err.sErrorInfo.code_
        = ErrorCode.kERRC_NOT_ENOUGH_BUF_SPACE) ∨
    dstSize ≠ 0 ∧
    ∃ rec, (ToUtf16 hostLE err dstBuf dstSize cp dsn e).err.sErrorInfoStack_
        = rec :: err.sErrorInfoStack_ ∧
      rec.code_ = (ToUtf16 hostLE err dstBuf dstSize cp dsn e).code ∧
      ((rec.code_ = ErrorCode.kERRC_INVALID_PTR ∧ rec.level_ = ErrorLevel.kERRL_FATAL) ∨
        ((rec.code_ = ErrorCode.kERRC_NOT_ENOUGH_BUF_SPACE ∨
            rec.code_ = ErrorCode.kERRC_VALUE_OUT_OF_RANGE ∨
            rec.code_ = ErrorCode.kERRC_NOT_ENOUGH_DATA) ∧
          rec.level_ = ErrorLevel.kERRL_ERROR)) := by
  unfold ToUtf16
  by_cases hcp : cp ≥ 0x10000
  · simp only [if_pos hcp]
    by_cases h1 : 0 = dstSize
    · right; left
      simp only [if_pos h1]
      exact ⟨rfl, h1.symm, trivial, rfl⟩
    · simp only [if_neg h1]
      cases dstBuf with
      | none =>
        right; right
        exact ⟨fun h => h1 h.symm, _, rfl, rfl, Or.inl ⟨rfl, rfl⟩⟩
      | some b =>
        simp only []
        by_cases hw1 : (!(writeBuiltin hostLE 2 b 0 dstSize
            (Utf16_makeSurrogates 0 0 cp).2.1 e).ok) = true
        · right; right
          simp only [if_pos hw1]
          exact ⟨fun h => h1 h.symm, _, rfl, rfl, Or.inr ⟨Or.inl rfl, rfl⟩⟩
        · simp only [if_neg hw1]
          split_ifs
          · right; right
            exact ⟨fun h => h1 h.symm, _, rfl, rfl, Or.inr ⟨Or.inl rfl, rfl⟩⟩
          · left
            exact ⟨rfl, rfl, rfl⟩
  · simp only [if_neg hcp]
    by_cases h1 : 0 = dstSize
    · right; left
      simp only [if_pos h1]
      exact ⟨rfl, h1.symm, trivial, rfl⟩
    · simp only [if_neg h1]
      cases dstBuf with
      | none =>
        right; right
        exact ⟨fun h => h1 h.symm, _, rfl, rfl, Or.inl ⟨rfl, rfl⟩⟩
      | some b =>
        simp only []
        split_ifs
        · right; right
          exact ⟨fun h => h1 h.symm, _, rfl, rfl, Or.inr ⟨Or.inl rfl, rfl⟩⟩
        · left
          exact ⟨rfl, rfl, rfl⟩

theorem FromUtf8_sink (hostLE : Bool) (err : ErrorState) (cp0 : Nat)
    (srcBuf : Option (List Nat)) (srcSize : Nat) (srb : Option Nat) :
    ∃ r, FromUtf8 hostLE err cp0 srcBuf srcSize srb = some r ∧
      ((r.code = ErrorCode.kERRC_NO ∧ r.err.sErrorInfoStack_ = err.sErrorInfoStack_ ∧
          r.err.sErrorInfo.code_ = ErrorCode.kERRC_NO) ∨
        ∃ rec, r.err.sErrorInfoStack_ = rec :: err.sErrorInfoStack_ ∧
          rec.code_ = r.code ∧
          ((rec.code_ = ErrorCode.kERRC_INVALID_PTR ∧ rec.level_ = ErrorLevel.kERRL_FATAL) ∨
            ((rec.code_ = ErrorCode.kERRC_NOT_ENOUGH_BUF_SPACE ∨
                rec.code_ = ErrorCode.kERRC_VALUE_OUT_OF_RANGE ∨
                rec.code_ = ErrorCode.kERRC_NOT_ENOUGH_DATA) ∧
              rec.level_ = ErrorLevel.kERRL_ERROR))) := by
  unfold FromUtf8
  cases srcBuf with
  | none => exact ⟨_, rfl, Or.inr ⟨_, rfl, rfl, Or.inl ⟨rfl, rfl⟩⟩⟩
  | some b =>
    simp only []
    by_cases h0 : 0 = srcSize
    · simp only [if_pos h0]
      exact ⟨_, rfl, Or.inr ⟨_, rfl, rfl, Or.inr ⟨Or.inr (Or.inr rfl), rfl⟩⟩⟩
    · simp only [if_neg h0]
      obtain ⟨k, m, hkm⟩ := FromUtf8_octets_total (b.getD 0 0)
      rw [hkm]
      simp only []
      by_cases hk : k > srcSize
      · simp only [if_pos hk]
        exact ⟨_, rfl, Or.inr ⟨_, rfl, rfl, Or.inr ⟨Or.inr (Or.inr rfl), rfl⟩⟩⟩
      · simp only [if_neg hk]
        exact ⟨_, rfl, Or.inl ⟨rfl, rfl, rfl⟩⟩

theorem FromUtf16_sink (hostLE : Bool) (err : ErrorState) (cp0 : Nat)
    (srcBuf : Option (List Nat)) (srcSize : Nat) (srb : Option Nat) (e : EndianType) :
    ((FromUtf16 hostLE err cp0 srcBuf srcSize srb e).code = ErrorCode.kERRC_NO ∧
      (FromUtf16 hostLE err cp0 srcBuf srcSize srb e).err.sErrorInfoStack_
        = err.sErrorInfoStack_ ∧
      (FromUtf16 hostLE err cp0 srcBuf srcSize srb e).err.sErrorInfo.code_
        = ErrorCode.kERRC_NO) ∨
    ∃ rec, (FromUtf16 hostLE err cp0 srcBuf srcSize srb e).err.sErrorInfoStack_
        = rec :: err.sErrorInfoStack_ ∧
      rec.code_ = (FromUtf16 hostLE err cp0 srcBuf srcSize srb e).code ∧
      ((rec.code_ = ErrorCode.kERRC_INVALID_PTR ∧ rec.level_ = ErrorLevel.kERRL_FATAL) ∨
        ((rec.code_ = ErrorCode.kERRC_NOT_ENOUGH_BUF_SPACE ∨
            rec.code_ = ErrorCode.kERRC_VALUE_OUT_OF_RANGE ∨
            rec.code_ = ErrorCode.kERRC_NOT_ENOUGH_DATA) ∧
          rec.level_ = ErrorLevel.kERRL_ERROR)) := by
  unfold FromUtf16
  cases srcBuf with
  | none => exact Or.inr ⟨_, rfl, rfl, Or.inl ⟨rfl, rfl⟩⟩
  | some b =>
    simp only []
    by_cases hr1 : (!(readBuiltin hostLE 2 b 0 srcSize 0 e).ok) = true
    · simp only [if_pos hr1]
      exact Or.inr ⟨_, rfl, rfl, Or.inr ⟨Or.inr (Or.inr rfl), rfl⟩⟩
    · simp only [if_neg hr1]
      by_cases hs : (readBuiltin hostLE 2 b 0 srcSize 0 e).dst &&& 0xFC00 = 0xD800
      · simp only [if_pos hs]
        split_ifs
        · exact Or.inr ⟨_, rfl, rfl, Or.inr ⟨Or.inr (Or.inr rfl), rfl⟩⟩
        · exact Or.inl ⟨rfl, rfl, rfl⟩
      · simp only [if_neg hs]
        exact Or.inl ⟨rfl, trivial, rfl⟩

theorem pushed_level_facts (rec : ErrorInfo)
    (h : (rec.code_ = ErrorCode.kERRC_INVALID_PTR ∧ rec.level_ = ErrorLevel.kERRL_FATAL) ∨
      ((rec.code_ = ErrorCode.kERRC_NOT_ENOUGH_BUF_SPACE ∨
          rec.code_ = ErrorCode.kERRC_VALUE_OUT_OF_RANGE ∨
          rec.code_ = ErrorCode.kERRC_NOT_ENOUGH_DATA) ∧
        rec.level_ = ErrorLevel.kERRL_ERROR)) :
    (rec.level_ = ErrorLevel.kERRL_FATAL ↔ rec.code_ = ErrorCode.kERRC_INVALID_PTR) ∧
    ((rec.code_ = ErrorCode.kERRC_NOT_ENOUGH_DATA ∨
        rec.code_ = ErrorCode.kERRC_NOT_ENOUGH_BUF_SPACE ∨
        rec.code_ = ErrorCode.kERRC_VALUE_OUT_OF_RANGE) → rec.level_ = ErrorLevel.kERRL_ERROR) ∧
    rec.code_ ≠ ErrorCode.kERRC_NO := by
  rcases h with ⟨hc, hl⟩ | ⟨hc, hl⟩
  · rw [hc, hl]
    refine ⟨⟨fun _ => rfl, fun _ => rfl⟩, fun h => ?_, by decide⟩
    rcases h with h | h | h <;> cases h
  · rw [hl]
    refine ⟨⟨fun h => ?_, fun h => ?_⟩, fun _ => rfl, ?_⟩
    · cases h
    · rw [h] at hc
      rcases hc with h | h | h <;> cases h
    · rcases hc with h | h | h <;> rw [h] <;> decide

/-- C28. The error stack is written only on failure: whenever `ToUtf8`, `ToUtf16`,
`FromUtf8` or `FromUtf16` returns `kERRC_NO`, the error stack after the call is the stack
before the call, and the shared record `sErrorInfo` holds the code `kERRC_NO`. -/
theorem codecs_success_leaves_stack (hostLE : Bool) (err : ErrorState)
    (buf : Option (List Nat)) (size cp : Nat) (out : Option Nat) (e : EndianType) :
    ((ToUtf8 hostLE err buf size cp out).code = ErrorCode.kERRC_NO →
      (ToUtf8 hostLE err buf size cp out).err.sErrorInfoStack_ = err.sErrorInfoStack_ ∧
      (ToUtf8 hostLE err buf size cp out).err.sErrorInfo.code_ = ErrorCode.kERRC_NO) ∧
    ((ToUtf16 hostLE err buf size cp out e).code = ErrorCode.kERRC_NO →
      (ToUtf16 hostLE err buf size cp out e).err.sErrorInfoStack_ = err.sErrorInfoStack_ ∧
      (ToUtf16 hostLE err buf size cp out e).err.sErrorInfo.code_ = ErrorCode.kERRC_NO) ∧
    (∃ r, FromUtf8 hostLE err cp buf size out = some r ∧
      (r.code = ErrorCode.kERRC_NO →
        r.err.sErrorInfoStack_ = err.sErrorInfoStack_ ∧
        r.err.sErrorInfo.code_ = ErrorCode.kERRC_NO)) ∧
    ((FromUtf16 hostLE err cp buf size out e).code = ErrorCode.kERRC_NO →
      (FromUtf16 hostLE err cp buf size out e).err.sErrorInfoStack_ = err.sErrorInfoStack_ ∧
      (FromUtf16 hostLE err cp buf size out e).err.sErrorInfo.code_
        = ErrorCode.kERRC_NO) := by
  refine ⟨?_, ?_, ?_, ?_⟩
  · intro hc
    rcases ToUtf8_sink hostLE err buf size cp out with
      ⟨_, h1, h2⟩ | ⟨h, _⟩ | ⟨_, rec, _, h2, h3⟩
    · exact ⟨h1, h2⟩
    · rw [h] at hc; cases hc
    · exact absurd (h2.trans hc) (pushed_level_facts rec h3).2.2
  · intro hc
    rcases ToUtf16_sink hostLE err buf size cp out e with
      ⟨_, h1, h2⟩ | ⟨h, _⟩ | ⟨_, rec, _, h2, h3⟩
    · exact ⟨h1, h2⟩
    · rw [h] at hc; cases hc
    · exact absurd (h2.trans hc) (pushed_level_facts rec h3).2.2
  · obtain ⟨r, hr, h⟩ := FromUtf8_sink hostLE err cp buf size out
    refine ⟨r, hr, fun hc => ?_⟩
    rcases h with ⟨_, h1, h2⟩ | ⟨rec, _, h2, h3⟩
    · exact ⟨h1, h2⟩
    · exact absurd (h2.trans hc) (pushed_level_facts rec h3).2.2
  · intro hc
    rcases FromUtf16_sink hostLE err cp buf size out e with ⟨_, h1, h2⟩ | ⟨rec, _, h2, h3⟩
    · exact ⟨h1, h2⟩
    · exact absurd (h2.trans hc) (pushed_level_facts rec h3).2.2

theorem codecs_success_leaves_stack_witness :
    (ToUtf8 true ⟨ErrorInfo.ctor, [ErrorInfo.ctor]⟩ (some [0, 0, 0]) 3 0x20AC none).code
      = ErrorCode.kERRC_NO ∧
    (ToUtf8 true ⟨ErrorInfo.ctor, [ErrorInfo.ctor]⟩ (some [0, 0, 0]) 3 0x20AC
        none).err.sErrorInfoStack_ = [ErrorInfo.ctor] ∧
    (ToUtf8 true ⟨ErrorInfo.ctor, [ErrorInfo.ctor]⟩ (some [0, 0, 0]) 3 0x20AC
        none).err.sErrorInfo.code_ = ErrorCode.kERRC_NO :=
  ⟨by decide,
    (codecs_success_leaves_stack true ⟨ErrorInfo.ctor, [ErrorInfo.ctor]⟩ (some [0, 0, 0]) 3
      0x20AC none .kLittleEndian).1 (by decide)⟩

/-- C29. Each call of `ToUtf8`, `ToUtf16`, `FromUtf8` or `FromUtf16` pushes at most one error
record, and every record it pushes has level `kERRL_FATAL` if and only if its code is
`kERRC_INVALID_PTR`; a pushed record with code `kERRC_NOT_ENOUGH_DATA`,
`kERRC_NOT_ENOUGH_BUF_SPACE` or `kERRC_VALUE_OUT_OF_RANGE` has level `kERRL_ERROR`. -/
theorem pushed_record_level (hostLE : Bool) (err : ErrorState) (buf : Option (List Nat))
    (size cp : Nat) (out : Option Nat) (e : EndianType) :
    (∃ r8, FromUtf8 hostLE err cp buf size out = some r8 ∧
      ∀ after ∈ [(ToUtf8 hostLE err buf size cp out).err,
          (ToUtf16 hostLE err buf size cp out e).err, r8.err,
          (FromUtf16 hostLE err cp buf size out e).err],
        (after.sErrorInfoStack_ = err.sErrorInfoStack_ ∨
          ∃ rec, after.sErrorInfoStack_ = rec :: err.sErrorInfoStack_) ∧
        ∀ rec, after.sErrorInfoStack_ = rec :: err.sErrorInfoStack_ →
          (rec.level_ = ErrorLevel.kERRL_FATAL ↔ rec.code_ = ErrorCode.kERRC_INVALID_PTR) ∧
          ((rec.code_ = ErrorCode.kERRC_NOT_ENOUGH_DATA ∨
              rec.code_ = ErrorCode.kERRC_NOT_ENOUGH_BUF_SPACE ∨
              rec.code_ = ErrorCode.kERRC_VALUE_OUT_OF_RANGE) →
            rec.level_ = ErrorLevel.kERRL_ERROR)) ∧
    (ToUtf8 hostLE ⟨ErrorInfo.ctor, []⟩ none 1 0x41 none).err.sErrorInfoStack_.map
        (fun rec => (rec.code_, rec.level_))
      = [(ErrorCode.kERRC_INVALID_PTR, ErrorLevel.kERRL_FATAL)] ∧
    (ToUtf8 hostLE ⟨ErrorInfo.ctor, []⟩ (some [0]) 1 0x20AC none).err.sErrorInfoStack_.map
        (fun rec => (rec.code_, rec.level_))
      = [(ErrorCode.kERRC_NOT_ENOUGH_BUF_SPACE, ErrorLevel.kERRL_ERROR)] ∧
    (ToUtf8 hostLE ⟨ErrorInfo.ctor, []⟩ (some [0]) 1 0x110000 none).err.sErrorInfoStack_.map
        (fun rec => (rec.code_, rec.level_))
      = [(ErrorCode.kERRC_VALUE_OUT_OF_RANGE, ErrorLevel.kERRL_ERROR)] ∧
    (FromUtf16 hostLE ⟨ErrorInfo.ctor, []⟩ 0 (some [0x41]) 1 none e).err.sErrorInfoStack_.map
        (fun rec => (rec.code_, rec.level_))
      = [(ErrorCode.kERRC_NOT_ENOUGH_DATA, ErrorLevel.kERRL_ERROR)] := by
  have key : ∀ after : ErrorState,
      (after.sErrorInfoStack_ = err.sErrorInfoStack_ ∨
        ∃ rec, after.sErrorInfoStack_ = rec :: err.sErrorInfoStack_ ∧
          ((rec.code_ = ErrorCode.kERRC_INVALID_PTR ∧ rec.level_ = ErrorLevel.kERRL_FATAL) ∨
            ((rec.code_ = ErrorCode.kERRC_NOT_ENOUGH_BUF_SPACE ∨
                rec.code_ = ErrorCode.kERRC_VALUE_OUT_OF_RANGE ∨
                rec.code_ = ErrorCode.kERRC_NOT_ENOUGH_DATA) ∧
              rec.level_ = ErrorLevel.kERRL_ERROR))) →
      (after.sErrorInfoStack_ = err.sErrorInfoStack_ ∨
          ∃ rec, after.sErrorInfoStack_ = rec :: err.sErrorInfoStack_) ∧
        ∀ rec, after.sErrorInfoStack_ = rec :: err.sErrorInfoStack_ →
          (rec.level_ = ErrorLevel.kERRL_FATAL ↔ rec.code_ = ErrorCode.kERRC_INVALID_PTR) ∧
          ((rec.code_ = ErrorCode.kERRC_NOT_ENOUGH_DATA ∨
              rec.code_ = ErrorCode.kERRC_NOT_ENOUGH_BUF_SPACE ∨
              rec.code_ = ErrorCode.kERRC_VALUE_OUT_OF_RANGE) →
            rec.level_ = ErrorLevel.kERRL_ERROR) := by
    intro after h
    rcases h with h | ⟨rec, h1, h2⟩
    · refine ⟨Or.inl h, fun rec hrec => ?_⟩
      rw [h] at hrec
      exact absurd hrec.symm (List.cons_ne_self _ _)
    · refine ⟨Or.inr ⟨rec, h1⟩, fun rec2 hrec => ?_⟩
      rw [h1] at hrec
      have hh : rec = rec2 := (List.cons.inj hrec).1
      subst hh
      exact ⟨(pushed_level_facts rec h2).1, (pushed_level_facts rec h2).2.1⟩
  obtain ⟨r8, hr8, h8⟩ := FromUtf8_sink hostLE err cp buf size out
  refine ⟨⟨r8, hr8, ?_⟩, ?_, ?_, ?_, ?_⟩
  · intro after hmem
    simp only [List.mem_cons, List.not_mem_nil, or_false] at hmem
    apply key
    rcases hmem with rfl | rfl | rfl | rfl
    · rcases ToUtf8_sink hostLE err buf size cp out with
        ⟨_, h, _⟩ | ⟨_, _, h, _⟩ | ⟨_, rec, h1, _, h3⟩
      · exact Or.inl h
      · exact Or.inl h
      · exact Or.inr ⟨rec, h1, h3⟩
    · rcases ToUtf16_sink hostLE err buf size cp out e with
        ⟨_, h, _⟩ | ⟨_, _, h, _⟩ | ⟨_, rec, h1, _, h3⟩
      · exact Or.inl h
      · exact Or.inl h
      · exact Or.inr ⟨rec, h1, h3⟩
    · rcases h8 with ⟨_, h, _⟩ | ⟨rec, h1, _, h3⟩
      · exact Or.inl h
      · exact Or.inr ⟨rec, h1, h3⟩
    · rcases FromUtf16_sink hostLE err cp buf size out e with ⟨_, h, _⟩ | ⟨rec, h1, _, h3⟩
      · exact Or.inl h
      · exact Or.inr ⟨rec, h1, h3⟩
  · cases hostLE <;> decide
  · cases hostLE <;> decide
  · cases hostLE <;> decide
  · cases hostLE <;> cases e <;> decide

/-! ## Number lexer: integer result -/

theorem S32_wrap_modEq (a : Int) : S32_wrap a ≡ a [ZMOD 4294967296] := by
  unfold S32_wrap Int.ModEq
  omega

theorem S32_wrap_congr (a b : Int) (h : a ≡ b [ZMOD 4294967296]) : S32_wrap a = S32_wrap b := by
  unfold Int.ModEq at h
  unfold S32_wrap
  omega

theorem TenPower_S32_up_modEq :
    ∀ (k : Nat) (b : Int), TenPower_S32_up k b ≡ b * 10 ^ k [ZMOD 4294967296] := by
  intro k
  induction k with
  | zero => intro b; rw [TenPower_S32_up, pow_zero, mul_one]
  | succ n ih =>
    intro b
    rw [TenPower_S32_up, pow_succ']
    refine (ih _).trans ?_
    rw [← mul_assoc]
    exact (S32_wrap_modEq _).mul_right _

theorem TenPower_S32_modEq (k : Nat) :
    TenPower_S32 (k : Int) ≡ 10 ^ k [ZMOD 4294967296] := by
  unfold TenPower_S32
  by_cases h0 : k = 0
  · subst h0
    rfl
  · have h1 : ¬ (0 = (k : Int)) := by omega
    have h2 : (k : Int) > 0 := by omega
    rw [if_neg h1, if_pos h2, Int.toNat_ofNat]
    have := TenPower_S32_up_modEq k 1
    rwa [one_mul] at this

theorem CharToDigit_digit (c : Char) (h : c ∈ "0123456789".toList) :
    CharToDigit c = (digit_value c : Int) := by
  have e : "0123456789".toList = ['0', '1', '2', '3', '4', '5', '6', '7', '8', '9'] := rfl
  rw [e] at h
  simp only [List.mem_cons, List.not_mem_nil, or_false] at h
  rcases h with rfl | rfl | rfl | rfl | rfl | rfl | rfl | rfl | rfl | rfl <;> rfl

theorem string_at_lt (s : List Char) (a : Nat) (h : a < s.length) :
    string_at s a = s[a] := by
  unfold string_at
  exact List.getD_eq_getElem _ _ h

theorem ParseNumber_int_loop_modEq (s : List Char) :
    ∀ (n a : Nat) (int_part : Int), a + n ≤ s.length →
      (∀ c ∈ (s.drop a).take n, c ∈ "0123456789".toList) →
      ParseNumber_int_loop s n a int_part
        ≡ int_part + (decimal_value ((s.drop a).take n) : Int) [ZMOD 4294967296] := by
  intro n
  induction n with
  | zero =>
    intro a int_part _ _
    rw [ParseNumber_int_loop, List.take_zero, decimal_value]
    simp
  | succ n ih =>
    intro a int_part hlen hdig
    have ha : a < s.length := by omega
    have hd : s.drop a = s[a] :: s.drop (a + 1) := List.drop_eq_getElem_cons ha
    rw [hd, List.take_succ_cons] at hdig ⊢
    have hc : s[a] ∈ "0123456789".toList := hdig _ (List.mem_cons_self _ _)
    have ht : ∀ c ∈ (s.drop (a + 1)).take n, c ∈ "0123456789".toList :=
      fun c hc => hdig c (List.mem_cons_of_mem _ hc)
    have hl : ((s.drop (a + 1)).take n).length = n := by
      rw [List.length_take, List.length_drop]; omega
    rw [ParseNumber_int_loop, decimal_value, hl, string_at_lt s a ha, CharToDigit_digit _ hc]
    refine (ih (a + 1) _ (by omega) ht).trans ?_
    have e1 : ((n + 1 : Nat) : Int) - 1 = (n : Int) := by omega
    rw [e1]
    have h1 := (S32_wrap_modEq (int_part
      + S32_wrap (TenPower_S32 (n : Int) * (digit_value s[a] : Int))))
    have h2 := (S32_wrap_modEq (TenPower_S32 (n : Int) * (digit_value s[a] : Int)))
    have h3 := (TenPower_S32_modEq n).mul_right (digit_value s[a] : Int)
    have h4 := (h1.trans ((h2.trans h3).add_left int_part)).add_right
      (decimal_value ((s.drop (a + 1)).take n) : Int)
    refine h4.trans ?_
    push_cast
    rw [mul_comm ((10 : Int) ^ n)]
    ring_nf
    rfl

theorem decimal_value_zero_cons (t : List Char) : decimal_value ('0' :: t) = decimal_value t := by
  rw [decimal_value]
  have : digit_value '0' = 0 := rfl
  rw [this, Nat.zero_mul, Nat.zero_add]

theorem ParseNumber_skip_leading_spec (s : List Char) :
    ∀ (k a : Nat), a + k ≤ s.length →
      a ≤ ParseNumber_skip_leading s k a ∧ ParseNumber_skip_leading s k a ≤ a + k ∧
      decimal_value ((s.drop (ParseNumber_skip_leading s k a)).take
          (a + k - ParseNumber_skip_leading s k a))
        = decimal_value ((s.drop a).take k) ∧
      ∀ c ∈ (s.drop (ParseNumber_skip_leading s k a)).take
          (a + k - ParseNumber_skip_leading s k a), c ∈ (s.drop a).take k := by
  intro k
  induction k with
  | zero =>
    intro a _
    rw [ParseNumber_skip_leading]
    simp
  | succ k ih =>
    intro a hlen
    have ha : a < s.length := by omega
    have hd : s.drop a = s[a] :: s.drop (a + 1) := List.drop_eq_getElem_cons ha
    rw [ParseNumber_skip_leading, string_at_lt s a ha]
    by_cases h0 : s[a] = '0'
    · rw [if_pos h0]
      obtain ⟨h1, h2, h3, h4⟩ := ih (a + 1) (by omega)
      have e : a + (k + 1) = a + 1 + k := by omega
      rw [e]
      refine ⟨by omega, by omega, ?_, ?_⟩
      · rw [h3, hd, List.take_succ_cons, h0, decimal_value_zero_cons]
      · intro c hc
        rw [hd, List.take_succ_cons]
        exact List.mem_cons_of_mem _ (h4 c hc)
    · rw [if_neg h0]
      have e : a + (k + 1) - a = k + 1 := by omega
      rw [e]
      exact ⟨le_refl _, by omega, rfl, fun c hc => hc⟩

theorem find_from_eq (t : List Char) (ch : Char) :
    ∀ i, find_from t ch i =
      if ch ∈ t then some (i + (t.takeWhile (fun c => c != ch)).length) else none := by
  induction t with
  | nil => intro i; rfl
  | cons c t ih =>
    intro i
    by_cases hc : c = ch
    · subst hc
      simp [find_from]
    · have hne : ch ≠ c := fun h => hc h.symm
      rw [find_from, if_neg hc, ih (i + 1)]
      have hb : (c != ch) = true := by simpa using hc
      simp only [List.mem_cons, hne, false_or, List.takeWhile_cons, hb, if_true,
        List.length_cons]
      split_ifs
      · congr 1; omega
      · rfl

theorem takeWhile_append_of_mem (l r : List Char) (ch : Char) (h : ch ∈ l) :
    (l ++ r).takeWhile (fun c => c != ch) = l.takeWhile (fun c => c != ch) := by
  induction l with
  | nil => cases h
  | cons c t ih =>
    by_cases hc : c = ch
    · subst hc
      simp
    · have hb : (c != ch) = true := by simpa using hc
      have ht : ch ∈ t := by
        rcases List.mem_cons.mp h with h | h
        · exact absurd h.symm hc
        · exact h
      rw [List.cons_append, List.takeWhile_cons, List.takeWhile_cons, hb, if_pos rfl,
        if_pos rfl, ih ht]

theorem takeWhile_of_not_mem (l : List Char) (ch : Char) (h : ch ∉ l) :
    l.takeWhile (fun c => c != ch) = l := by
  induction l with
  | nil => rfl
  | cons c t ih =>
    have hc : c ≠ ch := fun e => h (e ▸ List.mem_cons_self _ _)
    have hb : (c != ch) = true := by simpa using hc
    rw [List.takeWhile_cons, hb, if_pos rfl, ih (fun hm => h (List.mem_cons_of_mem _ hm))]

theorem ParseNumber_value_i_result (s : List Char) (sign : Int) (unsigned_start len : Nat)
    (d_result : Option ℚ) :
    (ParseNumber_value s sign unsigned_start len d_result).i_result =
      S32_wrap (ParseNumber_int_loop s
        ((match string_find s '.' unsigned_start with | some d => d | none => len)
          - ParseNumber_skip_leading s
              ((match string_find s '.' unsigned_start with | some d => d | none => len)
                - unsigned_start) unsigned_start)
        (ParseNumber_skip_leading s
          ((match string_find s '.' unsigned_start with | some d => d | none => len)
            - unsigned_start) unsigned_start) 0 * sign) := by
  cases d_result <;> rfl

theorem ParseNumber_cases (s : List Char) (i_result : Int) (d_result : Option ℚ) :
    ParseNumber s i_result d_result = ⟨false, i_result, d_result⟩ ∨
    ParseNumber s i_result d_result =
      ParseNumber_value s (if '-' ∈ s then -1 else 1)
        (if '+' ∈ s then (if '-' ∈ s then 0 + 1 else 0) + 1 else (if '-' ∈ s then 0 + 1 else 0))
        (if 'f' ∈ s then s.length - 1 else s.length) d_result := by
  unfold ParseNumber
  simp only [string_find_ne_none]
  by_cases h1 : s.length = 0
  · rw [if_pos h1]; exact Or.inl rfl
  rw [if_neg h1]
  by_cases h2 : ¬string_find_first_not_of s "0123456789.-+f".toList 0 = none
  · rw [if_pos h2]; exact Or.inl rfl
  rw [if_neg h2]
  by_cases h3 : string_find_first_of s "0123456789".toList 0 = none
  · rw [if_pos h3]; exact Or.inl rfl
  rw [if_neg h3]
  by_cases h4 : (".+-f".toList.any (fun ch => MoreThanOne s ch)) = true
  · rw [if_pos h4]; exact Or.inl rfl
  rw [if_neg h4]
  by_cases h5 : '-' ∈ s ∧ s.head? ≠ some '-'
  · rw [if_pos h5]; exact Or.inl rfl
  rw [if_neg h5]
  by_cases h6 : '+' ∈ s ∧ s.head? ≠ some '+'
  · rw [if_pos h6]; exact Or.inl rfl
  rw [if_neg h6]
  by_cases h7 : 'f' ∈ s ∧ s.getLast? ≠ some 'f'
  · rw [if_pos h7]; exact Or.inl rfl
  rw [if_neg h7]
  exact Or.inr rfl

theorem head?_ne_of_not_mem (l : List Char) (c : Char) (h : c ∉ l) : l.head? ≠ some c := by
  intro e
  cases l with
  | nil => cases e
  | cons a t =>
    simp only [List.head?_cons, Option.some.injEq] at e
    exact h (e ▸ List.mem_cons_self _ _)

theorem accepted_layout (s : List Char) (hg : number_grammar s = true) :
    ∃ us suffix,
      (if '+' ∈ s then (if '-' ∈ s then 0 + 1 else 0) + 1 else (if '-' ∈ s then 0 + 1 else 0))
        = us ∧
      (if '-' ∈ s then (-1 : Int) else 1) = number_sign s ∧
      (if 'f' ∈ s then s.length - 1 else s.length) = us + (strip_f (strip_sign s)).length ∧
      s.drop us = strip_f (strip_sign s) ++ suffix ∧ (suffix = [] ∨ suffix = ['f']) ∧
      us + (strip_f (strip_sign s)).length ≤ s.length := by
  obtain ⟨hB, _, _⟩ := (number_grammar_iff s).mp hg
  have hsc := strip_sign_cases s
  have hfc := strip_f_cases (strip_sign s)
  generalize strip_sign s = S at hB hsc hfc ⊢
  generalize strip_f S = B at hB hfc ⊢
  have hp : '+' ∉ B := by
    intro h
    rcases hB _ h with h | h
    · exact not_digit_special.1 h
    · exact absurd h (by decide)
  have hm : '-' ∉ B := by
    intro h
    rcases hB _ h with h | h
    · exact not_digit_special.2.1 h
    · exact absurd h (by decide)
  have hf : 'f' ∉ B := by
    intro h
    rcases hB _ h with h | h
    · exact not_digit_special.2.2.1 h
    · exact absurd h (by decide)
  have hS : ∃ suffix, S = B ++ suffix ∧ (suffix = [] ∨ suffix = ['f']) := by
    rcases hfc with ⟨_, e⟩ | e
    · exact ⟨[], by rw [List.append_nil, e], Or.inl rfl⟩
    · exact ⟨['f'], e, Or.inr rfl⟩
  obtain ⟨suffix, rfl, hsuf⟩ := hS
  have hh : ∀ suf : List Char, (suf = [] ∨ suf = ['f']) → (B ++ suf).head? ≠ some '-' := by
    intro suf hs
    apply head?_ne_of_not_mem
    rcases hs with rfl | rfl <;> simp [hm]
  rcases hsc with rfl | rfl | rfl
  · rcases hsuf with rfl | rfl
    · refine ⟨0, [], ?_, ?_, ?_, rfl, Or.inl rfl, ?_⟩
      · simp [hp, hm]
      · rw [if_neg (by simp [hm]), number_sign, if_neg (hh [] (Or.inl rfl))]
      · simp [hf]
      · simp
    · refine ⟨0, ['f'], ?_, ?_, ?_, rfl, Or.inr rfl, ?_⟩
      · simp [hp, hm]
      · rw [if_neg (by simp [hm]), number_sign, if_neg (hh ['f'] (Or.inr rfl))]
      · simp
      · simp
  · rcases hsuf with rfl | rfl
    · refine ⟨1, [], ?_, ?_, ?_, rfl, Or.inl rfl, ?_⟩
      · simp [hp, hm]
      · simp [hm, number_sign]
      · simp [hf]; omega
      · simp; omega
    · refine ⟨1, ['f'], ?_, ?_, ?_, rfl, Or.inr rfl, ?_⟩
      · simp [hp, hm]
      · simp [hm, number_sign]
      · simp; omega
      · simp; omega
  · rcases hsuf with rfl | rfl
    · refine ⟨1, [], ?_, ?_, ?_, rfl, Or.inl rfl, ?_⟩
      · simp [hp, hm]
      · simp [number_sign]
      · simp [hf]; omega
      · simp; omega
    · refine ⟨1, ['f'], ?_, ?_, ?_, rfl, Or.inr rfl, ?_⟩
      · simp [hp, hm]
      · simp [number_sign]
      · simp; omega
      · simp; omega

theorem ParseNumber_i_result_eq (s : List Char) (i_result : Int) (d_result : Option ℚ)
    (hg : number_grammar s = true) :
    (ParseNumber s i_result d_result).i_result
      = S32_wrap (number_sign s * (decimal_value (integer_digit_run s) : Int)) := by
  have hok : (ParseNumber s i_result d_result).ok = true :=
    (ParseNumber_ok_iff s i_result d_result).mpr ((ParseNumber_checks_iff_grammar s).mpr hg)
  obtain ⟨hB, _, _⟩ := (number_grammar_iff s).mp hg
  obtain ⟨us, suffix, h1, h2, h3, h4, h5, h6⟩ := accepted_layout s hg
  rcases ParseNumber_cases s i_result d_result with hc | hc
  · rw [hc] at hok; cases hok
  rw [hc, ParseNumber_value_i_result, h1, h2, h3]
  unfold integer_digit_run
  generalize strip_f (strip_sign s) = B at hB h3 h4 h6 ⊢
  have hip : ∀ c ∈ B.takeWhile (fun c => c != '.'), c ∈ "0123456789".toList := by
    intro c hc
    have hne : c ≠ '.' := by simpa using List.mem_takeWhile_imp hc
    rcases hB c ((List.takeWhile_sublist _).subset hc) with h | h
    · exact h
    · exact absurd h hne
  have hle : (B.takeWhile (fun c => c != '.')).length ≤ B.length :=
    (List.takeWhile_sublist _).length_le
  have hIE : (match string_find s '.' us with | some d => d | none => us + B.length)
      = us + (B.takeWhile (fun c => c != '.')).length := by
    unfold string_find
    rw [h4, find_from_eq]
    by_cases hdot : '.' ∈ B
    · rw [if_pos (List.mem_append_left _ hdot), takeWhile_append_of_mem B suffix '.' hdot]
    · have hn : '.' ∉ B ++ suffix := by
        rcases h5 with rfl | rfl <;> simp [hdot]
      rw [if_neg hn, takeWhile_of_not_mem B '.' hdot]
  have htake : (s.drop us).take (B.takeWhile (fun c => c != '.')).length
      = B.takeWhile (fun c => c != '.') := by
    rw [h4]
    have e : B ++ suffix = B.takeWhile (fun c => c != '.')
        ++ (B.dropWhile (fun c => c != '.') ++ suffix) := by
      rw [← List.append_assoc, List.takeWhile_append_dropWhile]
    rw [e, List.take_left]
  rw [hIE, Nat.add_sub_cancel_left]
  have hlen : us + (B.takeWhile (fun c => c != '.')).length ≤ s.length := by omega
  obtain ⟨k1, k2, k3, k4⟩ :=
    ParseNumber_skip_leading_spec s (B.takeWhile (fun c => c != '.')).length us hlen
  rw [htake] at k3 k4
  have hm := ParseNumber_int_loop_modEq s
    (us + (B.takeWhile (fun c => c != '.')).length
      - ParseNumber_skip_leading s (B.takeWhile (fun c => c != '.')).length us)
    (ParseNumber_skip_leading s (B.takeWhile (fun c => c != '.')).length us) 0
    (by omega) (fun c hc => hip c (k4 c hc))
  rw [k3, zero_add] at hm
  apply S32_wrap_congr
  rw [mul_comm (number_sign s)]
  exact hm.mul_right _

theorem decimal_value_dropWhile_zero (l : List Char) :
    decimal_value (l.dropWhile (fun c => c == '0')) = decimal_value l := by
  induction l with
  | nil => rfl
  | cons c t ih =>
    by_cases hc : c = '0'
    · subst hc
      rw [List.dropWhile_cons, if_pos (by rfl), ih, decimal_value_zero_cons]
    · have hb : (c == '0') = false := by simpa using hc
      rw [List.dropWhile_cons, hb]
      rfl

/-- C21. For every text `ParseNumber` accepts, whatever the output slots hold and whether or
not a fractional slot is passed, the integer result equals `sign * N` reduced to a signed
32-bit value by wrap-around (mod `2 ^ 32`), where `N` is the decimal value of the digit run
between the optional sign and the first `.` (or the trailing `f`, or the end of the text),
`N = 0` when that run is empty, and `sign` is `-1` exactly when the text starts with `-`.
Leading zeros of the run do not change the result and the fractional digits do not enter it:
`42` gives 42, `007` gives 7 and `-3.5f` gives -3. -/
theorem ParseNumber_integer_result (s : List Char) (i_result : Int) (d_result : Option ℚ)
    (h : (ParseNumber s i_result d_result).ok = true) :
    (ParseNumber s i_result d_result).i_result
      = S32_wrap (number_sign s * (decimal_value (integer_digit_run s) : Int)) ∧
    (ParseNumber s i_result d_result).i_result
      = S32_wrap (number_sign s
          * (decimal_value ((integer_digit_run s).dropWhile (fun c => c == '0')) : Int)) ∧
    (integer_digit_run s = [] → (ParseNumber s i_result d_result).i_result = 0) ∧
    (ParseNumber "42".toList i_result d_result).i_result = 42 ∧
    (ParseNumber "007".toList i_result d_result).i_result = 7 ∧
    (ParseNumber "-3.5f".toList i_result d_result).i_result = -3 := by
  have hg : number_grammar s = true :=
    (ParseNumber_checks_iff_grammar s).mp ((ParseNumber_ok_iff s i_result d_result).mp h)
  have hmain := ParseNumber_i_result_eq s i_result d_result hg
  refine ⟨hmain, ?_, ?_, ?_, ?_, ?_⟩
  · rw [decimal_value_dropWhile_zero]; exact hmain
  · intro he
    rw [hmain, he]
    unfold number_sign
    split_ifs <;> decide
  · rw [ParseNumber_i_result_eq _ _ _ (by decide)]; decide
  · rw [ParseNumber_i_result_eq _ _ _ (by decide)]; decide
  · rw [ParseNumber_i_result_eq _ _ _ (by decide)]; decide

theorem ParseNumber_integer_result_witness :
    (ParseNumber "-3.5f".toList 0 none).ok = true ∧
    (ParseNumber "-3.5f".toList 0 none).i_result
      = S32_wrap (number_sign "-3.5f".toList
          * (decimal_value (integer_digit_run "-3.5f".toList) : Int)) ∧
    (ParseNumber "-3.5f".toList 0 none).i_result
      = S32_wrap (number_sign "-3.5f".toList
          * (decimal_value ((integer_digit_run "-3.5f".toList).dropWhile
              (fun c => c == '0')) : Int)) ∧
    (integer_digit_run "-3.5f".toList = [] → (ParseNumber "-3.5f".toList 0 none).i_result = 0) ∧
    (ParseNumber "42".toList 0 none).i_result = 42 ∧
    (ParseNumber "007".toList 0 none).i_result = 7 ∧
    (ParseNumber "-3.5f".toList 0 none).i_result = -3 :=
  ⟨by decide, ParseNumber_integer_result "-3.5f".toList 0 none (by decide)⟩

/-! ## Lexers: failure leaves the outputs alone; the assertion of the hexadecimal lexer -/

theorem ParseHex_paranoic_assertion_eq (s : List Char) :
    ParseHex_paranoic_assertion s = if hex_grammar s then some false else none := by
  match s with
  | [] => rfl
  | [a] =>
    rw [hex_grammar_short [a] (by simp)]
    unfold ParseHex_paranoic_assertion
    simp
  | [a, b] =>
    rw [hex_grammar_short [a, b] (by simp)]
    unfold ParseHex_paranoic_assertion
    simp
  | a :: b :: c :: t =>
    have hlen : ¬ (a :: b :: c :: t).length < 3 := by simp
    have h0 : string_at (a :: b :: c :: t) 0 = a := rfl
    have h1 : string_at (a :: b :: c :: t) 1 = b := rfl
    have hfind : string_find_first_not_of (a :: b :: c :: t) "0123456789ABCDEFabcdef".toList
        (0 + 1 + 1) ≠ none ↔ ¬ ∀ x ∈ c :: t, x ∈ "0123456789ABCDEFabcdef".toList := by
      unfold string_find_first_not_of
      rw [Ne, find_first_not_of_from_eq_none]
      rfl
    have hof : (none = string_find_first_of (a :: b :: c :: t)
        "0123456789ABCDEFabcdef".toList (0 + 1 + 1)) ↔
        ∀ x ∈ c :: t, x ∉ "0123456789ABCDEFabcdef".toList := by
      unfold string_find_first_of
      rw [eq_comm, find_first_of_from_eq_none]
      rfl
    have hg := hex_grammar_iff (a :: b :: c :: t)
    simp only [List.length_cons, List.take_succ_cons, List.take_zero, List.drop_succ_cons,
      List.drop_zero, List.cons.injEq, and_true] at hg
    unfold ParseHex_paranoic_assertion
    simp only [if_neg hlen, h0, h1]
    by_cases ha : a = '0'
    · rw [if_pos ha]
      by_cases hb : b = 'x' ∨ b = 'X'
      · rw [if_neg (not_not.mpr hb)]
        by_cases hd : ∀ x ∈ c :: t, x ∈ "0123456789ABCDEFabcdef".toList
        · rw [if_neg (fun h => hfind.mp h hd)]
          have hno : ¬ (none = string_find_first_of (a :: b :: c :: t)
              "0123456789ABCDEFabcdef".toList (0 + 1 + 1)) := by
            intro h
            exact hof.mp h c (List.mem_cons_self _ _) (hd c (List.mem_cons_self _ _))
          have hgt : hex_grammar (a :: b :: c :: t) = true :=
            hg.mpr ⟨by omega, by rcases hb with h | h <;> simp [ha, h], hd⟩
          rw [hgt, decide_eq_false hno]
          rfl
        · rw [if_pos (hfind.mpr hd)]
          have hgf : hex_grammar (a :: b :: c :: t) = false := by
            rw [← Bool.not_eq_true]
            exact fun h => hd (hg.mp h).2.2
          rw [hgf]; rfl
      · rw [if_pos hb]
        have hgf : hex_grammar (a :: b :: c :: t) = false := by
          rw [← Bool.not_eq_true]
          intro h
          rcases (hg.mp h).2.1 with h | h
          · exact hb (Or.inl h.2)
          · exact hb (Or.inr h.2)
        rw [hgf]; rfl
    · rw [if_neg ha]
      have hgf : hex_grammar (a :: b :: c :: t) = false := by
        rw [← Bool.not_eq_true]
        intro h
        rcases (hg.mp h).2.1 with h | h <;> exact ha h.1
      rw [hgf]; rfl

/-- C37, on the code: the paranoic assertion of `ParseHex` after the invalid-character test
is reached exactly for the texts made of `0x` or `0X` and one or more hexadecimal digits, and
for every one of them the asserted expression `npos == s.find_first_of(hexdigits, 2)` is
false (a hexadecimal digit stands at index 2); it is never reached with the value true.  For
`0x1F` it is reached and false. -/
theorem ParseHex_paranoic_assertion_fails (s : List Char) :
    ParseHex_paranoic_assertion s ≠ some true ∧
    (ParseHex_paranoic_assertion s = some false ↔
      (3 ≤ s.length ∧ (s.take 2 = ['0', 'x'] ∨ s.take 2 = ['0', 'X']) ∧
        ∀ c ∈ s.drop 2, c ∈ "0123456789ABCDEFabcdef".toList)) ∧
    (ParseHex_paranoic_assertion s = none ↔ hex_grammar s = false) ∧
    ParseHex_paranoic_assertion "0x1F".toList = some false ∧
    string_find_first_of "0x1F".toList "0123456789ABCDEFabcdef".toList 2 = some 2 := by
  rw [ParseHex_paranoic_assertion_eq, ← hex_grammar_iff]
  refine ⟨?_, ?_, ?_, by decide, by decide⟩
  · cases hex_grammar s <;> simp
  · cases hex_grammar s <;> simp
  · cases hex_grammar s <;> simp

/-- C39. The lexer is atomic on failure: whenever `ParseNumber`, `ParseHex` or `ParseBoolean`
returns false, the output slots (`i_result` and the variable behind `d_result`, `h_result`,
`b_result`) hold the values they held before the call.  `ParseHex` does return false on every
text outside its grammar, with any bound on its loop. -/
theorem lexers_atomic_on_failure (s : List Char) (i_result : Int) (d_result : Option ℚ)
    (h_result : Nat) (b_result : Bool) :
    ((ParseNumber s i_result d_result).ok = false →
      (ParseNumber s i_result d_result).i_result = i_result ∧
      (ParseNumber s i_result d_result).d_result = d_result) ∧
    (∀ fuel r, ParseHex fuel s h_result = some r → r.ok = false → r.h_result = h_result) ∧
    (hex_grammar s = false → ∀ fuel, ParseHex fuel s h_result = some ⟨false, h_result⟩) ∧
    ((ParseBoolean s b_result).ok = false → (ParseBoolean s b_result).b_result = b_result) := by
  refine ⟨?_, ?_, ?_, ?_⟩
  · intro h
    rcases ParseNumber_cases s i_result d_result with hc | hc
    · rw [hc]; exact ⟨rfl, rfl⟩
    · rw [hc, ParseNumber_value_ok] at h
      cases h
  · intro fuel r hr _
    rw [ParseHex_eq] at hr
    cases hg : hex_grammar s
    · rw [hg] at hr
      simp only [Bool.false_eq_true, if_false, Option.some.injEq] at hr
      rw [← hr]
    · rw [hg] at hr
      simp at hr
  · intro hg fuel
    rw [ParseHex_eq, hg]
    rfl
  · rw [ParseBoolean_eq]
    split_ifs
    · intro h; exact absurd h (by decide)
    · intro h; exact absurd h (by decide)
    · intro _; rfl

theorem lexers_atomic_on_failure_witness :
    (ParseNumber "1.2.3".toList 7 (some 5)).ok = false ∧
    (ParseNumber "1.2.3".toList 7 (some 5)).i_result = 7 ∧
    (ParseNumber "1.2.3".toList 7 (some 5)).d_result = some 5 :=
  ⟨by decide, (lexers_atomic_on_failure "1.2.3".toList 7 (some 5) 0 false).1 (by decide)⟩

/-! ## Number lexer: the assertions -/

theorem length_of_digit_between (s : List Char) (hd : ∃ c ∈ s, c ∈ "0123456789".toList) :
    0 < s.length ∧
    (∀ c0, c0 ∉ "0123456789".toList → s.head? = some c0 → 1 < s.length) ∧
    (∀ c1, c1 ∉ "0123456789".toList → s.getLast? = some c1 → 1 < s.length) ∧
    (∀ c0 c1, c0 ∉ "0123456789".toList → c1 ∉ "0123456789".toList →
      s.head? = some c0 → s.getLast? = some c1 → 2 < s.length) := by
  obtain ⟨c, hc, hdig⟩ := hd
  match s, hc with
  | [a], hc =>
    have hca : c = a := by simpa using hc
    subst hca
    refine ⟨by simp, ?_, ?_, ?_⟩
    · intro c0 h0 hh
      simp only [List.head?_cons, Option.some.injEq] at hh
      exact absurd (hh ▸ hdig) h0
    · intro c1 h1 hl
      simp only [List.getLast?_singleton, Option.some.injEq] at hl
      exact absurd (hl ▸ hdig) h1
    · intro c0 _ h0 _ hh _
      simp only [List.head?_cons, Option.some.injEq] at hh
      exact absurd (hh ▸ hdig) h0
  | [a, b], hc =>
    refine ⟨by simp, fun _ _ _ => by simp, fun _ _ _ => by simp, ?_⟩
    intro c0 c1 h0 h1 hh hl
    simp only [List.head?_cons, Option.some.injEq] at hh
    have hl2 : b = c1 := by simpa using hl
    simp only [List.mem_cons, List.not_mem_nil, or_false] at hc
    rcases hc with rfl | rfl
    · exact absurd (hh ▸ hdig) h0
    · exact absurd (hl2 ▸ hdig) h1
  | a :: b :: x :: t, _ =>
    exact ⟨by simp, fun _ _ _ => by simp, fun _ _ _ => by simp, fun _ _ _ _ _ _ => by simp⟩

/-- C36. Every assertion `unsigned_start < len` of `ParseNumber` (after the `-` test, after
the `+` test, after the trailing `f` is stripped, and the final paranoic one) holds whenever
it is reached; and on every text `ParseNumber` accepts the final one is reached.  On `-3.5f`
three assertions are reached. -/
theorem ParseNumber_assertions_hold (s : List Char) :
    (∀ v ∈ ParseNumber_assertions s, v = true) ∧
    (∀ i_result d_result, (ParseNumber s i_result d_result).ok = true →
      ParseNumber_assertions s ≠ []) ∧
    ParseNumber_assertions "-3.5f".toList = [true, true, true] ∧
    ParseNumber_assertions "+7".toList = [true, true] ∧
    ParseNumber_assertions "42".toList = [true] := by
  refine ⟨?_, ?_, by decide, by decide, by decide⟩
  · have hD : string_find_first_of s "0123456789".toList 0 = none ↔
        ¬ ∃ c ∈ s, c ∈ "0123456789".toList := by
      unfold string_find_first_of
      rw [List.drop_zero, find_first_of_from_eq_none]
      push_neg
      rfl
    unfold ParseNumber_assertions
    simp only [hD, string_find_ne_none]
    by_cases h1 : s.length = 0
    · rw [if_pos h1]; simp
    rw [if_neg h1]
    by_cases h2 : ¬string_find_first_not_of s "0123456789.-+f".toList 0 = none
    · rw [if_pos h2]; simp
    rw [if_neg h2]
    by_cases h3 : ∃ c ∈ s, c ∈ "0123456789".toList
    swap
    · rw [if_pos h3]; simp
    rw [if_neg (not_not.mpr h3)]
    by_cases h4 : (".+-f".toList.any (fun ch => MoreThanOne s ch)) = true
    · rw [if_pos h4]; simp
    rw [if_neg h4]
    obtain ⟨k0, k1, k2, k3⟩ := length_of_digit_between s h3
    have nd := not_digit_special
    by_cases h5 : '-' ∈ s ∧ s.head? ≠ some '-'
    · rw [if_pos h5]; simp
    rw [if_neg h5]
    by_cases h6 : '+' ∈ s ∧ s.head? ≠ some '+'
    · rw [if_pos h6]
      by_cases hm : '-' ∈ s
      · have hh : s.head? = some '-' := by
          by_contra hc; exact h5 ⟨hm, hc⟩
        have := k1 '-' nd.2.1 hh
        simp [hm]
        omega
      · simp [hm]
    rw [if_neg h6]
    by_cases h7 : 'f' ∈ s ∧ s.getLast? ≠ some 'f'
    · rw [if_pos h7]
      by_cases hm : '-' ∈ s
      · have hh : s.head? = some '-' := by
          by_contra hc; exact h5 ⟨hm, hc⟩
        have hp : '+' ∉ s := by
          intro hp
          have hh2 : s.head? = some '+' := by
            by_contra hc; exact h6 ⟨hp, hc⟩
          rw [hh] at hh2
          exact absurd hh2 (by decide)
        have := k1 '-' nd.2.1 hh
        simp [hm, hp]
        omega
      · by_cases hp : '+' ∈ s
        · have hh2 : s.head? = some '+' := by
            by_contra hc; exact h6 ⟨hp, hc⟩
          have := k1 '+' nd.1 hh2
          simp [hm, hp]
          omega
        · simp [hm, hp]
    rw [if_neg h7]
    by_cases hm : '-' ∈ s
    · have hh : s.head? = some '-' := by
        by_contra hc; exact h5 ⟨hm, hc⟩
      have hp : '+' ∉ s := by
        intro hp
        have hh2 : s.head? = some '+' := by
          by_contra hc; exact h6 ⟨hp, hc⟩
        rw [hh] at hh2
        exact absurd hh2 (by decide)
      have e1 := k1 '-' nd.2.1 hh
      by_cases hf : 'f' ∈ s
      · have hl : s.getLast? = some 'f' := by
          by_contra hc; exact h7 ⟨hf, hc⟩
        have e2 := k3 '-' 'f' nd.2.1 nd.2.2.1 hh hl
        simp [hm, hp, hf]
        omega
      · simp [hm, hp, hf]
        omega
    · by_cases hp : '+' ∈ s
      · have hh2 : s.head? = some '+' := by
          by_contra hc; exact h6 ⟨hp, hc⟩
        have e1 := k1 '+' nd.1 hh2
        by_cases hf : 'f' ∈ s
        · have hl : s.getLast? = some 'f' := by
            by_contra hc; exact h7 ⟨hf, hc⟩
          have e2 := k3 '+' 'f' nd.1 nd.2.2.1 hh2 hl
          simp [hm, hp, hf]
          omega
        · simp [hm, hp, hf]
          omega
      · by_cases hf : 'f' ∈ s
        · have hl : s.getLast? = some 'f' := by
            by_contra hc; exact h7 ⟨hf, hc⟩
          have e2 := k2 'f' nd.2.2.1 hl
          simp [hm, hp, hf]
          omega
        · simp [hm, hp, hf]
          omega
  · intro i_result d_result hok
    have hchk := (ParseNumber_ok_iff s i_result d_result).mp hok
    obtain ⟨c1, c2, c3, c4, c5, c6, c7⟩ := hchk
    have hA : ¬ (string_find_first_not_of s "0123456789.-+f".toList 0 ≠ none) := by
      unfold string_find_first_not_of
      rw [List.drop_zero, Ne, find_first_not_of_from_eq_none]
      exact not_not.mpr c2
    have hD : ¬ (string_find_first_of s "0123456789".toList 0 = none) := by
      unfold string_find_first_of
      rw [List.drop_zero, find_first_of_from_eq_none]
      push_neg
      exact c3
    have hM : ¬ ((".+-f".toList.any (fun ch => MoreThanOne s ch)) = true) := by
      have e : ".+-f".toList = ['.', '+', '-', 'f'] := rfl
      rw [e]
      simp only [List.any_cons, List.any_nil, MoreThanOne_eq, Bool.or_false, Bool.or_eq_true,
        decide_eq_true_eq]
      omega
    have hl : ¬ s.length = 0 := fun h => c1 (List.length_eq_zero.mp h)
    unfold ParseNumber_assertions
    simp only [if_neg hl, if_neg hA, if_neg hD, if_neg hM, string_find_ne_none]
    rw [if_neg (fun h => h.2 (c5 h.1)), if_neg (fun h => h.2 (c6 h.1)),
      if_neg (fun h => h.2 (c7 h.1))]
    simp

/-! ## Decoders: what the result depends on -/

theorem FromUtf8_scan_le (b0 : Nat) :
    ∀ fuel cOctets mask flag k m, cOctets < 4 →
      FromUtf8_scan b0 fuel cOctets mask flag = some (k, m) → k ≤ 4 := by
  intro fuel
  induction fuel with
  | zero => intro cOctets mask flag k m _ h; simp [FromUtf8_scan] at h
  | succ n ih =>
    intro cOctets mask flag k m hc h
    rw [FromUtf8_scan] at h
    by_cases hf : b0 &&& flag ≠ 0
    · rw [if_pos hf] at h
      by_cases h4 : cOctets + 1 = 4
      · simp only [if_pos h4, Option.some.injEq, Prod.mk.injEq] at h
        omega
      · simp only [if_neg h4] at h
        exact ih _ _ _ _ _ (by omega) h
    · rw [if_neg hf] at h
      simp only [Option.some.injEq, Prod.mk.injEq] at h
      omega

theorem FromUtf8_octets_le (b0 k m : Nat) (h : FromUtf8_octets b0 = some (k, m)) : k ≤ 4 := by
  unfold FromUtf8_octets at h
  by_cases hf : b0 &&& 0x80 ≠ 0
  · simp only [if_pos hf] at h
    exact FromUtf8_scan_le b0 _ _ _ _ _ _ (by omega) h
  · simp only [if_neg hf, Option.some.injEq, Prod.mk.injEq] at h
    omega

theorem FromUtf8_ok_of_four (hostLE : Bool) (err : ErrorState) (cp0 : Nat) (src : List Nat)
    (srcSize : Nat) (srb : Option Nat) (h : 4 ≤ srcSize) :
    ∃ r, FromUtf8 hostLE err cp0 (some src) srcSize srb = some r ∧
      r.code = ErrorCode.kERRC_NO := by
  obtain ⟨k, m, hkm⟩ := FromUtf8_octets_total (src.getD 0 0)
  have hk := FromUtf8_octets_le _ _ _ hkm
  have h0 : ¬ 0 = srcSize := by omega
  have h1 : ¬ k > srcSize := by omega
  simp only [FromUtf8, if_neg h0, hkm, if_neg h1]
  exact ⟨_, rfl, rfl⟩

theorem FromUtf16_ok_of_four (hostLE : Bool) (err : ErrorState) (cp0 : Nat) (src : List Nat)
    (srcSize : Nat) (srb : Option Nat) (e : EndianType) (h : 4 ≤ srcSize) :
    (FromUtf16 hostLE err cp0 (some src) srcSize srb e).code = ErrorCode.kERRC_NO := by
  by_cases hs : utf16_unit_value hostLE e (src.getD 0 0) (src.getD 1 0) &&& 0xFC00 = 0xD800
  · rw [FromUtf16_two_units hostLE err cp0 src srcSize srb e h hs]
  · rw [FromUtf16_one_unit hostLE err cp0 src srcSize srb e (by omega) hs]

theorem FromUtf8_fill_congr (hostLE : Bool) (t t' : List Nat) (b0 : Nat)
    (h : ∀ i, t'.getD i 0 % 64 = t.getD i 0 % 64) :
    ∀ n i cp, FromUtf8_fill hostLE (b0 :: t') n (i + 1) cp
      = FromUtf8_fill hostLE (b0 :: t) n (i + 1) cp := by
  intro n
  induction n with
  | zero => intro i cp; rfl
  | succ n ih =>
    intro i cp
    rw [FromUtf8_fill, FromUtf8_fill]
    have e1 : (b0 :: t').getD (i + 1) 0 = t'.getD i 0 := rfl
    have e2 : (b0 :: t).getD (i + 1) 0 = t.getD i 0 := rfl
    simp only [e1, e2, and_63, h i]
    exact ih (i + 1) _

theorem getD_mod_of_map_eq :
    ∀ (t t' : List Nat), t'.map (fun b => b % 64) = t.map (fun b => b % 64) →
      ∀ i, t'.getD i 0 % 64 = t.getD i 0 % 64 := by
  intro t
  induction t with
  | nil =>
    intro t' h i
    cases t' with
    | nil => rfl
    | cons a l => simp at h
  | cons a l ih =>
    intro t' h i
    cases t' with
    | nil => simp at h
    | cons a' l' =>
      simp only [List.map_cons, List.cons.injEq] at h
      cases i with
      | zero => exact h.1
      | succ j => exact ih l' h.2 j

/-- C31, on the code: the code point `FromUtf8` stores depends on what the caller's `cp` held
before the call.  `setByte(cp, 0, ...)` replaces the low byte only, so for a one-octet source
byte `b0 < 0x80` the stored value is the old `cp` with its low byte replaced by `b0`: with
the source `A` (`0x41`) a `cp` holding 0 becomes `0x41` and a `cp` holding `0x100` becomes
`0x141`, on either host. -/
theorem FromUtf8_keeps_upper_bytes_of_cp (hostLE : Bool) (err : ErrorState) :
    (∀ cp0 b0 rest srcSize srb, cp0 < 4294967296 → b0 < 128 → 1 ≤ srcSize →
      (FromUtf8 hostLE err cp0 (some (b0 :: rest)) srcSize srb).map
          (fun r => (r.code, r.cp))
        = some (ErrorCode.kERRC_NO, cp0 / 256 * 256 + b0)) ∧
    (FromUtf8 hostLE err 0 (some [0x41]) 1 none).map (fun r => (r.code, r.cp))
      = some (ErrorCode.kERRC_NO, 0x41) ∧
    (FromUtf8 hostLE err 0x100 (some [0x41]) 1 none).map (fun r => (r.code, r.cp))
      = some (ErrorCode.kERRC_NO, 0x141) := by
  have key : ∀ cp0 b0 rest srcSize srb, cp0 < 4294967296 → b0 < 128 → 1 ≤ srcSize →
      (FromUtf8 hostLE err cp0 (some (b0 :: rest)) srcSize srb).map
          (fun r => (r.code, r.cp))
        = some (ErrorCode.kERRC_NO, cp0 / 256 * 256 + b0) := by
    intro cp0 b0 rest srcSize srb hcp hb hsz
    have hg : (b0 :: rest).getD 0 0 = b0 := rfl
    have hc : utf8_lead_count b0 = 1 := by
      unfold utf8_lead_count; rw [if_pos (by omega)]
    have hm : utf8_lead_mask b0 = 0x7F := by
      unfold utf8_lead_mask; rw [if_pos (by omega)]
    rw [FromUtf8_enough hostLE err cp0 (b0 :: rest) srcSize srb (by rw [hg]; omega)
      (by rw [hg, hc]; exact hsz)]
    simp only [hg, hc, hm, Option.map_some', Nat.sub_self, FromUtf8_fill, and_127]
    rw [setByte_four_zero hostLE cp0 _ hcp]
    have e : b0 % 128 % 256 = b0 := by omega
    rw [e]
  refine ⟨key, ?_, ?_⟩
  · exact key 0 0x41 [] 1 none (by decide) (by decide) (by decide)
  · exact key 0x100 0x41 [] 1 none (by decide) (by decide) (by decide)

/-- C32. Only the low 6 bits of a continuation byte contribute to a UTF-8 decode: two sources
with the same lead byte whose following bytes agree in their low 6 bits (they differ at most
in the top two bits of bytes after the lead byte) give the same call of `FromUtf8`: the
same result code, the same count of bytes read, the same code point and the same error
sink; and the call returns. -/
theorem FromUtf8_ignores_continuation_tags (hostLE : Bool) (err : ErrorState) (cp0 b0 : Nat)
    (t t' : List Nat) (srcSize : Nat) (srb : Option Nat)
    (h : t'.map (fun b => b % 64) = t.map (fun b => b % 64)) :
    FromUtf8 hostLE err cp0 (some (b0 :: t')) srcSize srb
      = FromUtf8 hostLE err cp0 (some (b0 :: t)) srcSize srb ∧
    ∃ r, FromUtf8 hostLE err cp0 (some (b0 :: t)) srcSize srb = some r := by
  constructor
  · have hc := FromUtf8_fill_congr hostLE t t' b0 (getD_mod_of_map_eq t t' h)
    have e1 : (b0 :: t').getD 0 0 = b0 := rfl
    have e2 : (b0 :: t).getD 0 0 = b0 := rfl
    unfold FromUtf8
    simp only [e1, e2]
    by_cases h0 : 0 = srcSize
    · simp only [if_pos h0]
    · simp only [if_neg h0]
      obtain ⟨k, m, hkm⟩ := FromUtf8_octets_total b0
      rw [hkm]
      simp only []
      by_cases hk : k > srcSize
      · simp only [if_pos hk]
      · simp only [if_neg hk]
        rw [hc (k - 1) 0]
  · obtain ⟨r, hr, _⟩ := FromUtf8_sink hostLE err cp0 (some (b0 :: t)) srcSize srb
    exact ⟨r, hr⟩

theorem FromUtf8_ignores_continuation_tags_witness :
    [0x02, 0xEC].map (fun b => b % 64) = [0x82, 0xAC].map (fun b => b % 64) ∧
    FromUtf8 true ⟨ErrorInfo.ctor, []⟩ 0 (some (0xE2 :: [0x02, 0xEC])) 3 (some 0)
      = FromUtf8 true ⟨ErrorInfo.ctor, []⟩ 0 (some (0xE2 :: [0x82, 0xAC])) 3 (some 0) ∧
    ∃ r, FromUtf8 true ⟨ErrorInfo.ctor, []⟩ 0 (some (0xE2 :: [0x82, 0xAC])) 3 (some 0)
      = some r :=
  ⟨by decide, FromUtf8_ignores_continuation_tags true ⟨ErrorInfo.ctor, []⟩ 0 0xE2
    [0x82, 0xAC] [0x02, 0xEC] 3 (some 0) (by decide)⟩

/-- C33. The decoders are lenient: `FromUtf8` and `FromUtf16` never return
`kERRC_MALFORMED_DATA`, and for every non-null source of at least 4 bytes, whatever its
content, both return `kERRC_NO`; so they do for a lone continuation byte `0x80` and for a
high surrogate followed by a unit that is not a low surrogate. -/
theorem decoders_lenient (hostLE : Bool) (err : ErrorState) (cp0 : Nat)
    (srcBuf : Option (List Nat)) (srcSize : Nat) (srb : Option Nat) (e : EndianType) :
    (∃ r, FromUtf8 hostLE err cp0 srcBuf srcSize srb = some r ∧
      r.code ≠ ErrorCode.kERRC_MALFORMED_DATA ∧
      (srcBuf ≠ none → 4 ≤ srcSize → r.code = ErrorCode.kERRC_NO)) ∧
    (FromUtf16 hostLE err cp0 srcBuf srcSize srb e).code ≠ ErrorCode.kERRC_MALFORMED_DATA ∧
    (srcBuf ≠ none → 4 ≤ srcSize →
      (FromUtf16 hostLE err cp0 srcBuf srcSize srb e).code = ErrorCode.kERRC_NO) ∧
    (FromUtf8 hostLE ⟨ErrorInfo.ctor, []⟩ 0 (some [0x80, 0x41, 0x42, 0x43]) 4 none).map
        (fun r => (r.code, r.cp)) = some (ErrorCode.kERRC_NO, 0) ∧
    (FromUtf16 true ⟨ErrorInfo.ctor, []⟩ 0 (some [0x00, 0xD8, 0x41, 0x00]) 4 none
        .kLittleEndian).code = ErrorCode.kERRC_NO := by
  refine ⟨?_, ?_, ?_, by cases hostLE <;> decide, by decide⟩
  · obtain ⟨r, hr, hs⟩ := FromUtf8_sink hostLE err cp0 srcBuf srcSize srb
    refine ⟨r, hr, ?_, ?_⟩
    · rcases hs with ⟨h, _⟩ | ⟨rec, _, h2, h3⟩
      · rw [h]; decide
      · rw [← h2]
        rcases h3 with ⟨h, _⟩ | ⟨h | h | h, _⟩ <;> rw [h] <;> decide
    · intro hne h4
      cases srcBuf with
      | none => exact absurd rfl hne
      | some src =>
        obtain ⟨r2, hr2, hc⟩ := FromUtf8_ok_of_four hostLE err cp0 src srcSize srb h4
        rw [hr] at hr2
        cases hr2
        exact hc
  · rcases FromUtf16_sink hostLE err cp0 srcBuf srcSize srb e with ⟨h, _⟩ | ⟨rec, _, h2, h3⟩
    · rw [h]; decide
    · rw [← h2]
      rcases h3 with ⟨h, _⟩ | ⟨h | h | h, _⟩ <;> rw [h] <;> decide
  · intro hne h4
    cases srcBuf with
    | none => exact absurd rfl hne
    | some src => exact FromUtf16_ok_of_four hostLE err cp0 src srcSize srb e h4

/-! ## UTF-16: surrogates and the range of decoded code points -/

theorem getD_lt_of_bytes (src : List Nat) (hb : ∀ b ∈ src, b < 256) (i : Nat) :
    src.getD i 0 < 256 := by
  by_cases hi : i < src.length
  · rw [List.getD_eq_getElem _ _ hi]
    exact hb _ (List.getElem_mem hi)
  · rw [List.getD_eq_default _ _ (by omega)]
    omega

theorem utf16_unit_value_lt (hostLE : Bool) (e : EndianType) (b0 b1 : Nat) (h0 : b0 < 256)
    (h1 : b1 < 256) : utf16_unit_value hostLE e b0 b1 < 65536 := by
  cases hostLE <;> cases e <;> simp [utf16_unit_value] <;> omega

theorem utf16_pair_range (s1 s2 : Nat) (h1 : 0xD800 ≤ s1) (h2 : s1 ≤ 0xDBFF) (h3 : s2 < 65536) :
    (0x10000 + (U32_ofInt ((s1 : Int) - 0xD800) <<< 10) % 2 ^ 32
        + U32_ofInt ((s2 : Int) - 0xDC00)) % 2 ^ 32 ≤ 0x111FFF ∧
    (0xDC00 ≤ s2 → s2 ≤ 0xDFFF →
      (0x10000 + (U32_ofInt ((s1 : Int) - 0xD800) <<< 10) % 2 ^ 32
        + U32_ofInt ((s2 : Int) - 0xDC00)) % 2 ^ 32 ≤ 0x10FFFF) := by
  have h := utf16_combine_eq s1 s2
  generalize (0x10000 + (U32_ofInt ((s1 : Int) - 0xD800) <<< 10) % 2 ^ 32
        + U32_ofInt ((s2 : Int) - 0xDC00)) % 2 ^ 32 = c at h ⊢
  constructor
  · omega
  · intro _ _
    omega

/-- C34. Surrogates are produced only for code points from `0x10000` on and are well formed:
for every `cp` in `[0x10000, 0x10FFFF]` `ToUtf16` (capacity at least 4) writes two units, read
in the byte order of the call, the first in `[0xD800, 0xDBFF]` and the second in
`[0xDC00, 0xDFFF]`, the ones `Utf16_makeSurrogates` returns with the flag true; for every
`cp < 0x10000` `ToUtf16` (capacity at least 2) writes exactly one unit, equal to `cp`, reports
the size 2 and leaves the bytes after it unchanged, and `Utf16_makeSurrogates` returns false
leaving both outputs untouched. -/
theorem ToUtf16_surrogates_well_formed (hostLE : Bool) (err : ErrorState) (buf : List Nat)
    (dstSize cp : Nat) (dsn : Option Nat) (e : EndianType) (s1 s2 : Nat) :
    (0x10000 ≤ cp → cp ≤ 0x10FFFF → 4 ≤ dstSize → dstSize ≤ buf.length →
      ∃ b0 b1 b2 b3,
        (ToUtf16 hostLE err (some buf) dstSize cp dsn e).code = ErrorCode.kERRC_NO ∧
        (ToUtf16 hostLE err (some buf) dstSize cp dsn e).dstBuf
          = some (b0 :: b1 :: b2 :: b3 :: buf.drop 4) ∧
        0xD800 ≤ utf16_unit_value hostLE e b0 b1 ∧ utf16_unit_value hostLE e b0 b1 ≤ 0xDBFF ∧
        0xDC00 ≤ utf16_unit_value hostLE e b2 b3 ∧ utf16_unit_value hostLE e b2 b3 ≤ 0xDFFF ∧
        Utf16_makeSurrogates s1 s2 cp
          = (true, utf16_unit_value hostLE e b0 b1, utf16_unit_value hostLE e b2 b3)) ∧
    (cp < 0x10000 → 2 ≤ dstSize → dstSize ≤ buf.length →
      ∃ b0 b1,
        (ToUtf16 hostLE err (some buf) dstSize cp dsn e).code = ErrorCode.kERRC_NO ∧
        (ToUtf16 hostLE err (some buf) dstSize cp dsn e).dstBuf
          = some (b0 :: b1 :: buf.drop 2) ∧
        (ToUtf16 hostLE err (some buf) dstSize cp dsn e).dstSizeNeeded
          = dsn.map (fun _ => 2) ∧
        utf16_unit_value hostLE e b0 b1 = cp) ∧
    (cp < 0x10000 → Utf16_makeSurrogates s1 s2 cp = (false, s1, s2)) ∧
    ((Utf16_makeSurrogates s1 s2 cp).1 = true ↔ 0x10000 ≤ cp) := by
  refine ⟨?_, ?_, ?_, ?_⟩
  · intro hlo hhi hcap hlen
    rw [ToUtf16_pair hostLE err buf dstSize cp dsn e hlo hcap hlen]
    have hhi1 := utf16_high_eq cp hhi
    have hlo1 := utf16_low_eq cp
    rw [shiftRight_10] at hhi1
    rw [and_1023] at hlo1
    obtain ⟨x, y, hxy, hv⟩ := utf16_unit_layout_pair hostLE e (utf16_high cp)
    obtain ⟨x2, y2, hxy2, hv2⟩ := utf16_unit_layout_pair hostLE e (utf16_low cp)
    have hv' := hv (by omega)
    have hv2' := hv2 (by omega)
    refine ⟨x, y, x2, y2, rfl, ?_, ?_, ?_, ?_, ?_, ?_⟩
    · simp only [hxy, hxy2]
      rfl
    · rw [hv']; omega
    · rw [hv']; omega
    · rw [hv2']; omega
    · rw [hv2']; omega
    · rw [hv', hv2']
      simp only [Utf16_makeSurrogates, if_pos hlo, utf16_high, utf16_low]
  · intro hcp hcap hlen
    rw [ToUtf16_bmp hostLE err buf dstSize cp dsn e hcp hcap hlen]
    obtain ⟨x, y, hxy, hv⟩ := utf16_unit_layout_pair hostLE e (cp % 65536)
    have hv' := hv (by omega)
    refine ⟨x, y, rfl, ?_, rfl, ?_⟩
    · simp only [hxy]
      rfl
    · rw [hv']; omega
  · intro hcp
    simp only [Utf16_makeSurrogates, if_neg (by omega : ¬ cp ≥ 0x10000)]
  · unfold Utf16_makeSurrogates
    by_cases h : cp ≥ 0x10000
    · rw [if_pos h]; exact ⟨fun _ => h, fun _ => rfl⟩
    · rw [if_neg h]
      refine ⟨fun hf => ?_, fun hc => absurd hc h⟩
      cases hf

theorem ToUtf16_surrogates_well_formed_witness :
    ∃ b0 b1 b2 b3,
      (ToUtf16 true ⟨ErrorInfo.ctor, []⟩ (some [0, 0, 0, 0]) 4 0x1F600 none
        .kBigEndian).code = ErrorCode.kERRC_NO ∧
      (ToUtf16 true ⟨ErrorInfo.ctor, []⟩ (some [0, 0, 0, 0]) 4 0x1F600 none
        .kBigEndian).dstBuf = some (b0 :: b1 :: b2 :: b3 :: [0, 0, 0, 0].drop 4) ∧
      0xD800 ≤ utf16_unit_value true .kBigEndian b0 b1 ∧
      utf16_unit_value true .kBigEndian b0 b1 ≤ 0xDBFF ∧
      0xDC00 ≤ utf16_unit_value true .kBigEndian b2 b3 ∧
      utf16_unit_value true .kBigEndian b2 b3 ≤ 0xDFFF ∧
      Utf16_makeSurrogates 0 0 0x1F600
        = (true, utf16_unit_value true .kBigEndian b0 b1,
            utf16_unit_value true .kBigEndian b2 b3) :=
  (ToUtf16_surrogates_well_formed true ⟨ErrorInfo.ctor, []⟩ [0, 0, 0, 0] 4 0x1F600 none
    .kBigEndian 0 0).1 (by decide) (by decide) (by decide) (by decide)

/-- C35, the claim as stated fails: `FromUtf16` does not look at the second unit of a pair,
so the source `FF DB FF FF` (little-endian units `0xDBFF`, `0xFFFF`) decodes successfully to
`0x111FFF`, which is above `0x10FFFF`. -/
theorem FromUtf16_stores_0x111FFF :
    (FromUtf16 true ⟨ErrorInfo.ctor, []⟩ 0 (some [0xFF, 0xDB, 0xFF, 0xFF]) 4 (some 0)
      .kLittleEndian).code = ErrorCode.kERRC_NO ∧
    (FromUtf16 true ⟨ErrorInfo.ctor, []⟩ 0 (some [0xFF, 0xDB, 0xFF, 0xFF]) 4 (some 0)
      .kLittleEndian).cp = 0x111FFF ∧
    ¬ (FromUtf16 true ⟨ErrorInfo.ctor, []⟩ 0 (some [0xFF, 0xDB, 0xFF, 0xFF]) 4 (some 0)
      .kLittleEndian).cp ≤ 0x10FFFF := by
  decide

/-- C35, amended. For every source of bytes and every byte order, the code point a successful
`FromUtf16` stores lies in `[0, 0x10FFFF]` whenever the first unit is not a high surrogate
(one unit is read) or the second unit is a low surrogate in `[0xDC00, 0xDFFF]`; with an
arbitrary second unit it lies in `[0, 0x111FFF]`. -/
theorem FromUtf16_code_point_range (hostLE : Bool) (err : ErrorState) (cp0 : Nat)
    (src : List Nat) (srcSize : Nat) (srb : Option Nat) (e : EndianType)
    (hb : ∀ b ∈ src, b < 256)
    (hok : (FromUtf16 hostLE err cp0 (some src) srcSize srb e).code = ErrorCode.kERRC_NO) :
    (FromUtf16 hostLE err cp0 (some src) srcSize srb e).cp ≤ 0x111FFF ∧
    ((¬ (0xD800 ≤ utf16_unit_value hostLE e (src.getD 0 0) (src.getD 1 0) ∧
          utf16_unit_value hostLE e (src.getD 0 0) (src.getD 1 0) ≤ 0xDBFF) ∨
        (0xDC00 ≤ utf16_unit_value hostLE e (src.getD 2 0) (src.getD 3 0) ∧
          utf16_unit_value hostLE e (src.getD 2 0) (src.getD 3 0) ≤ 0xDFFF)) →
      (FromUtf16 hostLE err cp0 (some src) srcSize srb e).cp ≤ 0x10FFFF) := by
  have hu1 := utf16_unit_value_lt hostLE e _ _ (getD_lt_of_bytes src hb 0)
    (getD_lt_of_bytes src hb 1)
  have hu2 := utf16_unit_value_lt hostLE e _ _ (getD_lt_of_bytes src hb 2)
    (getD_lt_of_bytes src hb 3)
  have hsur := high_surrogate_iff _ hu1
  by_cases h2 : srcSize < 2
  · rw [(FromUtf16_too_short hostLE err cp0 src srcSize srb e h2).1] at hok
    cases hok
  by_cases hs : utf16_unit_value hostLE e (src.getD 0 0) (src.getD 1 0) &&& 0xFC00 = 0xD800
  · by_cases h4 : srcSize < 4
    · rw [(FromUtf16_second_unit_missing hostLE err cp0 src srcSize srb e (by omega) h4
        hs).1] at hok
      cases hok
    · rw [FromUtf16_two_units hostLE err cp0 src srcSize srb e (by omega) hs]
      have hr := hsur.mp hs
      obtain ⟨r1, r2⟩ := utf16_pair_range _ _ hr.1 hr.2 hu2
      refine ⟨r1, fun h => ?_⟩
      rcases h with h | h
      · exact absurd hr h
      · exact r2 h.1 h.2
  · rw [FromUtf16_one_unit hostLE err cp0 src srcSize srb e (by omega) hs]
    exact ⟨by show utf16_unit_value hostLE e _ _ ≤ 0x111FFF; omega,
      fun _ => by show utf16_unit_value hostLE e _ _ ≤ 0x10FFFF; omega⟩

theorem FromUtf16_code_point_range_witness :
    (∀ b ∈ [0x3D, 0xD8, 0x00, 0xDE], b < 256) ∧
    (FromUtf16 true ⟨ErrorInfo.ctor, []⟩ 0 (some [0x3D, 0xD8, 0x00, 0xDE]) 4 none
      .kLittleEndian).code = ErrorCode.kERRC_NO ∧
    (FromUtf16 true ⟨ErrorInfo.ctor, []⟩ 0 (some [0x3D, 0xD8, 0x00, 0xDE]) 4 none
      .kLittleEndian).cp ≤ 0x111FFF ∧
    ((¬ (0xD800 ≤ utf16_unit_value true .kLittleEndian ([0x3D, 0xD8, 0x00, 0xDE].getD 0 0)
            ([0x3D, 0xD8, 0x00, 0xDE].getD 1 0) ∧
          utf16_unit_value true .kLittleEndian ([0x3D, 0xD8, 0x00, 0xDE].getD 0 0)
            ([0x3D, 0xD8, 0x00, 0xDE].getD 1 0) ≤ 0xDBFF) ∨
        (0xDC00 ≤ utf16_unit_value true .kLittleEndian ([0x3D, 0xD8, 0x00, 0xDE].getD 2 0)
            ([0x3D, 0xD8, 0x00, 0xDE].getD 3 0) ∧
          utf16_unit_value true .kLittleEndian ([0x3D, 0xD8, 0x00, 0xDE].getD 2 0)
            ([0x3D, 0xD8, 0x00, 0xDE].getD 3 0) ≤ 0xDFFF)) →
      (FromUtf16 true ⟨ErrorInfo.ctor, []⟩ 0 (some [0x3D, 0xD8, 0x00, 0xDE]) 4 none
        .kLittleEndian).cp ≤ 0x10FFFF) :=
  ⟨by decide, by decide,
    FromUtf16_code_point_range true ⟨ErrorInfo.ctor, []⟩ 0 [0x3D, 0xD8, 0x00, 0xDE] 4 none
      .kLittleEndian (by decide) (by decide)⟩

/-! ## UTF-8 encoder: order -/

theorem utf8_octets_lt (a b : Nat) (hab : a < b) (hb : b ≤ 0x10FFFF) :
    bytes_lt (utf8_octets a) (utf8_octets b) = true := by
  unfold utf8_octets
  split_ifs <;>
    simp only [bytes_lt, Bool.or_eq_true, Bool.and_eq_true, decide_eq_true_eq, beq_iff_eq,
      Bool.false_eq_true, and_false, or_false] <;>
    omega

/-- C40. `ToUtf8` preserves order: for all code points `a < b ≤ 0x10FFFF` (and destinations
that can hold the sequences) both calls succeed and the byte sequence written for `a` is
strictly smaller than the one written for `b` in the lexicographic order on unsigned bytes. -/
theorem ToUtf8_preserves_order (hostLE : Bool) (err err2 : ErrorState) (bufa bufb : List Nat)
    (sizea sizeb a b : Nat) (dsna dsnb : Option Nat) (hab : a < b) (hb : b ≤ 0x10FFFF)
    (hcapa : findOctetCount a ≤ sizea) (hlena : sizea ≤ bufa.length)
    (hcapb : findOctetCount b ≤ sizeb) (hlenb : sizeb ≤ bufb.length) :
    ∃ outa outb,
      (ToUtf8 hostLE err (some bufa) sizea a dsna).code = ErrorCode.kERRC_NO ∧
      (ToUtf8 hostLE err2 (some bufb) sizeb b dsnb).code = ErrorCode.kERRC_NO ∧
      (ToUtf8 hostLE err (some bufa) sizea a dsna).dstBuf = some outa ∧
      (ToUtf8 hostLE err2 (some bufb) sizeb b dsnb).dstBuf = some outb ∧
      bytes_lt (outa.take (findOctetCount a)) (outb.take (findOctetCount b)) = true := by
  have ha : a ≤ 0x10FFFF := by omega
  rw [ToUtf8_success hostLE err bufa sizea a dsna ha hcapa hlena,
    ToUtf8_success hostLE err2 bufb sizeb b dsnb hb hcapb hlenb]
  refine ⟨_, _, rfl, rfl, rfl, rfl, ?_⟩
  rw [List.take_left' (utf8_octets_length a ha), List.take_left' (utf8_octets_length b hb)]
  exact utf8_octets_lt a b hab hb

theorem ToUtf8_preserves_order_witness :
    0x7FF < 0x800 ∧ findOctetCount 0x7FF ≤ 4 ∧ findOctetCount 0x800 ≤ 4 ∧
    ∃ outa outb,
      (ToUtf8 true ⟨ErrorInfo.ctor, []⟩ (some [0, 0, 0, 0]) 4 0x7FF none).code
        = ErrorCode.kERRC_NO ∧
      (ToUtf8 true ⟨ErrorInfo.ctor, []⟩ (some [9, 9, 9, 9]) 4 0x800 none).code
        = ErrorCode.kERRC_NO ∧
      (ToUtf8 true ⟨ErrorInfo.ctor, []⟩ (some [0, 0, 0, 0]) 4 0x7FF none).dstBuf = some outa ∧
      (ToUtf8 true ⟨ErrorInfo.ctor, []⟩ (some [9, 9, 9, 9]) 4 0x800 none).dstBuf = some outb ∧
      bytes_lt (outa.take (findOctetCount 0x7FF)) (outb.take (findOctetCount 0x800)) = true :=
  ⟨by decide, by decide, by decide,
    ToUtf8_preserves_order true ⟨ErrorInfo.ctor, []⟩ ⟨ErrorInfo.ctor, []⟩ [0, 0, 0, 0]
      [9, 9, 9, 9] 4 4 0x7FF 0x800 none none (by decide) (by decide) (by decide) (by decide)
      (by decide) (by decide)⟩

/-! ## Rounding of `double` operations (binary64, ties to even) -/

theorem round_half_even_spec (q : ℚ) : |(round_half_even q : ℚ) - q| ≤ 1 / 2 := by
  have h1 := Int.floor_le q
  have h2 := Int.lt_floor_add_one q
  unfold round_half_even
  rw [abs_le]
  split_ifs with a b c
  · constructor <;> linarith
  · push_cast
    constructor <;> linarith
  · constructor <;> linarith
  · push_cast
    constructor <;> linarith

theorem round_half_even_of_near (q : ℚ) (m : Int) (h : |q - m| < 1 / 2) :
    round_half_even q = m := by
  have h1 := round_half_even_spec q
  rw [abs_le] at h1
  rw [abs_lt] at h
  have h2 : ((round_half_even q : Int) : ℚ) < ((m + 1 : Int) : ℚ) := by
    push_cast; linarith
  have h3 : ((m - 1 : Int) : ℚ) < ((round_half_even q : Int) : ℚ) := by
    push_cast; linarith
  have h4 := Int.cast_lt.mp h2
  have h5 := Int.cast_lt.mp h3
  omega

theorem round_half_even_int (m : Int) : round_half_even (m : ℚ) = m :=
  round_half_even_of_near _ m (by simp)

theorem round_half_even_small (q : ℚ) (h : |q| ≤ 1 / 2) : round_half_even q = 0 := by
  rw [abs_le] at h
  rcases lt_or_eq_of_le h.2 with h2 | h2
  · rcases lt_or_eq_of_le h.1 with h1 | h1
    · apply round_half_even_of_near
      rw [abs_lt]
      constructor <;> simp <;> linarith
    · have e : q = -(1 / 2) := h1.symm
      subst e
      have hf : ⌊(-(1 / 2) : ℚ)⌋ = -1 := by
        rw [Int.floor_eq_iff]; norm_num
      unfold round_half_even
      rw [hf]
      norm_num
  · subst h2
    have hf : ⌊((1 / 2) : ℚ)⌋ = 0 := by
      rw [Int.floor_eq_iff]; norm_num
    unfold round_half_even
    rw [hf]
    norm_num

theorem round_half_even_abs_le (q : ℚ) (N : Int) (h : |q| ≤ N) :
    |round_half_even q| ≤ N := by
  have h1 := round_half_even_spec q
  rw [abs_le] at h1 h
  have h2 : ((round_half_even q : Int) : ℚ) < ((N + 1 : Int) : ℚ) := by
    push_cast; linarith
  have h3 : ((-N - 1 : Int) : ℚ) < ((round_half_even q : Int) : ℚ) := by
    push_cast; linarith
  have h4 := Int.cast_lt.mp h2
  have h5 := Int.cast_lt.mp h3
  rw [abs_le]
  constructor <;> omega

theorem F64_ulp_pos (x : ℚ) : (0 : ℚ) < 2 ^ F64_ulp_exponent x :=
  zpow_pos (by norm_num) _

theorem F64_round_zero : F64_round 0 = 0 := by
  unfold F64_round
  rw [zero_div]
  have := round_half_even_int 0
  rw [Int.cast_zero] at this
  rw [this]
  simp

theorem F64_round_err_ulp (x : ℚ) :
    |F64_round x - x| ≤ 2 ^ F64_ulp_exponent x / 2 := by
  have hp := F64_ulp_pos x
  have h1 := round_half_even_spec (x / 2 ^ F64_ulp_exponent x)
  have e : F64_round x - x
      = ((round_half_even (x / 2 ^ F64_ulp_exponent x) : ℚ) - x / 2 ^ F64_ulp_exponent x)
        * 2 ^ F64_ulp_exponent x := by
    unfold F64_round
    field_simp
  rw [e, abs_mul, abs_of_pos hp]
  calc _ ≤ 1 / 2 * 2 ^ F64_ulp_exponent x := mul_le_mul_of_nonneg_right h1 hp.le
    _ = _ := by ring

theorem log_two_zpow_le (x : ℚ) (hx : x ≠ 0) : (2 : ℚ) ^ Int.log 2 |x| ≤ |x| := by
  have := Int.zpow_log_le_self (b := 2) (r := |x|) (by norm_num) (abs_pos.mpr hx)
  exact_mod_cast this

theorem F64_ulp_le (x : ℚ) (hx : x ≠ 0) :
    (2 : ℚ) ^ F64_ulp_exponent x ≤ max (|x| / 2 ^ 52) (1 / 2 ^ 1074) := by
  unfold F64_ulp_exponent
  rcases le_total (Int.log 2 |x| - 52) (-1074) with h | h
  · rw [max_eq_right h]
    apply le_max_of_le_right
    rw [zpow_neg, one_div]
    norm_cast
  · rw [max_eq_left h]
    apply le_max_of_le_left
    rw [zpow_sub₀ (by norm_num), le_div_iff₀ (by positivity)]
    have := log_two_zpow_le x hx
    have e : (2 : ℚ) ^ (52 : ℤ) = 2 ^ 52 := by norm_cast
    rw [e, div_mul_cancel₀ _ (by positivity)]
    exact this

theorem F64_round_err (x : ℚ) : |F64_round x - x| ≤ |x| / 2 ^ 53 + 1 / 2 ^ 1075 := by
  by_cases hx : x = 0
  · subst hx
    rw [F64_round_zero]
    norm_num
  have h1 := F64_round_err_ulp x
  have h2 := F64_ulp_le x hx
  have h3 : max (|x| / 2 ^ 52) (1 / 2 ^ 1074 : ℚ) ≤ |x| / 2 ^ 52 + 1 / 2 ^ 1074 :=
    max_le (le_add_of_nonneg_right (by positivity)) (le_add_of_nonneg_left (by positivity))
  have h4 : (2 : ℚ) ^ F64_ulp_exponent x / 2 ≤ (|x| / 2 ^ 52 + 1 / 2 ^ 1074) / 2 :=
    div_le_div_of_nonneg_right (h2.trans h3) (by norm_num)
  calc _ ≤ _ := h1
    _ ≤ _ := h4
    _ = _ := by ring

theorem F64_ulp_exponent_le (x : ℚ) (hx : x ≠ 0) (k : Int) (hk : -1074 ≤ k)
    (h : |x| ≤ 2 ^ k) : F64_ulp_exponent x ≤ k := by
  have h1 := log_two_zpow_le x hx
  have h2 : (2 : ℚ) ^ Int.log 2 |x| ≤ 2 ^ k := h1.trans h
  have h3 : Int.log 2 |x| ≤ k := (zpow_le_zpow_iff_right₀ (by norm_num)).mp h2
  unfold F64_ulp_exponent
  exact max_le (by omega) hk

theorem two_zpow_eq_cast (n : Int) (hn : 0 ≤ n) :
    (2 : ℚ) ^ n = (((2 : Int) ^ n.toNat : Int) : ℚ) := by
  have e : n = (n.toNat : Int) := (Int.toNat_of_nonneg hn).symm
  rw [Int.cast_pow]
  conv_lhs => rw [e]
  rw [zpow_natCast]
  norm_num

theorem F64_round_abs_le (x : ℚ) (k : Int) (hk : -1074 ≤ k) (h : |x| ≤ 2 ^ k) :
    |F64_round x| ≤ 2 ^ k := by
  by_cases hx : x = 0
  · subst hx
    rw [F64_round_zero, abs_zero]
    positivity
  have hE := F64_ulp_exponent_le x hx k hk h
  have hp := F64_ulp_pos x
  have hq : |x / 2 ^ F64_ulp_exponent x| ≤ (((2 : Int) ^ (k - F64_ulp_exponent x).toNat : Int) : ℚ) := by
    rw [← two_zpow_eq_cast _ (by omega), abs_div, abs_of_pos hp, zpow_sub₀ (by norm_num)]
    exact div_le_div_of_nonneg_right h hp.le
  have hr := round_half_even_abs_le _ _ hq
  have hr2 : |((round_half_even (x / 2 ^ F64_ulp_exponent x) : Int) : ℚ)|
      ≤ (2 : ℚ) ^ (k - F64_ulp_exponent x) := by
    have e := two_zpow_eq_cast (k - F64_ulp_exponent x) (by omega)
    rw [e, ← Int.cast_abs]
    exact Int.cast_le.mpr hr
  unfold F64_round
  rw [abs_mul, abs_of_pos hp]
  calc _ ≤ (2 : ℚ) ^ (k - F64_ulp_exponent x) * 2 ^ F64_ulp_exponent x :=
        mul_le_mul_of_nonneg_right hr2 hp.le
    _ = 2 ^ k := by
        rw [← zpow_add₀ (by norm_num)]
        congr 1
        omega

theorem F64_round_tiny (x : ℚ) (h : |x| ≤ 1 / 2 ^ 1075) : F64_round x = 0 := by
  have hp := F64_ulp_pos x
  have hE : (-1074 : Int) ≤ F64_ulp_exponent x := le_max_right _ _
  have h1 : (2 : ℚ) ^ (-1074 : Int) ≤ 2 ^ F64_ulp_exponent x :=
    (zpow_le_zpow_iff_right₀ (by norm_num)).mpr hE
  have e : (2 : ℚ) ^ (-1074 : Int) = 1 / 2 ^ 1074 := by
    rw [zpow_neg, one_div]
    norm_cast
  rw [e] at h1
  have hq : |x / 2 ^ F64_ulp_exponent x| ≤ 1 / 2 := by
    rw [abs_div, abs_of_pos hp, div_le_iff₀ hp]
    calc |x| ≤ 1 / 2 ^ 1075 := h
      _ = 1 / 2 * (1 / 2 ^ 1074) := by norm_num
      _ ≤ 1 / 2 * 2 ^ F64_ulp_exponent x := by linarith
  unfold F64_round
  rw [round_half_even_small _ hq]
  simp

theorem F64_round_int (m : Int) (hm : |m| < 2 ^ 53) : F64_round (m : ℚ) = m := by
  by_cases h0 : m = 0
  · subst h0
    rw [Int.cast_zero, F64_round_zero]
  have hx : (m : ℚ) ≠ 0 := by exact_mod_cast h0
  have hp := F64_ulp_pos (m : ℚ)
  have hle : |(m : ℚ)| ≤ 2 ^ (52 + 1 : Int) - 1 := by
    have : |m| ≤ 2 ^ 53 - 1 := by omega
    rw [← Int.cast_abs]
    have e : ((2 : ℚ) ^ (52 + 1 : Int) - 1) = ((2 ^ 53 - 1 : Int) : ℚ) := by norm_num
    rw [e]
    exact_mod_cast this
  have hlog : Int.log 2 |(m : ℚ)| < 52 + 1 := by
    have h1 := log_two_zpow_le (m : ℚ) hx
    have h2 : (2 : ℚ) ^ Int.log 2 |(m : ℚ)| < 2 ^ (52 + 1 : Int) := by linarith
    exact (zpow_lt_zpow_iff_right₀ (by norm_num)).mp h2
  have hE : F64_ulp_exponent (m : ℚ) ≤ 0 := by
    unfold F64_ulp_exponent
    exact max_le (by omega) (by norm_num)
  have hq : (m : ℚ) / 2 ^ F64_ulp_exponent (m : ℚ)
      = ((m * (2 : Int) ^ (-F64_ulp_exponent (m : ℚ)).toNat : Int) : ℚ) := by
    rw [Int.cast_mul, ← two_zpow_eq_cast _ (by omega), zpow_neg, div_eq_mul_inv]
  unfold F64_round
  rw [hq, round_half_even_int, Int.cast_mul, ← two_zpow_eq_cast _ (by omega), zpow_neg,
    mul_assoc, inv_mul_cancel₀ hp.ne.symm, mul_one]

theorem F64_round_of_near (q : ℚ) (e m : Int) (h1 : 2 ^ e ≤ |q|) (h2 : |q| < 2 ^ (e + 1))
    (h3 : (m : ℚ) - 1 / 2 < q / 2 ^ max (e - 52) (-1074))
    (h4 : q / 2 ^ max (e - 52) (-1074) < (m : ℚ) + 1 / 2) :
    F64_round q = m * 2 ^ max (e - 52) (-1074) := by
  have hpos : 0 < |q| := lt_of_lt_of_le (zpow_pos (by norm_num) e) h1
  have hl1 : e ≤ Int.log 2 |q| :=
    (Int.zpow_le_iff_le_log (by norm_num) hpos).mp (by exact_mod_cast h1)
  have hl2 : Int.log 2 |q| < e + 1 :=
    (Int.lt_zpow_iff_log_lt (by norm_num) hpos).mp (by exact_mod_cast h2)
  have hl : Int.log 2 |q| = e := by omega
  have h5 : |q / 2 ^ max (e - 52) (-1074) - m| < 1 / 2 := by
    rw [abs_lt]
    constructor <;> linarith
  unfold F64_round F64_ulp_exponent
  rw [hl, round_half_even_of_near _ m h5]

theorem F64_round_tenth :
    F64_round (1 / 10) = 3602879701896397 / 36028797018963968 := by
  rw [F64_round_of_near (1 / 10) (-4) 7205759403792794
    (by rw [abs_of_pos (by norm_num)]; norm_num)
    (by rw [abs_of_pos (by norm_num)]; norm_num)
    (by norm_num) (by norm_num)]
  norm_num

theorem TenPower_double_down_succ :
    ∀ (k : Nat) (b : ℚ), TenPower_double_down (k + 1) b
      = F64_round (TenPower_double_down k b * F64_round (1 / 10)) := by
  intro k
  induction k with
  | zero => intro b; rfl
  | succ n ih =>
    intro b
    rw [TenPower_double_down, ih]
    rfl

theorem TenPower_double_neg (k : Nat) :
    TenPower_double (-((k + 1 : Nat) : Int)) = TenPower_double_down (k + 1) 1 := by
  unfold TenPower_double
  have h1 : ¬ (0 = -((k + 1 : Nat) : Int)) := by omega
  have h2 : ¬ (-((k + 1 : Nat) : Int) > 0) := by omega
  rw [if_neg h1, if_neg h2]
  have e : (- -((k + 1 : Nat) : Int)).toNat = k + 1 := by omega
  rw [e]

theorem F64_round_abs_le_pow8 (x : ℚ) (n : Nat) (hn : n ≤ 358) (h : |x| ≤ 1 / 8 ^ n) :
    |F64_round x| ≤ 1 / 8 ^ n := by
  have e : (1 : ℚ) / 8 ^ n = 2 ^ (-(3 * (n : Int))) := by
    rw [zpow_neg, zpow_mul, one_div]
    norm_cast
  rw [e] at h ⊢
  exact F64_round_abs_le x _ (by omega) h

theorem TenPower_double_down_abs_le :
    ∀ n : Nat, n ≤ 358 → |TenPower_double_down n 1| ≤ 1 / 8 ^ n := by
  intro n
  induction n with
  | zero => intro _; simp [TenPower_double_down]
  | succ n ih =>
    intro hn
    rw [TenPower_double_down_succ]
    apply F64_round_abs_le_pow8 _ _ hn
    rw [F64_round_tenth, abs_mul, pow_succ]
    have h1 := ih (by omega)
    have h2 : |(3602879701896397 / 36028797018963968 : ℚ)| ≤ 1 / 8 := by
      rw [abs_of_pos (by norm_num)]
      norm_num
    calc _ ≤ 1 / 8 ^ n * (1 / 8) := mul_le_mul h1 h2 (abs_nonneg _) (by positivity)
      _ = _ := by field_simp

theorem TenPower_double_down_zero :
    ∀ k : Nat, TenPower_double_down (359 + k) 1 = 0 := by
  intro k
  induction k with
  | zero =>
    rw [Nat.add_zero, TenPower_double_down_succ]
    apply F64_round_tiny
    rw [F64_round_tenth, abs_mul]
    have h1 := TenPower_double_down_abs_le 358 (le_refl _)
    have h2 : |(3602879701896397 / 36028797018963968 : ℚ)| ≤ 1 / 8 := by
      rw [abs_of_pos (by norm_num)]
      norm_num
    calc _ ≤ 1 / 8 ^ 358 * (1 / 8) := mul_le_mul h1 h2 (abs_nonneg _) (by positivity)
      _ ≤ _ := by norm_num
  | succ n ih =>
    rw [← Nat.add_assoc, TenPower_double_down_succ, ih, zero_mul, F64_round_zero]

theorem TenPower_double_down_err :
    ∀ n : Nat, |TenPower_double_down n 1 - 1 / 10 ^ n|
      ≤ 4 / 2 ^ 53 * (1 / 4 ^ n) + 2 / 2 ^ 1075 := by
  intro n
  induction n with
  | zero => norm_num [TenPower_double_down]
  | succ n ih =>
    rw [TenPower_double_down_succ, F64_round_tenth]
    have hr := F64_round_err
      (TenPower_double_down n 1 * (3602879701896397 / 36028797018963968))
    rw [abs_mul, abs_of_pos (show (0 : ℚ) < 3602879701896397 / 36028797018963968 by norm_num)]
      at hr
    have hX : (0 : ℚ) ≤ 1 / 10 ^ n := by positivity
    have hXY : (1 : ℚ) / 10 ^ n ≤ 1 / 4 ^ n := by
      apply one_div_le_one_div_of_le (by positivity)
      exact pow_le_pow_left₀ (by norm_num) (by norm_num) n
    have e1 : (1 : ℚ) / 10 ^ (n + 1) = 1 / 10 ^ n / 10 := by rw [pow_succ]; field_simp
    have e2 : (1 : ℚ) / 4 ^ (n + 1) = 1 / 4 ^ n / 4 := by rw [pow_succ]; field_simp
    rw [e1, e2]
    generalize (1 : ℚ) / 10 ^ n = Y at *
    generalize (1 : ℚ) / 4 ^ n = X at *
    generalize TenPower_double_down n 1 = p at *
    generalize F64_round (p * (3602879701896397 / 36028797018963968)) = f at *
    have hp : |p| ≤ Y + (4 / 2 ^ 53 * X + 2 / 2 ^ 1075) := by
      have := abs_sub_abs_le_abs_sub p Y
      rw [abs_of_nonneg hX] at this
      linarith
    rw [abs_le] at ih hr ⊢
    constructor <;> linarith

/-! ## Number lexer: fractional result -/

theorem fraction_value_from_append (l : List Char) (c : Char) :
    ∀ j, fraction_value_from j (l ++ [c])
      = fraction_value_from j l + (digit_value c : ℚ) / 10 ^ (j + l.length) := by
  induction l with
  | nil => intro j; simp [fraction_value_from]
  | cons a t ih =>
    intro j
    rw [List.cons_append, fraction_value_from, fraction_value_from, ih (j + 1),
      List.length_cons]
    have e : j + 1 + t.length = j + (t.length + 1) := by omega
    rw [e]
    ring

theorem take_succ_drop (s : List Char) (a n : Nat) (h : a + n < s.length) :
    (s.drop a).take (n + 1) = (s.drop a).take n ++ [s[a + n]] := by
  rw [List.take_succ, List.getElem?_drop, List.getElem?_eq_getElem h]
  rfl

theorem fraction_value_from_append_zero (l : List Char) (j : Nat) :
    fraction_value_from j (l ++ ['0']) = fraction_value_from j l := by
  rw [fraction_value_from_append]
  have : digit_value '0' = 0 := rfl
  rw [this]
  simp

theorem ParseNumber_skip_trailing_spec (s : List Char) :
    ∀ (k a : Nat), a + k ≤ s.length →
      a ≤ ParseNumber_skip_trailing s k (a + k) ∧
      ParseNumber_skip_trailing s k (a + k) ≤ a + k ∧
      fraction_value_from 1 ((s.drop a).take (ParseNumber_skip_trailing s k (a + k) - a))
        = fraction_value_from 1 ((s.drop a).take k) ∧
      ∀ c ∈ (s.drop a).take (ParseNumber_skip_trailing s k (a + k) - a),
        c ∈ (s.drop a).take k := by
  intro k
  induction k with
  | zero =>
    intro a _
    rw [ParseNumber_skip_trailing]
    simp
  | succ k ih =>
    intro a hlen
    have hlt : a + k < s.length := by omega
    have ht := take_succ_drop s a k hlt
    have e1 : a + (k + 1) - 1 = a + k := by omega
    rw [ParseNumber_skip_trailing, e1, string_at_lt s (a + k) hlt]
    by_cases h0 : s[a + k] = '0'
    · rw [if_pos h0]
      obtain ⟨h1, h2, h3, h4⟩ := ih a (by omega)
      refine ⟨h1, by omega, ?_, ?_⟩
      · rw [h3, ht, h0, fraction_value_from_append_zero]
      · intro c hc
        rw [ht]
        exact List.mem_append_left _ (h4 c hc)
    · rw [if_neg h0]
      have e : a + (k + 1) - a = k + 1 := by omega
      rw [e]
      exact ⟨by omega, le_refl _, rfl, fun c hc => hc⟩

theorem S32_wrap_range (a : Int) : -2147483648 ≤ S32_wrap a ∧ S32_wrap a < 2147483648 := by
  unfold S32_wrap
  omega

theorem S32_wrap_of_range (a : Int) (h1 : -2147483648 ≤ a) (h2 : a < 2147483648) :
    S32_wrap a = a := by
  unfold S32_wrap
  omega

theorem ParseNumber_int_loop_range (s : List Char) :
    ∀ (n a : Nat) (int_part : Int), -2147483648 ≤ int_part → int_part < 2147483648 →
      -2147483648 ≤ ParseNumber_int_loop s n a int_part ∧
      ParseNumber_int_loop s n a int_part < 2147483648 := by
  intro n
  induction n with
  | zero => intro a int_part h1 h2; rw [ParseNumber_int_loop]; exact ⟨h1, h2⟩
  | succ n ih =>
    intro a int_part _ _
    rw [ParseNumber_int_loop]
    exact ih _ _ (S32_wrap_range _).1 (S32_wrap_range _).2

theorem dropWhile_ne_of_mem (B : List Char) (ch : Char) (h : ch ∈ B) :
    B = B.takeWhile (fun c => c != ch) ++ ch :: (B.dropWhile (fun c => c != ch)).drop 1 := by
  induction B with
  | nil => cases h
  | cons c t ih =>
    by_cases hc : c = ch
    · subst hc
      simp
    · have hb : (c != ch) = true := by simpa using hc
      have hm : ch ∈ t := by
        rcases List.mem_cons.mp h with e | e
        · exact absurd e.symm hc
        · exact e
      rw [List.takeWhile_cons, List.dropWhile_cons, hb, if_pos rfl, if_pos rfl, List.cons_append,
        ← ih hm]

theorem dropWhile_ne_of_not_mem (B : List Char) (ch : Char) (h : ch ∉ B) :
    B.dropWhile (fun c => c != ch) = [] := by
  rw [List.dropWhile_eq_nil_iff]
  intro c hc
  have : c ≠ ch := fun e => h (e ▸ hc)
  simpa using this

theorem dot_index_of_layout (s B suffix : List Char) (us : Nat)
    (h4 : s.drop us = B ++ suffix) (h5 : suffix = [] ∨ suffix = ['f']) :
    string_find s '.' us
      = if '.' ∈ B then some (us + (B.takeWhile (fun c => c != '.')).length) else none := by
  unfold string_find
  rw [h4, find_from_eq]
  by_cases hdot : '.' ∈ B
  · rw [if_pos (List.mem_append_left _ hdot), if_pos hdot,
      takeWhile_append_of_mem B suffix '.' hdot]
  · have hn : '.' ∉ B ++ suffix := by
      rcases h5 with rfl | rfl <;> simp [hdot]
    rw [if_neg hn, if_neg hdot]

theorem int_part_of_layout (s B suffix : List Char) (us : Nat)
    (h4 : s.drop us = B ++ suffix) (h6 : us + B.length ≤ s.length)
    (hB : ∀ c ∈ B, c ∈ "0123456789".toList ∨ c = '.') :
    ParseNumber_int_loop s
        (us + (B.takeWhile (fun c => c != '.')).length
          - ParseNumber_skip_leading s (B.takeWhile (fun c => c != '.')).length us)
        (ParseNumber_skip_leading s (B.takeWhile (fun c => c != '.')).length us) 0
      = S32_wrap (decimal_value (B.takeWhile (fun c => c != '.')) : Int) := by
  have hip : ∀ c ∈ B.takeWhile (fun c => c != '.'), c ∈ "0123456789".toList := by
    intro c hc
    have hne : c ≠ '.' := by simpa using List.mem_takeWhile_imp hc
    rcases hB c ((List.takeWhile_sublist _).subset hc) with h | h
    · exact h
    · exact absurd h hne
  have hle : (B.takeWhile (fun c => c != '.')).length ≤ B.length :=
    (List.takeWhile_sublist _).length_le
  have htake : (s.drop us).take (B.takeWhile (fun c => c != '.')).length
      = B.takeWhile (fun c => c != '.') := by
    rw [h4]
    have e : B ++ suffix = B.takeWhile (fun c => c != '.')
        ++ (B.dropWhile (fun c => c != '.') ++ suffix) := by
      rw [← List.append_assoc, List.takeWhile_append_dropWhile]
    rw [e, List.take_left]
  have hlen : us + (B.takeWhile (fun c => c != '.')).length ≤ s.length := by omega
  obtain ⟨k1, k2, k3, k4⟩ :=
    ParseNumber_skip_leading_spec s (B.takeWhile (fun c => c != '.')).length us hlen
  rw [htake] at k3 k4
  have hm := ParseNumber_int_loop_modEq s
    (us + (B.takeWhile (fun c => c != '.')).length
      - ParseNumber_skip_leading s (B.takeWhile (fun c => c != '.')).length us)
    (ParseNumber_skip_leading s (B.takeWhile (fun c => c != '.')).length us) 0
    (by omega) (fun c hc => hip c (k4 c hc))
  rw [k3, zero_add] at hm
  have hr := ParseNumber_int_loop_range s
    (us + (B.takeWhile (fun c => c != '.')).length
      - ParseNumber_skip_leading s (B.takeWhile (fun c => c != '.')).length us)
    (ParseNumber_skip_leading s (B.takeWhile (fun c => c != '.')).length us) 0
    (by decide) (by decide)
  rw [← S32_wrap_of_range _ hr.1 hr.2]
  exact S32_wrap_congr _ _ hm

theorem digit_value_le (c : Char) (h : c ∈ "0123456789".toList) : digit_value c ≤ 9 := by
  have e : "0123456789".toList = ['0', '1', '2', '3', '4', '5', '6', '7', '8', '9'] := rfl
  rw [e] at h
  simp only [List.mem_cons, List.not_mem_nil, or_false] at h
  rcases h with rfl | rfl | rfl | rfl | rfl | rfl | rfl | rfl | rfl | rfl <;> decide

theorem fraction_value_from_nonneg (l : List Char) : ∀ j, 0 ≤ fraction_value_from j l := by
  induction l with
  | nil => intro j; exact le_refl _
  | cons c t ih =>
    intro j
    rw [fraction_value_from]
    have := ih (j + 1)
    positivity

theorem fraction_value_from_le (l : List Char) :
    ∀ j, (∀ c ∈ l, c ∈ "0123456789".toList) → fraction_value_from (j + 1) l ≤ 1 / 10 ^ j := by
  induction l with
  | nil => intro j _; rw [fraction_value_from]; positivity
  | cons c t ih =>
    intro j h
    rw [fraction_value_from]
    have h1 := ih (j + 1) (fun x hx => h x (List.mem_cons_of_mem _ hx))
    have h2 : ((digit_value c : Nat) : ℚ) ≤ 9 := by
      exact_mod_cast digit_value_le c (h c (List.mem_cons_self _ _))
    have h3 : ((digit_value c : Nat) : ℚ) / 10 ^ (j + 1) ≤ 9 / 10 ^ (j + 1) :=
      div_le_div_of_nonneg_right h2 (by positivity)
    have e : (1 : ℚ) / 10 ^ j = 9 / 10 ^ (j + 1) + 1 / 10 ^ (j + 1) := by
      rw [pow_succ]; field_simp; ring
    rw [e]
    linarith

theorem fraction_value_from_split (l1 l2 : List Char) :
    ∀ j, fraction_value_from j (l1 ++ l2)
      = fraction_value_from j l1 + fraction_value_from (j + l1.length) l2 := by
  induction l1 with
  | nil => intro j; simp [fraction_value_from]
  | cons a t ih =>
    intro j
    rw [List.cons_append, fraction_value_from, fraction_value_from, ih (j + 1),
      List.length_cons]
    have e : j + 1 + t.length = j + (t.length + 1) := by omega
    rw [e]
    ring

theorem TenPower_double_term_err (n : Nat) (d : Nat) (hd : d ≤ 9) :
    |F64_round (TenPower_double_down n 1 * (d : ℚ)) - (d : ℚ) / 10 ^ n|
      ≤ 46 / 2 ^ 53 * (1 / 4 ^ n) + 20 / 2 ^ 1075 := by
  have hp := TenPower_double_down_err n
  have hr := F64_round_err (TenPower_double_down n 1 * (d : ℚ))
  have hY : (0 : ℚ) ≤ 1 / 10 ^ n := by positivity
  have hXY : (1 : ℚ) / 10 ^ n ≤ 1 / 4 ^ n := by
    apply one_div_le_one_div_of_le (by positivity)
    exact pow_le_pow_left₀ (by norm_num) (by norm_num) n
  have hd0 : (0 : ℚ) ≤ (d : ℚ) := by positivity
  have hd9 : (d : ℚ) ≤ 9 := by exact_mod_cast hd
  have ez : (d : ℚ) / 10 ^ n = (d : ℚ) * (1 / 10 ^ n) := by ring
  rw [ez]
  generalize (1 : ℚ) / 10 ^ n = Y at *
  generalize (1 : ℚ) / 4 ^ n = X at *
  generalize TenPower_double_down n 1 = p at *
  have hw : |p * (d : ℚ) - (d : ℚ) * Y| ≤ 9 * (4 / 2 ^ 53 * X + 2 / 2 ^ 1075) := by
    have e : p * (d : ℚ) - (d : ℚ) * Y = (p - Y) * (d : ℚ) := by ring
    rw [e, abs_mul, abs_of_nonneg hd0, mul_comm]
    exact mul_le_mul hd9 hp (abs_nonneg _) (by norm_num)
  have hz : (d : ℚ) * Y ≤ 9 * Y := mul_le_mul_of_nonneg_right hd9 hY
  have hz0 : 0 ≤ (d : ℚ) * Y := mul_nonneg hd0 hY
  have hwa : |p * (d : ℚ)| ≤ 9 * Y + 9 * (4 / 2 ^ 53 * X + 2 / 2 ^ 1075) := by
    have := abs_sub_abs_le_abs_sub (p * (d : ℚ)) ((d : ℚ) * Y)
    rw [abs_of_nonneg hz0] at this
    linarith
  generalize p * (d : ℚ) = w at *
  generalize (d : ℚ) * Y = z at *
  generalize F64_round w = t at *
  rw [abs_le] at hw hr ⊢
  constructor <;> linarith

theorem ParseNumber_frac_loop_err (s : List Char) :
    ∀ (n a : Nat) (fp T : ℚ), n ≤ 358 → a + n ≤ s.length →
      (∀ c ∈ (s.drop a).take n, c ∈ "0123456789".toList) →
      0 ≤ T → T ≤ 1 / 10 ^ n →
      |fp - T| ≤ 20 / 2 ^ 53 * (1 / 4 ^ n) + (358 - (n : ℚ)) * (22 / 2 ^ 1075) →
      |ParseNumber_frac_loop s n (a + n) fp
          - (T + fraction_value_from 1 ((s.drop a).take n))|
        ≤ 20 / 2 ^ 53 + 358 * (22 / 2 ^ 1075) := by
  intro n
  induction n with
  | zero =>
    intro a fp T _ _ _ _ _ h
    simp only [ParseNumber_frac_loop, List.take_zero, fraction_value_from, add_zero]
    norm_num at h ⊢
    exact h
  | succ n ih =>
    intro a fp T hn hlen hdig hT0 hT1 hfp
    have hlt : a + n < s.length := by omega
    have ht := take_succ_drop s a n hlt
    rw [ht] at hdig ⊢
    have hc : s[a + n] ∈ "0123456789".toList :=
      hdig _ (List.mem_append_right _ (List.mem_singleton_self _))
    have hl : ((s.drop a).take n).length = n := by
      rw [List.length_take, List.length_drop]; omega
    have e1 : a + (n + 1) - 1 = a + n := by omega
    rw [ParseNumber_frac_loop, e1, string_at_lt s (a + n) hlt, CharToDigit_digit _ hc,
      TenPower_double_neg, fraction_value_from_append, hl]
    have hd9 := digit_value_le _ hc
    have hterm := TenPower_double_term_err (n + 1) (digit_value s[a + n]) hd9
    have hr := F64_round_err
      (fp + F64_round (TenPower_double_down (n + 1) 1 * ((digit_value s[a + n] : Nat) : ℚ)))
    have hY : (0 : ℚ) ≤ 1 / 10 ^ (n + 1) := by positivity
    have hXY : (1 : ℚ) / 10 ^ (n + 1) ≤ 1 / 4 ^ (n + 1) := by
      apply one_div_le_one_div_of_le (by positivity)
      exact pow_le_pow_left₀ (by norm_num) (by norm_num) _
    have hX : (0 : ℚ) ≤ 1 / 4 ^ (n + 1) := by positivity
    have e2 : (1 : ℚ) / 10 ^ n = 10 * (1 / 10 ^ (n + 1)) := by rw [pow_succ]; field_simp
    have e3 : (1 : ℚ) / 4 ^ n = 4 * (1 / 4 ^ (n + 1)) := by rw [pow_succ]; field_simp
    have hd0 : (0 : ℚ) ≤ ((digit_value s[a + n] : Nat) : ℚ) := by positivity
    have hd9q : ((digit_value s[a + n] : Nat) : ℚ) ≤ 9 := by exact_mod_cast hd9
    have ez : ((digit_value s[a + n] : Nat) : ℚ) / 10 ^ (n + 1)
        = ((digit_value s[a + n] : Nat) : ℚ) * (1 / 10 ^ (n + 1)) := by ring
    have hz : ((digit_value s[a + n] : Nat) : ℚ) * (1 / 10 ^ (n + 1))
        ≤ 9 * (1 / 10 ^ (n + 1)) := mul_le_mul_of_nonneg_right hd9q hY
    have hz0 : 0 ≤ ((digit_value s[a + n] : Nat) : ℚ) * (1 / 10 ^ (n + 1)) :=
      mul_nonneg hd0 hY
    have hn0 : (0 : ℚ) ≤ (n : ℚ) := by positivity
    have hn1 : (n : ℚ) ≤ 357 := by
      have : n ≤ 357 := by omega
      exact_mod_cast this
    have e4 : 1 + n = n + 1 := by omega
    rw [e4]
    rw [ez] at hterm ⊢
    push_cast at hfp hterm hr ⊢
    have key := ih a
      (F64_round (fp + F64_round (TenPower_double_down (n + 1) 1
        * (digit_value s[a + n] : ℚ))))
      (T + (digit_value s[a + n] : ℚ) * (1 / 10 ^ (n + 1)))
      (by omega) (by omega) (fun c hc => hdig c (List.mem_append_left _ hc))
      (by linarith) (by rw [e2]; linarith)
      (by
        rw [e3]
        generalize (1 : ℚ) / 10 ^ (n + 1) = Y at *
        generalize (1 : ℚ) / 4 ^ (n + 1) = X at *
        generalize (digit_value s[a + n] : ℚ) * Y = z at *
        generalize F64_round (TenPower_double_down (n + 1) 1
          * (digit_value s[a + n] : ℚ)) = t at *
        have hs : |fp + t| ≤ T + z + (20 / 2 ^ 53 * X + (358 - ((n : ℚ) + 1)) * (22 / 2 ^ 1075))
            + (46 / 2 ^ 53 * X + 20 / 2 ^ 1075) := by
          rw [abs_le] at hfp hterm ⊢
          constructor <;> linarith
        generalize F64_round (fp + t) = f at *
        rw [abs_le] at hfp hterm hr ⊢
        constructor <;> linarith)
    have e5 : T + (digit_value s[a + n] : ℚ) * (1 / 10 ^ (n + 1))
          + fraction_value_from 1 (List.take n (List.drop a s))
        = T + (fraction_value_from 1 (List.take n (List.drop a s))
          + (digit_value s[a + n] : ℚ) * (1 / 10 ^ (n + 1))) := by ring
    rw [e5] at key
    exact key

theorem ParseNumber_frac_loop_underflow (s : List Char) :
    ∀ (k fe : Nat), ParseNumber_frac_loop s (358 + k) fe 0
      = ParseNumber_frac_loop s 358 (fe - k) 0 := by
  intro k
  induction k with
  | zero => intro fe; rfl
  | succ k ih =>
    intro fe
    have e : 358 + (k + 1) = (358 + k) + 1 := by omega
    have e2 : 358 + k + 1 = 359 + k := by omega
    rw [e, ParseNumber_frac_loop, TenPower_double_neg, e2, TenPower_double_down_zero,
      zero_mul, F64_round_zero, zero_add, F64_round_zero, ih (fe - 1), Nat.sub_sub,
      Nat.add_comm 1 k]

theorem ParseNumber_frac_loop_bound (s : List Char) (m a : Nat) (hlen : a + m ≤ s.length)
    (hdig : ∀ c ∈ (s.drop a).take m, c ∈ "0123456789".toList) :
    |ParseNumber_frac_loop s m (a + m) 0 - fraction_value_from 1 ((s.drop a).take m)|
      ≤ 20 / 2 ^ 53 + 358 * (22 / 2 ^ 1075) := by
  rcases Nat.le_total m 358 with hm | hm
  · have h := ParseNumber_frac_loop_err s m a 0 0 hm hlen hdig (le_refl _) (by positivity)
      (by
        have h1 : (m : ℚ) ≤ 358 := by exact_mod_cast hm
        rw [sub_zero, abs_zero]
        have : (0 : ℚ) ≤ 358 - (m : ℚ) := by linarith
        positivity)
    rw [zero_add] at h
    exact h
  · obtain ⟨k, rfl⟩ := Nat.exists_eq_add_of_le hm
    have e1 : a + (358 + k) - k = a + 358 := by omega
    rw [ParseNumber_frac_loop_underflow, e1]
    have hsplit : (s.drop a).take (358 + k)
        = (s.drop a).take 358 ++ ((s.drop a).take (358 + k)).drop 358 := by
      have h1 : ((s.drop a).take (358 + k)).take 358 = (s.drop a).take 358 := by
        rw [List.take_take]
        congr 1
        omega
      rw [← h1, List.take_append_drop]
    have hl : ((s.drop a).take 358).length = 358 := by
      rw [List.length_take, List.length_drop]; omega
    have hd1 : ∀ c ∈ (s.drop a).take 358, c ∈ "0123456789".toList := by
      intro c hc
      apply hdig c
      rw [hsplit]
      exact List.mem_append_left _ hc
    have hd2 : ∀ c ∈ ((s.drop a).take (358 + k)).drop 358, c ∈ "0123456789".toList := by
      intro c hc
      apply hdig c
      rw [hsplit]
      exact List.mem_append_right _ hc
    have hT0 := fraction_value_from_nonneg (((s.drop a).take (358 + k)).drop 358) (358 + 1)
    have hT1 := fraction_value_from_le (((s.drop a).take (358 + k)).drop 358) 358 hd2
    have hF : fraction_value_from 1 ((s.drop a).take (358 + k))
        = fraction_value_from (358 + 1) (((s.drop a).take (358 + k)).drop 358)
          + fraction_value_from 1 ((s.drop a).take 358) := by
      conv_lhs => rw [hsplit]
      rw [fraction_value_from_split, hl, Nat.add_comm 1 358]
      ring
    rw [hF]
    apply ParseNumber_frac_loop_err s 358 a 0 _ (le_refl _) (by omega) hd1 hT0 hT1
    rw [zero_sub, abs_neg, abs_of_nonneg hT0]
    calc _ ≤ (1 : ℚ) / 10 ^ 358 := hT1
      _ ≤ _ := by norm_num

theorem ParseNumber_skip_trailing_zeros (s : List Char) :
    ∀ (k a : Nat), a + k ≤ s.length → (∀ c ∈ (s.drop a).take k, c = '0') →
      ParseNumber_skip_trailing s k (a + k) = a := by
  intro k
  induction k with
  | zero => intro a _ _; rfl
  | succ k ih =>
    intro a hlen h0
    have hlt : a + k < s.length := by omega
    have ht := take_succ_drop s a k hlt
    rw [ht] at h0
    have hc : s[a + k] = '0' := h0 _ (List.mem_append_right _ (List.mem_singleton_self _))
    have e1 : a + (k + 1) - 1 = a + k := by omega
    rw [ParseNumber_skip_trailing, e1, string_at_lt s (a + k) hlt, if_pos hc]
    exact ih a (by omega) (fun c hc => h0 c (List.mem_append_left _ hc))

theorem fraction_value_from_zeros (l : List Char) :
    ∀ j, (∀ c ∈ l, c = '0') → fraction_value_from j l = 0 := by
  induction l with
  | nil => intro j _; rfl
  | cons c t ih =>
    intro j h
    have hc : c = '0' := h c (List.mem_cons_self _ _)
    have hd : digit_value '0' = 0 := rfl
    rw [fraction_value_from, ih (j + 1) (fun x hx => h x (List.mem_cons_of_mem _ hx)), hc, hd]
    simp

theorem round_half_even_of_near_even (q : ℚ) (m : Int) (hm : m % 2 = 0)
    (h : |q - m| ≤ 1 / 2) : round_half_even q = m := by
  rcases lt_or_eq_of_le h with h1 | h1
  · exact round_half_even_of_near q m h1
  · rcases abs_eq (by norm_num : (0 : ℚ) ≤ 1 / 2) |>.mp h1 with h2 | h2
    · have e : q = (m : ℚ) + 1 / 2 := by linarith
      have hf : ⌊q⌋ = m := by
        rw [Int.floor_eq_iff, e]
        constructor <;> linarith
      unfold round_half_even
      rw [hf, e]
      norm_num [hm]
    · have e : q = ((m - 1 : Int) : ℚ) + 1 / 2 := by push_cast; linarith
      have hf : ⌊q⌋ = m - 1 := by
        rw [Int.floor_eq_iff, e]
        constructor <;> linarith
      have hodd : ¬ ((m - 1) % 2 = 0) := by omega
      unfold round_half_even
      rw [hf, e]
      norm_num [hodd]

theorem F64_round_of_near_even (q : ℚ) (e m : Int) (h1 : 2 ^ e ≤ |q|)
    (h2 : |q| < 2 ^ (e + 1)) (hm : m % 2 = 0)
    (h3 : (m : ℚ) - 1 / 2 ≤ q / 2 ^ max (e - 52) (-1074))
    (h4 : q / 2 ^ max (e - 52) (-1074) ≤ (m : ℚ) + 1 / 2) :
    F64_round q = m * 2 ^ max (e - 52) (-1074) := by
  have hpos : 0 < |q| := lt_of_lt_of_le (zpow_pos (by norm_num) e) h1
  have hl1 : e ≤ Int.log 2 |q| :=
    (Int.zpow_le_iff_le_log (by norm_num) hpos).mp (by exact_mod_cast h1)
  have hl2 : Int.log 2 |q| < e + 1 :=
    (Int.lt_zpow_iff_log_lt (by norm_num) hpos).mp (by exact_mod_cast h2)
  have hl : Int.log 2 |q| = e := by omega
  have h5 : |q / 2 ^ max (e - 52) (-1074) - m| ≤ 1 / 2 := by
    rw [abs_le]
    constructor <;> linarith
  unfold F64_round F64_ulp_exponent
  rw [hl, round_half_even_of_near_even _ m hm h5]

/-! The rounding at the values met by the texts `0.3`, `-3.5f` and `.25`. -/

theorem F64_round_value_1 :
    F64_round (3602879701896397 / 36028797018963968) = 3602879701896397 / 36028797018963968 := by
  rw [F64_round_of_near (3602879701896397 / 36028797018963968) (-4) (7205759403792794)
    (by rw [abs_of_pos (by norm_num)]; norm_num)
    (by rw [abs_of_pos (by norm_num)]; norm_num)
    (by norm_num) (by norm_num)]
  norm_num

theorem F64_round_value_2 :
    F64_round (10808639105689191 / 36028797018963968) = 1351079888211149 / 4503599627370496 := by
  rw [F64_round_of_near_even (10808639105689191 / 36028797018963968) (-2) (5404319552844596)
    (by rw [abs_of_pos (by norm_num)]; norm_num)
    (by rw [abs_of_pos (by norm_num)]; norm_num)
    (by decide) (by norm_num) (by norm_num)]
  norm_num

theorem F64_round_value_3 :
    F64_round (1351079888211149 / 4503599627370496) = 1351079888211149 / 4503599627370496 := by
  rw [F64_round_of_near (1351079888211149 / 4503599627370496) (-2) (5404319552844596)
    (by rw [abs_of_pos (by norm_num)]; norm_num)
    (by rw [abs_of_pos (by norm_num)]; norm_num)
    (by norm_num) (by norm_num)]
  norm_num

theorem F64_round_value_4 :
    F64_round (18014398509481985 / 36028797018963968) = 1 / 2 := by
  rw [F64_round_of_near (18014398509481985 / 36028797018963968) (-1) (4503599627370496)
    (by rw [abs_of_pos (by norm_num)]; norm_num)
    (by rw [abs_of_pos (by norm_num)]; norm_num)
    (by norm_num) (by norm_num)]
  norm_num

theorem F64_round_value_5 :
    F64_round (1 / 2) = 1 / 2 := by
  rw [F64_round_of_near (1 / 2) (-1) (4503599627370496)
    (by rw [abs_of_pos (by norm_num)]; norm_num)
    (by rw [abs_of_pos (by norm_num)]; norm_num)
    (by norm_num) (by norm_num)]
  norm_num

theorem F64_round_value_6 :
    F64_round (7 / 2) = 7 / 2 := by
  rw [F64_round_of_near (7 / 2) (1) (7881299347898368)
    (by rw [abs_of_pos (by norm_num)]; norm_num)
    (by rw [abs_of_pos (by norm_num)]; norm_num)
    (by norm_num) (by norm_num)]
  norm_num

theorem F64_round_value_7 :
    F64_round (-(7 / 2)) = -(7 / 2) := by
  rw [F64_round_of_near (-(7 / 2)) (1) (-7881299347898368)
    (by rw [abs_of_neg (by norm_num)]; norm_num)
    (by rw [abs_of_neg (by norm_num)]; norm_num)
    (by norm_num) (by norm_num)]
  norm_num

theorem F64_round_value_8 :
    F64_round (12980742146337070512478121581609 / 1298074214633706907132624082305024) = 1441151880758559 / 144115188075855872 := by
  rw [F64_round_of_near (12980742146337070512478121581609 / 1298074214633706907132624082305024) (-7) (5764607523034236)
    (by rw [abs_of_pos (by norm_num)]; norm_num)
    (by rw [abs_of_pos (by norm_num)]; norm_num)
    (by norm_num) (by norm_num)]
  norm_num

theorem F64_round_value_9 :
    F64_round (7205759403792795 / 144115188075855872) = 7205759403792795 / 144115188075855872 := by
  rw [F64_round_of_near (7205759403792795 / 144115188075855872) (-5) (7205759403792795)
    (by rw [abs_of_pos (by norm_num)]; norm_num)
    (by rw [abs_of_pos (by norm_num)]; norm_num)
    (by norm_num) (by norm_num)]
  norm_num

theorem F64_round_value_10 :
    F64_round (3602879701896397 / 18014398509481984) = 3602879701896397 / 18014398509481984 := by
  rw [F64_round_of_near (3602879701896397 / 18014398509481984) (-3) (7205759403792794)
    (by rw [abs_of_pos (by norm_num)]; norm_num)
    (by rw [abs_of_pos (by norm_num)]; norm_num)
    (by norm_num) (by norm_num)]
  norm_num

theorem F64_round_value_11 :
    F64_round (36028797018963971 / 144115188075855872) = 1 / 4 := by
  rw [F64_round_of_near (36028797018963971 / 144115188075855872) (-2) (4503599627370496)
    (by rw [abs_of_pos (by norm_num)]; norm_num)
    (by rw [abs_of_pos (by norm_num)]; norm_num)
    (by norm_num) (by norm_num)]
  norm_num

theorem F64_round_value_12 :
    F64_round (1 / 4) = 1 / 4 := by
  rw [F64_round_of_near (1 / 4) (-2) (4503599627370496)
    (by rw [abs_of_pos (by norm_num)]; norm_num)
    (by rw [abs_of_pos (by norm_num)]; norm_num)
    (by norm_num) (by norm_num)]
  norm_num

theorem ParseNumber_value_d_result (s : List Char) (sign : Int) (unsigned_start len : Nat)
    (d0 : ℚ) :
    (ParseNumber_value s sign unsigned_start len (some d0)).d_result =
      some (F64_round (F64_round (((ParseNumber_int_loop s
        ((match string_find s '.' unsigned_start with | some d => d | none => len)
          - ParseNumber_skip_leading s
              ((match string_find s '.' unsigned_start with | some d => d | none => len)
                - unsigned_start) unsigned_start)
        (ParseNumber_skip_leading s
          ((match string_find s '.' unsigned_start with | some d => d | none => len)
            - unsigned_start) unsigned_start) 0 : Int) : ℚ)
        + ParseNumber_frac_loop s
            (ParseNumber_skip_trailing s
                (len - (match string_find s '.' unsigned_start with
                  | some d => d + 1 | none => len)) len
              - (match string_find s '.' unsigned_start with | some d => d + 1 | none => len))
            (ParseNumber_skip_trailing s
                (len - (match string_find s '.' unsigned_start with
                  | some d => d + 1 | none => len)) len) 0) * (sign : ℚ))) :=
  rfl

theorem frac_part_of_layout (s ip fr suffix : List Char) (us : Nat)
    (h4 : s.drop us = (ip ++ '.' :: fr) ++ suffix)
    (h6 : us + (ip ++ '.' :: fr).length ≤ s.length)
    (hfr : ∀ c ∈ fr, c ∈ "0123456789".toList) :
    |ParseNumber_frac_loop s
        (ParseNumber_skip_trailing s (us + (ip ++ '.' :: fr).length - (us + ip.length + 1))
            (us + (ip ++ '.' :: fr).length) - (us + ip.length + 1))
        (ParseNumber_skip_trailing s (us + (ip ++ '.' :: fr).length - (us + ip.length + 1))
            (us + (ip ++ '.' :: fr).length)) 0
      - fraction_value fr| ≤ 20 / 2 ^ 53 + 358 * (22 / 2 ^ 1075) ∧
    ((∀ c ∈ fr, c = '0') →
      ParseNumber_frac_loop s
        (ParseNumber_skip_trailing s (us + (ip ++ '.' :: fr).length - (us + ip.length + 1))
            (us + (ip ++ '.' :: fr).length) - (us + ip.length + 1))
        (ParseNumber_skip_trailing s (us + (ip ++ '.' :: fr).length - (us + ip.length + 1))
            (us + (ip ++ '.' :: fr).length)) 0 = 0) := by
  have hl : (ip ++ '.' :: fr).length = ip.length + 1 + fr.length := by
    rw [List.length_append, List.length_cons]; omega
  have e1 : us + (ip ++ '.' :: fr).length - (us + ip.length + 1) = fr.length := by omega
  have e2 : us + (ip ++ '.' :: fr).length = (us + ip.length + 1) + fr.length := by omega
  rw [e1, e2]
  have hdrop : s.drop (us + ip.length + 1) = fr ++ suffix := by
    have e : s.drop (us + ip.length + 1) = (s.drop us).drop (ip.length + 1) := by
      rw [List.drop_drop]
      congr 1
    rw [e, h4, List.append_assoc, List.drop_append]
    rfl
  have htake : (s.drop (us + ip.length + 1)).take fr.length = fr := by
    rw [hdrop, List.take_left]
  have hlen : (us + ip.length + 1) + fr.length ≤ s.length := by omega
  obtain ⟨k1, k2, k3, k4⟩ :=
    ParseNumber_skip_trailing_spec s fr.length (us + ip.length + 1) hlen
  rw [htake] at k3 k4
  constructor
  · have hq := ParseNumber_frac_loop_bound s
      (ParseNumber_skip_trailing s fr.length (us + ip.length + 1 + fr.length)
        - (us + ip.length + 1))
      (us + ip.length + 1) (by omega) (fun c hc => hfr c (k4 c hc))
    have e3 : us + ip.length + 1
        + (ParseNumber_skip_trailing s fr.length (us + ip.length + 1 + fr.length)
          - (us + ip.length + 1))
        = ParseNumber_skip_trailing s fr.length (us + ip.length + 1 + fr.length) := by omega
    rw [e3, k3] at hq
    exact hq
  · intro h0
    rw [ParseNumber_skip_trailing_zeros s fr.length (us + ip.length + 1) hlen
      (by rw [htake]; exact h0), Nat.sub_self]
    rfl

theorem ParseNumber_d_result_0_3 (i_result : Int) (d0 : ℚ) :
    (ParseNumber "0.3".toList i_result (some d0)).d_result
      = some (1351079888211149 / 4503599627370496) := by
  have h : (ParseNumber "0.3".toList i_result (some d0)).d_result
      = some (F64_round (F64_round (((0 : Int) : ℚ)
          + F64_round (0 + F64_round (TenPower_double (-((0 + 1 : Nat) : Int))
              * ((3 : Int) : ℚ))))
          * ((1 : Int) : ℚ))) := rfl
  rw [h, TenPower_double_neg]
  norm_num [TenPower_double_down, F64_round_tenth, F64_round_value_1, F64_round_value_2,
    F64_round_value_3]

theorem ParseNumber_d_result_m3_5f (i_result : Int) (d0 : ℚ) :
    (ParseNumber "-3.5f".toList i_result (some d0)).d_result = some (-(7 / 2)) := by
  have h : (ParseNumber "-3.5f".toList i_result (some d0)).d_result
      = some (F64_round (F64_round (((3 : Int) : ℚ)
          + F64_round (0 + F64_round (TenPower_double (-((0 + 1 : Nat) : Int))
              * ((5 : Int) : ℚ))))
          * ((-1 : Int) : ℚ))) := rfl
  rw [h, TenPower_double_neg]
  norm_num [TenPower_double_down, F64_round_tenth, F64_round_value_1, F64_round_value_4,
    F64_round_value_5, F64_round_value_6, F64_round_value_7]

theorem ParseNumber_d_result_p25 (i_result : Int) (d0 : ℚ) :
    (ParseNumber ".25".toList i_result (some d0)).d_result = some (1 / 4) := by
  have h : (ParseNumber ".25".toList i_result (some d0)).d_result
      = some (F64_round (F64_round (((0 : Int) : ℚ)
          + F64_round (F64_round (0 + F64_round (TenPower_double (-((1 + 1 : Nat) : Int))
              * ((5 : Int) : ℚ)))
            + F64_round (TenPower_double (-((0 + 1 : Nat) : Int)) * ((2 : Int) : ℚ))))
          * ((1 : Int) : ℚ))) := rfl
  rw [h, TenPower_double_neg, TenPower_double_neg]
  norm_num [TenPower_double_down, F64_round_tenth, F64_round_value_1, F64_round_value_8,
    F64_round_value_9, F64_round_value_10, F64_round_value_11, F64_round_value_12]

theorem ParseNumber_d_result_frac (s : List Char) (i_result : Int) (d0 : ℚ)
    (hg : number_grammar s = true) :
    ∃ f : ℚ,
      (ParseNumber s i_result (some d0)).d_result
        = some (F64_round (F64_round
            (((S32_wrap (decimal_value (integer_digit_run s) : Int) : Int) : ℚ) + f)
            * (number_sign s : ℚ))) ∧
      |f - fraction_value (fraction_digit_run s)| ≤ 20 / 2 ^ 53 + 358 * (22 / 2 ^ 1075) ∧
      ((∀ c ∈ fraction_digit_run s, c = '0') → f = 0) ∧
      (∀ c ∈ fraction_digit_run s, c ∈ "0123456789".toList) := by
  have hok : (ParseNumber s i_result (some d0)).ok = true :=
    (ParseNumber_ok_iff s i_result (some d0)).mpr ((ParseNumber_checks_iff_grammar s).mpr hg)
  obtain ⟨hB, hcount, _⟩ := (number_grammar_iff s).mp hg
  obtain ⟨us, suffix, h1, h2, h3, h4, h5, h6⟩ := accepted_layout s hg
  rcases ParseNumber_cases s i_result (some d0) with hc | hc
  · rw [hc] at hok; cases hok
  rw [hc, ParseNumber_value_d_result, h1, h2, h3]
  unfold integer_digit_run fraction_digit_run
  generalize strip_f (strip_sign s) = B at hB hcount h3 h4 h6 ⊢
  rw [dot_index_of_layout s B suffix us h4 h5]
  by_cases hdot : '.' ∈ B
  · rw [if_pos hdot]
    dsimp only
    have hBeq := dropWhile_ne_of_mem B '.' hdot
    have hfr : ∀ c ∈ (B.dropWhile (fun c => c != '.')).drop 1, c ∈ "0123456789".toList := by
      intro c hc
      have hcB : c ∈ B := by
        rw [hBeq]
        exact List.mem_append_right _ (List.mem_cons_of_mem _ hc)
      rcases hB c hcB with h | h
      · exact h
      · exfalso
        subst h
        have hcnt : B.count '.' = (B.takeWhile (fun c => c != '.')).count '.' + 1
            + ((B.dropWhile (fun c => c != '.')).drop 1).count '.' := by
          conv_lhs => rw [hBeq]
          rw [List.count_append, List.count_cons_self]
          omega
        have hpos : 0 < ((B.dropWhile (fun c => c != '.')).drop 1).count '.' :=
          List.count_pos_iff.mpr hc
        omega
    have hf := frac_part_of_layout s (B.takeWhile (fun c => c != '.'))
      ((B.dropWhile (fun c => c != '.')).drop 1) suffix us (by rw [← hBeq]; exact h4)
      (by rw [← hBeq]; exact h6) hfr
    rw [← hBeq] at hf
    rw [Nat.add_sub_cancel_left, int_part_of_layout s B suffix us h4 h6 hB]
    exact ⟨_, rfl, hf.1, hf.2, hfr⟩
  · rw [if_neg hdot]
    dsimp only
    have htw := takeWhile_of_not_mem B '.' hdot
    have hi := int_part_of_layout s B suffix us h4 h6 hB
    rw [htw] at hi ⊢
    rw [Nat.add_sub_cancel_left, hi, dropWhile_ne_of_not_mem B '.' hdot, Nat.sub_self]
    have e0 : ParseNumber_frac_loop s
        (ParseNumber_skip_trailing s 0 (us + B.length) - (us + B.length))
        (ParseNumber_skip_trailing s 0 (us + B.length)) 0 = 0 := by
      rw [ParseNumber_skip_trailing, Nat.sub_self]
      rfl
    rw [e0]
    refine ⟨0, rfl, ?_, fun _ => rfl, ?_⟩
    · simp only [List.drop_nil, fraction_value, fraction_value_from, sub_self, abs_zero]
      positivity
    · intro c hc
      simp at hc

theorem stored_double_err (a f F sg : ℚ) (hF0 : 0 ≤ F) (hF1 : F ≤ 1)
    (hf : |f - F| ≤ 20 / 2 ^ 53 + 358 * (22 / 2 ^ 1075)) (hs : sg = 1 ∨ sg = -1) :
    |F64_round (F64_round (a + f) * sg) - (a + F) * sg| ≤ (|a| + 1) / 2 ^ 48 := by
  have hy := F64_round_err (a + f)
  have hd := F64_round_err (F64_round (a + f) * sg)
  have hsa : |F64_round (a + f) * sg| = |F64_round (a + f)| := by
    rcases hs with rfl | rfl <;> simp
  rw [hsa] at hd
  have hfa : |f| ≤ F + (20 / 2 ^ 53 + 358 * (22 / 2 ^ 1075)) := by
    have := abs_sub_abs_le_abs_sub f F
    rw [abs_of_nonneg hF0] at this
    linarith
  have haf : |a + f| ≤ |a| + 1 + (20 / 2 ^ 53 + 358 * (22 / 2 ^ 1075)) := by
    have := abs_add a f
    linarith
  have hya : |F64_round (a + f)| ≤ |a + f| + (|a + f| / 2 ^ 53 + 1 / 2 ^ 1075) := by
    have := abs_sub_abs_le_abs_sub (F64_round (a + f)) (a + f)
    linarith
  have hM : 0 ≤ |a| := abs_nonneg a
  generalize F64_round (F64_round (a + f) * sg) = d at hd ⊢
  generalize F64_round (a + f) = y at hy hd hya
  generalize |a + f| = w at hy haf hya
  generalize |y| = v at hd hya
  generalize |a| = M at haf hM ⊢
  rcases hs with rfl | rfl
  · rw [mul_one] at hd ⊢
    rw [abs_le] at hy hd hf ⊢
    constructor <;> linarith
  · rw [mul_neg, mul_one] at hd ⊢
    rw [abs_le] at hy hd hf ⊢
    constructor <;> linarith

theorem stored_double_exact (a sg : Int) (ha : |a| < 2 ^ 53) (hs : sg = 1 ∨ sg = -1) :
    F64_round (F64_round ((a : ℚ) + 0) * (sg : ℚ)) = ((a : ℚ) + 0) * (sg : ℚ) := by
  rw [add_zero, F64_round_int a ha, ← Int.cast_mul]
  apply F64_round_int
  rcases hs with rfl | rfl
  · rw [mul_one]; exact ha
  · rw [mul_neg, mul_one, abs_neg]; exact ha

theorem number_sign_cases (s : List Char) : number_sign s = 1 ∨ number_sign s = -1 := by
  unfold number_sign
  split_ifs
  · exact Or.inr rfl
  · exact Or.inl rfl

theorem fraction_value_append_zeros (l : List Char) :
    ∀ n, fraction_value (l ++ List.replicate n '0') = fraction_value l := by
  intro n
  induction n with
  | zero => simp
  | succ n ih =>
    rw [List.replicate_succ', ← List.append_assoc]
    unfold fraction_value at ih ⊢
    rw [fraction_value_from_append_zero, ih]

theorem fraction_exact_value_0_3 :
    (((S32_wrap (decimal_value (integer_digit_run "0.3".toList) : Int) : Int) : ℚ)
        + fraction_value (fraction_digit_run "0.3".toList))
      * (number_sign "0.3".toList : ℚ) = 3 / 10 := by
  have e1 : S32_wrap (decimal_value (integer_digit_run "0.3".toList) : Int) = 0 := by decide
  have e2 : fraction_digit_run "0.3".toList = ['3'] := by decide
  have e3 : number_sign "0.3".toList = 1 := by decide
  have e4 : digit_value '3' = 3 := by decide
  rw [e1, e2, e3, fraction_value, fraction_value_from, fraction_value_from, e4]
  norm_num

/-- C38, the claim as stated fails: `ParseNumber` computes in `double`, so for the accepted
text `0.3` the value stored through `d_result` is `0x1.3333333333334p-2 =
0.3000000000000000444...` (the rounded product of the `double` nearest `0.1` and `3`), while
`(I + F) * sign` is `3 / 10`. -/
theorem ParseNumber_0_3_stores_rounded_value :
    (ParseNumber "0.3".toList 0 (some 0)).ok = true ∧
    (ParseNumber "0.3".toList 0 (some 0)).d_result
      = some (1351079888211149 / 4503599627370496) ∧
    (((S32_wrap (decimal_value (integer_digit_run "0.3".toList) : Int) : Int) : ℚ)
        + fraction_value (fraction_digit_run "0.3".toList))
      * (number_sign "0.3".toList : ℚ) = 3 / 10 ∧
    (ParseNumber "0.3".toList 0 (some 0)).d_result
      ≠ some ((((S32_wrap (decimal_value (integer_digit_run "0.3".toList) : Int) : Int) : ℚ)
          + fraction_value (fraction_digit_run "0.3".toList))
        * (number_sign "0.3".toList : ℚ)) := by
  refine ⟨by decide, ParseNumber_d_result_0_3 0 0, fraction_exact_value_0_3, ?_⟩
  rw [ParseNumber_d_result_0_3, fraction_exact_value_0_3]
  intro h
  have h2 := Option.some.inj h
  norm_num at h2

/-- C38, amended.  For every text `ParseNumber` accepts, when a fractional slot is passed, a
`double` `d` is stored that lies within `(|I| + 1) / 2 ^ 48` of `(I + F) * sign`, and equals
`(I + F) * sign` when every digit after the `.` is `0` (in particular when there is none).
`I` is the integer part computed for the integer result: the decimal value of the digit run
before the `.` reduced to a signed 32-bit value, so that the integer result is `I * sign`
reduced likewise and `I` is the decimal value itself below `2 ^ 31`.  `F` is the sum of
`d_j * 10 ^ (-j)` over the digits after the `.`, `0` when there are none and unchanged by
trailing zeros, and `sign` is `-1` exactly when the text starts with `-` and `1` otherwise.
`-3.5f` stores `-7/2` and `.25` stores `1/4` exactly; `0.3` stores
`1351079888211149 / 2 ^ 52 = 0.3000000000000000444...`, not `3/10`. -/
theorem ParseNumber_fraction_result (s : List Char) (i_result : Int) (d0 : ℚ)
    (h : (ParseNumber s i_result (some d0)).ok = true) :
    (∃ d : ℚ,
      (ParseNumber s i_result (some d0)).d_result = some d ∧
      |d - (((S32_wrap (decimal_value (integer_digit_run s) : Int) : Int) : ℚ)
            + fraction_value (fraction_digit_run s)) * (number_sign s : ℚ)|
        ≤ (|((S32_wrap (decimal_value (integer_digit_run s) : Int) : Int) : ℚ)| + 1) / 2 ^ 48 ∧
      ((∀ c ∈ fraction_digit_run s, c = '0') →
        d = (((S32_wrap (decimal_value (integer_digit_run s) : Int) : Int) : ℚ)
            + fraction_value (fraction_digit_run s)) * (number_sign s : ℚ))) ∧
    (ParseNumber s i_result (some d0)).i_result
      = S32_wrap (S32_wrap (decimal_value (integer_digit_run s) : Int) * number_sign s) ∧
    ((decimal_value (integer_digit_run s) : Int) < 2147483648 →
      S32_wrap (decimal_value (integer_digit_run s) : Int)
        = (decimal_value (integer_digit_run s) : Int)) ∧
    ((∀ c ∈ fraction_digit_run s, c = '0') → fraction_value (fraction_digit_run s) = 0) ∧
    (∀ n, fraction_value (fraction_digit_run s ++ List.replicate n '0')
      = fraction_value (fraction_digit_run s)) ∧
    (number_sign s = -1 ↔ s.head? = some '-') ∧
    (s.head? ≠ some '-' → number_sign s = 1) ∧
    (ParseNumber "-3.5f".toList i_result (some d0)).d_result = some (-(7 / 2)) ∧
    (ParseNumber ".25".toList i_result (some d0)).d_result = some (1 / 4) ∧
    (ParseNumber "0.3".toList i_result (some d0)).d_result
      = some (1351079888211149 / 4503599627370496) := by
  have hg : number_grammar s = true :=
    (ParseNumber_checks_iff_grammar s).mp ((ParseNumber_ok_iff s i_result (some d0)).mp h)
  obtain ⟨f, hd, hf, hz, hdig⟩ := ParseNumber_d_result_frac s i_result d0 hg
  have hF0 : 0 ≤ fraction_value (fraction_digit_run s) := fraction_value_from_nonneg _ _
  have hF1 : fraction_value (fraction_digit_run s) ≤ 1 := by
    have := fraction_value_from_le (fraction_digit_run s) 0 hdig
    rw [pow_zero, div_one] at this
    exact this
  have hFz : (∀ c ∈ fraction_digit_run s, c = '0') →
      fraction_value (fraction_digit_run s) = 0 :=
    fun h0 => fraction_value_from_zeros _ _ h0
  have hsg : (number_sign s : ℚ) = 1 ∨ (number_sign s : ℚ) = -1 := by
    rcases number_sign_cases s with e | e <;> rw [e]
    · exact Or.inl (by norm_num)
    · exact Or.inr (by norm_num)
  have hI := S32_wrap_range (decimal_value (integer_digit_run s) : Int)
  refine ⟨⟨_, hd, stored_double_err _ _ _ _ hF0 hF1 hf hsg, ?_⟩, ?_, ?_, hFz, ?_, ?_, ?_,
    ParseNumber_d_result_m3_5f i_result d0, ParseNumber_d_result_p25 i_result d0,
    ParseNumber_d_result_0_3 i_result d0⟩
  · intro h0
    rw [hz h0, hFz h0]
    apply stored_double_exact _ _ _ (number_sign_cases s)
    rw [abs_lt]
    constructor <;> omega
  · rw [ParseNumber_i_result_eq s i_result (some d0) hg]
    apply S32_wrap_congr
    rw [mul_comm]
    exact ((S32_wrap_modEq _).mul_right _).symm
  · intro hlt
    exact S32_wrap_of_range _ (by omega) hlt
  · exact fraction_value_append_zeros _
  · unfold number_sign
    split_ifs with hh
    · exact ⟨fun _ => hh, fun _ => rfl⟩
    · exact ⟨fun e => absurd e (by decide), fun e => absurd e hh⟩
  · intro hh
    unfold number_sign
    rw [if_neg hh]

theorem ParseNumber_fraction_result_witness :
    (ParseNumber "-3.5f".toList 0 (some 0)).ok = true ∧
    ∃ d : ℚ,
      (ParseNumber "-3.5f".toList 0 (some 0)).d_result = some d ∧
      |d - (((S32_wrap (decimal_value (integer_digit_run "-3.5f".toList) : Int) : Int) : ℚ)
            + fraction_value (fraction_digit_run "-3.5f".toList))
          * (number_sign "-3.5f".toList : ℚ)|
        ≤ (|((S32_wrap (decimal_value (integer_digit_run "-3.5f".toList) : Int) : Int) : ℚ)|
            + 1) / 2 ^ 48 ∧
      ((∀ c ∈ fraction_digit_run "-3.5f".toList, c = '0') →
        d = (((S32_wrap (decimal_value (integer_digit_run "-3.5f".toList) : Int) : Int) : ℚ)
            + fraction_value (fraction_digit_run "-3.5f".toList))
          * (number_sign "-3.5f".toList : ℚ)) :=
  ⟨by decide, (ParseNumber_fraction_result "-3.5f".toList 0 0 (by decide)).1⟩

end Zv3D
